import Mathlib

/-!
BrickStore catalog database: chunk container, entity codecs, update life cycle.

A shallow embedding of `src/utility/chunkreader.h` and `src/bricklink/database.h`.

* `ChunkId`, `ChunkVersion` and `Database.Version` are translated from the source text.
* The bodies of `ChunkReader`, `ChunkWriter` and `Database` live in `.cpp` files that are not
  part of the sources at hand; only the declarations are.  Their signatures and state fields
  follow the headers, their behaviour is modelled from the specification, and each such
  definition says so in its doc comment.

* `desktop/headerview.cpp`, `desktop/smartvalidator.cpp`, `common/script.cpp`,
  `ldraw/rendercontroller.cpp` and `bricklink/cart.cpp` are translated from the source text;
  the Qt library calls they make (header sections, byte arrays, JSON values) are modelled, and
  parsers and catalog lookups from outside these files are parameters.

Machine integers are natural numbers with explicit reduction modulo `2 ^ w`; a byte stream is a
list of naturals of which only the value modulo 256 is ever interpreted.
-/

namespace BrickStore

/-! ## `chunkreader.h`: chunk identifiers -/

/-- The argument `char const (&str)[5]` of `ChunkId`: the four characters before the
terminating NUL, each given by the 8-bit pattern of the `char`.  (For a signed `char` the
promotion to `int` sign-extends, and `& 0x7f` then keeps the low seven bits of that same
pattern.) -/
structure ChunkName where
  c0 : Nat
  c1 : Nat
  c2 : Nat
  c3 : Nat
  deriving DecidableEq, Repr

/-- `constexpr quint32 ChunkId(char const(&str)[N])`:
`(quint32(str[3] & 0x7f) << 24) | (quint32(str[2] & 0x7f) << 16) |
 (quint32(str[1] & 0x7f) << 8) | quint32(str[0] & 0x7f)`, every `quint32` operation reduced
modulo `2 ^ 32`. -/
def ChunkId (str : ChunkName) : Nat :=
  ((((str.c3 &&& 0x7f) % 2 ^ 32) <<< 24) % 2 ^ 32 ||| (((str.c2 &&& 0x7f) % 2 ^ 32) <<< 16) % 2 ^ 32 |||
    (((str.c1 &&& 0x7f) % 2 ^ 32) <<< 8) % 2 ^ 32 ||| ((str.c0 &&& 0x7f) % 2 ^ 32)) % 2 ^ 32

/-- `constexpr quint64 ChunkVersion(uint v)`: `quint64(v) << 32`, with `v` a 32-bit unsigned
and the shift reduced modulo `2 ^ 64`. -/
def ChunkVersion (v : Nat) : Nat :=
  ((v % 2 ^ 32) <<< 32) % 2 ^ 64

/-! ## `QDataStream` primitives -/

/-- `QDataStream::ByteOrder`. -/
inductive ByteOrder where
  | BigEndian
  | LittleEndian
  deriving DecidableEq, Repr

/-- The `n` low-order bytes of `v`, least significant first. -/
def leBytes : Nat → Nat → List Nat
  | 0, _ => []
  | n + 1, v => (v % 256) :: leBytes n (v / 256)

/-- The value of a byte sequence read least significant byte first. -/
def leValue : List Nat → Nat
  | [] => 0
  | b :: bs => b % 256 + 256 * leValue bs

/-- `QDataStream::operator<<` for an unsigned integer of `width` bytes (the value is truncated
to the width, as the C++ conversion does). -/
def putUInt (bo : ByteOrder) (width v : Nat) : List Nat :=
  match bo with
  | .LittleEndian => leBytes width v
  | .BigEndian => (leBytes width v).reverse

/-- `QDataStream::operator>>` for an unsigned integer stored in the given bytes. -/
def getUInt (bo : ByteOrder) (bytes : List Nat) : Nat :=
  match bo with
  | .LittleEndian => leValue bytes
  | .BigEndian => leValue bytes.reverse

/-- Reading `n` bytes at `pos` from a random-access device; fails when fewer than `n` bytes
are left. -/
def readRaw (dev : List Nat) (pos n : Nat) : Option (List Nat) :=
  if pos + n ≤ dev.length then some ((dev.drop pos).take n) else none

/-- Writing `bytes` at offset `off` into a device whose contents are `dev`, as
`QIODevice::seek(off)` followed by a write does. -/
def overwrite (dev : List Nat) (off : Nat) (bytes : List Nat) : List Nat :=
  dev.take off ++ bytes ++ dev.drop (off + bytes.length)

/-- The byte layout of one chunk as the specification gives it: 4-byte identifier, 4-byte
version, 8-byte length, payload bytes. -/
def chunkBytes (bo : ByteOrder) (id version : Nat) (payload : List Nat) : List Nat :=
  putUInt bo 4 id ++ putUInt bo 4 version ++ putUInt bo 8 payload.length ++ payload

/-! ## `chunkreader.h`: `ChunkReader` -/

/-- `ChunkReader::read_chunk_info`.  `startpos` is the device position of the first payload
byte, `size` the declared payload length. -/
structure read_chunk_info where
  id : Nat
  version : Nat
  startpos : Nat
  size : Nat
  deriving DecidableEq, Repr

/-- `class ChunkReader`: the device contents and position (`m_file`), the byte order of
`m_stream`, and the stack `m_chunks` of open chunks (head = top). -/
structure ChunkReader where
  m_file : List Nat
  pos : Nat
  bo : ByteOrder
  m_chunks : List read_chunk_info
  deriving DecidableEq, Repr

namespace ChunkReader

/-- `ChunkReader::ChunkReader(QIODevice *dev, QDataStream::ByteOrder bo)`. -/
def new (dev : List Nat) (bo : ByteOrder) : ChunkReader :=
  { m_file := dev, pos := 0, bo := bo, m_chunks := [] }

/-- The end of the region in which the next chunk has to lie: the end of the declared region
of the innermost open chunk, or the end of the stream when no chunk is open. -/
def enclosingEnd (cr : ChunkReader) : Nat :=
  match cr.m_chunks with
  | [] => cr.m_file.length
  | top :: _ => top.startpos + top.size

/-- Modelled from the spec: the body of `bool ChunkReader::startChunk()` (chunkreader.cpp is
not among the sources).  It reads the 16 header bytes (identifier, version, length) and
leaves the stream at the first payload byte; it fails, opening nothing, when the stream is
truncated or the declared length would run past the enclosing chunk's bounds. -/
def startChunk (cr : ChunkReader) : Bool × ChunkReader :=
  match readRaw cr.m_file cr.pos 16 with
  | none => (false, cr)
  | some hdr =>
    let ci : read_chunk_info :=
      { id := getUInt cr.bo (hdr.take 4)
        version := getUInt cr.bo ((hdr.drop 4).take 4)
        startpos := cr.pos + 16
        size := getUInt cr.bo (hdr.drop 8) }
    if ci.startpos + ci.size ≤ cr.enclosingEnd then
      (true, { cr with pos := ci.startpos, m_chunks := ci :: cr.m_chunks })
    else
      (false, cr)

/-- Modelled from the spec: the body of `bool ChunkReader::endChunk()`.  It closes the
innermost open chunk and moves the stream to the end of that chunk's declared region,
however much of the payload was consumed. -/
def endChunk (cr : ChunkReader) : Bool × ChunkReader :=
  match cr.m_chunks with
  | [] => (false, cr)
  | top :: rest => (true, { cr with pos := top.startpos + top.size, m_chunks := rest })

/-- Modelled from the spec: the body of `bool ChunkReader::skipChunk()`.  It jumps forward to
the end of the declared region of the innermost open chunk without parsing the payload; the
chunk stays open until `endChunk`. -/
def skipChunk (cr : ChunkReader) : Bool × ChunkReader :=
  match cr.m_chunks with
  | [] => (false, cr)
  | top :: _ => (true, { cr with pos := top.startpos + top.size })

/-- `quint32 ChunkReader::chunkId() const`: the identifier of the innermost open chunk. -/
def chunkId (cr : ChunkReader) : Nat :=
  match cr.m_chunks with
  | [] => 0
  | top :: _ => top.id

/-- `quint32 ChunkReader::chunkVersion() const`. -/
def chunkVersion (cr : ChunkReader) : Nat :=
  match cr.m_chunks with
  | [] => 0
  | top :: _ => top.version

/-- `qint64 ChunkReader::chunkSize() const`. -/
def chunkSize (cr : ChunkReader) : Nat :=
  match cr.m_chunks with
  | [] => 0
  | top :: _ => top.size

/-- The payload start position of the innermost open chunk (`read_chunk_info::startpos`). -/
def chunkStart (cr : ChunkReader) : Nat :=
  match cr.m_chunks with
  | [] => 0
  | top :: _ => top.startpos

/-- The bytes of a sequence of complete chunks, each given by identifier, version and
payload, one after the other. -/
def chunksBytes (bo : ByteOrder) : List (Nat × Nat × List Nat) → List Nat
  | [] => []
  | c :: cs => chunkBytes bo c.1 c.2.1 c.2.2 ++ chunksBytes bo cs

end ChunkReader

/-! ## `chunkreader.h`: `ChunkWriter` -/

/-- `ChunkWriter::write_chunk_info`. -/
structure write_chunk_info where
  id : Nat
  version : Nat
  startpos : Nat
  deriving DecidableEq, Repr

/-- `class ChunkWriter`: the device contents (`m_file`; between two calls the device position
is the end of the contents), the byte order of `m_stream`, and the stack `m_chunks`. -/
structure ChunkWriter where
  m_file : List Nat
  bo : ByteOrder
  m_chunks : List write_chunk_info
  deriving DecidableEq, Repr

namespace ChunkWriter

/-- `ChunkWriter::ChunkWriter(QIODevice *dev, QDataStream::ByteOrder bo)` on an empty device. -/
def new (bo : ByteOrder) : ChunkWriter :=
  { m_file := [], bo := bo, m_chunks := [] }

/-- The device position `m_file->pos()`. -/
def pos (cw : ChunkWriter) : Nat := cw.m_file.length

/-- Writing raw payload bytes through `dataStream()`. -/
def writeBytes (cw : ChunkWriter) (bytes : List Nat) : ChunkWriter :=
  { cw with m_file := cw.m_file ++ bytes }

/-- Modelled from the spec: the body of `bool ChunkWriter::startChunk(quint32 id, quint32
version)`.  It writes identifier, version and a reserved 8-byte length field and pushes a
size-backpatch entry whose `startpos` is the position of the first payload byte. -/
def startChunk (cw : ChunkWriter) (id version : Nat) : Bool × ChunkWriter :=
  let cw1 := cw.writeBytes (putUInt cw.bo 4 id ++ putUInt cw.bo 4 version ++ putUInt cw.bo 8 0)
  (true, { cw1 with
    m_chunks := { id := id % 2 ^ 32, version := version % 2 ^ 32, startpos := cw1.pos } :: cw.m_chunks })

/-- Modelled from the spec: the body of `bool ChunkWriter::endChunk()`.  It pops the entry,
computes the payload length as current position minus chunk start and writes it into the
reserved length field, which is the eight bytes before the chunk start. -/
def endChunk (cw : ChunkWriter) : Bool × ChunkWriter :=
  match cw.m_chunks with
  | [] => (false, cw)
  | top :: rest =>
    let len := cw.pos - top.startpos
    (true, { cw with
      m_file := overwrite cw.m_file (top.startpos - 8) (putUInt cw.bo 8 len)
      m_chunks := rest })

end ChunkWriter

/-- One step of producing a chunk payload: raw bytes, opening a child chunk, closing one. -/
inductive WriteOp where
  | raw (bytes : List Nat)
  | startChunk (id version : Nat)
  | endChunk
  deriving DecidableEq, Repr

/-- Performing one payload step on a writer. -/
def ChunkWriter.step (cw : ChunkWriter) : WriteOp → ChunkWriter
  | .raw bytes => cw.writeBytes bytes
  | .startChunk id version => (cw.startChunk id version).2
  | .endChunk => cw.endChunk.2

/-- Performing payload steps in order. -/
def ChunkWriter.run (cw : ChunkWriter) (ops : List WriteOp) : ChunkWriter :=
  ops.foldl ChunkWriter.step cw

/-- The steps open and close child chunks in stack order: no `endChunk` without a matching
earlier `startChunk` among the steps, and `depth` chunks are closed more than opened. -/
def properlyNested : Nat → List WriteOp → Bool
  | depth, [] => depth == 0
  | depth, .raw _ :: ops => properlyNested depth ops
  | depth, .startChunk _ _ :: ops => properlyNested (depth + 1) ops
  | 0, .endChunk :: _ => false
  | depth + 1, .endChunk :: ops => properlyNested depth ops

/-! ## `database.h`: format versions -/

/-- `enum class Database::Version`. -/
inductive Database.Version where
  | Invalid
  | V1
  | V2
  | V3
  | V4
  | V5
  | V6
  | V7
  | V8
  | V9
  | V10
  | V11
  | V12
  deriving DecidableEq, Repr

namespace Database.Version

/-- All enumerators in declaration order. -/
def all : List Database.Version :=
  [Invalid, V1, V2, V3, V4, V5, V6, V7, V8, V9, V10, V11, V12]

/-- The integer value of an enumerator.  No enumerator before `OldestStillSupported` has an
initialiser, so the first one is 0 and each following one is one more than the one before
it: the value is the position in the declaration. -/
def toNat (v : Database.Version) : Nat :=
  all.indexOf v

/-- `OldestStillSupported = V6`. -/
def OldestStillSupported : Database.Version := V6

/-- `Latest = V12`. -/
def Latest : Database.Version := V12

/-- The enumerator with a given integer value, if there is one. -/
def ofNat? (n : Nat) : Option Database.Version :=
  all[n]?

end Database.Version

/-! ## `utility/memoryresource.h`: the arena behind `Database::m_pool` -/

/-- Modelled from the spec: one memory block of the arena (memoryresource.h is not among the
sources): its capacity and the bytes handed out so far (the bump
pointer is the length of `bytes`). -/
structure Block where
  capacity : Nat
  bytes : List Nat
  deriving DecidableEq, Repr

/-- Modelled from the spec: an arena-owned byte range, an offset/length pair into an arena
block. -/
structure ByteRange where
  block : Nat
  offset : Nat
  length : Nat
  deriving DecidableEq, Repr

/-- Modelled from the spec: the arena allocator `MemoryResource` (memoryresource.h is not
among the sources).  It owns blocks that are never moved, reordered or released one by one;
`current` is the block in which small requests are bump-allocated. -/
structure MemoryResource where
  blockSize : Nat
  blocks : List Block
  current : Option Nat
  deriving DecidableEq, Repr

namespace MemoryResource

/-- Modelled from the spec: an arena that owns no block yet. -/
def empty (blockSize : Nat) : MemoryResource :=
  { blockSize := blockSize, blocks := [], current := none }

/-- Modelled from the spec: opening a block of the given capacity for a first request of
`byteCount` bytes. -/
def openBlock (pool : MemoryResource) (capacity byteCount : Nat) (makeCurrent : Bool) :
    ByteRange × MemoryResource :=
  ({ block := pool.blocks.length, offset := 0, length := byteCount },
   { pool with
     blocks := pool.blocks ++ [{ capacity := capacity, bytes := List.replicate byteCount 0 }]
     current := if makeCurrent then some pool.blocks.length else pool.current })

/-- Modelled from the spec: `allocate(byteCount)`.  A request larger than one block gets its
own dedicated block; any other request is bump-allocated in the current block, and a new
block of `blockSize` bytes is opened when the current one is exhausted.  Fresh bytes read as
zero. -/
def allocate (pool : MemoryResource) (byteCount : Nat) : ByteRange × MemoryResource :=
  if pool.blockSize < byteCount then
    pool.openBlock byteCount byteCount false
  else
    match pool.current with
    | none => pool.openBlock pool.blockSize byteCount true
    | some i =>
      match pool.blocks[i]? with
      | none => pool.openBlock pool.blockSize byteCount true
      | some b =>
        if b.bytes.length + byteCount ≤ b.capacity then
          ({ block := i, offset := b.bytes.length, length := byteCount },
           { pool with
             blocks := pool.blocks.set i { b with bytes := b.bytes ++ List.replicate byteCount 0 } })
        else
          pool.openBlock pool.blockSize byteCount true

/-- Modelled from the spec: copying `data` into a range of the arena. -/
def write (pool : MemoryResource) (r : ByteRange) (data : List Nat) : MemoryResource :=
  match pool.blocks[r.block]? with
  | none => pool
  | some b => { pool with blocks := pool.blocks.set r.block { b with bytes := overwrite b.bytes r.offset data } }

/-- Modelled from the spec: the bytes a view refers to; `none` when the range is not inside a
block of the arena. -/
def read (pool : MemoryResource) (r : ByteRange) : Option (List Nat) :=
  match pool.blocks[r.block]? with
  | none => none
  | some b => readRaw b.bytes r.offset r.length

/-- Modelled from the spec: copying `data` into the arena once, by allocating a range of its
length and filling it. -/
def store (pool : MemoryResource) (data : List Nat) : ByteRange × MemoryResource :=
  ((pool.allocate data.length).1, (pool.allocate data.length).2.write (pool.allocate data.length).1 data)

end MemoryResource

/-! ## `database.h`: entity codecs -/

/-- The record kinds that have a `read…FromDatabase` / `write…ToDatabase` pair. -/
inductive EntityKind where
  | Color
  | Category
  | ItemType
  | Item
  | ItemChangeLogEntry
  | ColorChangeLogEntry
  | Relationship
  | RelationshipMatch
  | ApiKey
  deriving DecidableEq, Repr

/-- Modelled from the spec: the two field representations of the entity codecs (the record
types are declared in headers that are not among the sources): a numeric field of fixed width (in
bytes) and signedness, and a string or array field (length prefix, then raw bytes). -/
inductive FieldType where
  | num (width : Nat) (signed : Bool)
  | bytes
  deriving DecidableEq, Repr

/-- Modelled from the spec: a field of a record in memory, a number or a non-owning view
into the arena. -/
inductive FieldValue where
  | num (v : Int)
  | view (r : ByteRange)
  deriving DecidableEq, Repr

/-- Modelled from the spec: a record in memory, its fields in declaration order. -/
abbrev Record := List FieldValue

/-- What a field holds once its view is followed into the arena. -/
inductive FieldContent where
  | num (v : Int)
  | bytes (data : List Nat)
  deriving DecidableEq, Repr

/-- Following the view of a field into the arena. -/
def FieldValue.resolve (pool : MemoryResource) : FieldValue → Option FieldContent
  | .num v => some (.num v)
  | .view r =>
    match pool.read r with
    | none => none
    | some data => some (.bytes data)

/-- The contents of a record: all fields resolved; `none` if a view dangles. -/
def resolveRecord (pool : MemoryResource) : Record → Option (List FieldContent)
  | [] => some []
  | v :: vs =>
    match v.resolve pool, resolveRecord pool vs with
    | some c, some cs => some (c :: cs)
    | _, _ => none

/-- A field value is of the given type: a number in the range of its width and signedness, or
a view of fewer than `2 ^ 32` bytes that is inside the arena. -/
def FieldValue.conforms (pool : MemoryResource) : FieldType → FieldValue → Bool
  | .num width false, .num v => decide (0 ≤ v ∧ v < 256 ^ width)
  | .num width true, .num v => decide (-(256 ^ width : Int) ≤ 2 * v ∧ 2 * v < 256 ^ width)
  | .bytes, .view r =>
    match pool.read r with
    | none => false
    | some data => decide (data.length < 2 ^ 32)
  | _, _ => false

/-- A record has exactly the fields of a layout, each of its type. -/
def recordConforms (pool : MemoryResource) : List FieldType → Record → Bool
  | [], [] => true
  | t :: ts, v :: vs => v.conforms pool t && recordConforms pool ts vs
  | _, _ => false

/-- `QDataStream::operator<<` for a fixed-width integer, negative values in two's
complement. -/
def putNum (bo : ByteOrder) (width : Nat) (v : Int) : List Nat :=
  putUInt bo width (v % 256 ^ width).toNat

/-- `QDataStream::operator>>` for a fixed-width integer of the given signedness. -/
def getNum (bo : ByteOrder) (width : Nat) (signed : Bool) (bytes : List Nat) : Int :=
  if signed && decide (256 ^ width ≤ 2 * getUInt bo bytes) then
    (getUInt bo bytes : Int) - 256 ^ width
  else
    (getUInt bo bytes : Int)

/-- Modelled from the spec: writing one field.  A numeric field is written in its fixed
width; a string or array field is written as a 4-byte length prefix followed by the raw
bytes.  The result is the bytes appended to the stream (`none` for a value that is not of the
field's type, which the C++ types exclude). -/
def writeField (bo : ByteOrder) (pool : MemoryResource) : FieldType → FieldValue → Option (List Nat)
  | .num width _, .num v => some (putNum bo width v)
  | .bytes, .view r =>
    match pool.read r with
    | none => none
    | some data => some (putUInt bo 4 data.length ++ data)
  | _, _ => none

/-- Modelled from the spec: writing the fields of a record in order. -/
def writeFields (bo : ByteOrder) (pool : MemoryResource) : List FieldType → Record → Option (List Nat)
  | [], [] => some []
  | t :: ts, v :: vs =>
    match writeField bo pool t v, writeFields bo pool ts vs with
    | some b, some bs => some (b ++ bs)
    | _, _ => none
  | _, _ => none

/-- Modelled from the spec: reading one field at `pos`.  A string or array field is copied
into the arena once and referenced by a view.  The result is the value, the new stream
position and the arena; `none` when the stream ends early. -/
def readField (bo : ByteOrder) (dev : List Nat) (pos : Nat) (pool : MemoryResource) :
    FieldType → Option (FieldValue × Nat × MemoryResource)
  | .num width signed =>
    match readRaw dev pos width with
    | none => none
    | some bs => some (.num (getNum bo width signed bs), pos + width, pool)
  | .bytes =>
    match readRaw dev pos 4 with
    | none => none
    | some lb =>
      match readRaw dev (pos + 4) (getUInt bo lb) with
      | none => none
      | some data => some (.view (pool.store data).1, pos + 4 + getUInt bo lb, (pool.store data).2)

/-- Modelled from the spec: reading the fields of a record in order. -/
def readFields (bo : ByteOrder) (dev : List Nat) :
    List FieldType → Nat → MemoryResource → Option (Record × Nat × MemoryResource)
  | [], pos, pool => some ([], pos, pool)
  | t :: ts, pos, pool =>
    match readField bo dev pos pool t with
    | none => none
    | some (v, pos1, pool1) =>
      match readFields bo dev ts pos1 pool1 with
      | none => none
      | some (vs, pos2, pool2) => some (v :: vs, pos2, pool2)

/-- Modelled from the spec: the constants of the database format, which the sources at hand
do not contain: the byte
order of the file, the identifier of the top-level chunk, identifier and version tag of each
table chunk, the field layout of each record kind (declared in color.h, item.h, …), and the
block size of the arena.  For the older generations of the format there are, field by field
of a kind's layout, the container version that introduced the field (`introduced`; a field
without an entry has been there from the start) and the documented default that a record of
an older generation receives for it (`defaults`). -/
structure Format where
  byteOrder : ByteOrder
  magic : Nat
  tableId : EntityKind → Nat
  tableVersion : EntityKind → Nat
  fields : EntityKind → List FieldType
  introduced : EntityKind → List Database.Version
  defaults : EntityKind → List FieldValue
  blockSize : Nat

/-- Modelled from the spec: `Database::writeColorToDatabase`, `writeCategoryToDatabase`,
`writeItemTypeToDatabase`, `writeItemToDatabase`, `writeItemChangeLogToDatabase`,
`writeColorChangeLogToDatabase`, `writeRelationshipToDatabase`,
`writeRelationshipMatchToDatabase` and `writeApiKeyToDatabase` (record, stream, `Version v`),
one per `kind`.  The encoder always emits the latest layout, the one of `fmt`, whatever the
target version; the result is the bytes appended to the stream. -/
def writeToDatabase (fmt : Format) (kind : EntityKind) (pool : MemoryResource) (r : Record)
    (bo : ByteOrder) (_v : Database.Version) : Option (List Nat) :=
  writeFields bo pool (fmt.fields kind) r

/-- Modelled from the spec: `Database::readColorFromDatabase`, `readCategoryFromDatabase`,
`readItemTypeFromDatabase`, `readItemFromDatabase`, `readItemChangeLogFromDatabase`,
`readColorChangeLogFromDatabase`, `readRelationshipFromDatabase`,
`readRelationshipMatchFromDatabase` and `readApiKeyFromDatabase` (record, stream, pool), one
per `kind`; the stream is the device contents, the position and the byte order.  The
declarations take no version: the function reads the fields of the layout that `fmt` gives
for the kind.  For a stream of an older generation `v` that layout is the one of
`fmt.atVersion v`, and `supplyDefaults` completes the record. -/
def readFromDatabase (fmt : Format) (kind : EntityKind) (bo : ByteOrder) (dev : List Nat)
    (pos : Nat) (pool : MemoryResource) : Option (Record × Nat × MemoryResource) :=
  readFields bo dev (fmt.fields kind) pos pool

/-- Modelled from the spec: the entries of a record layout that container generation `v`
defines.  Entry `i` is kept when `v` is not older than the generation that introduced the
field, `introduced[i]`; a field without such an entry has been there from the start. -/
def definedAt {α : Type} (v : Database.Version) : List Database.Version → List α → List α
  | _, [] => []
  | ss, x :: xs =>
    if (ss.headD .Invalid).toNat ≤ v.toNat then x :: definedAt v ss.tail xs
    else definedAt v ss.tail xs

/-- Modelled from the spec: the format as container generation `v` had it.  The layout of
each record kind has the fields that generation defines, all of them present in a stream of
that generation. -/
def Format.atVersion (fmt : Format) (v : Database.Version) : Format :=
  { fmt with
    fields := fun kind => definedAt v (fmt.introduced kind) (fmt.fields kind)
    introduced := fun _ => []
    defaults := fun _ => [] }

/-- Modelled from the spec: the version-specific branch of a decoder that supplies defaults.
`r` holds the fields that generation `v` defines, as read from the stream; the result has
every field of the latest layout `ts`, a field that `v` does not define with its documented
default (0 where the format documents none). -/
def supplyDefaults (v : Database.Version) :
    List Database.Version → List FieldValue → List FieldType → Record → Record
  | _, _, [], _ => []
  | ss, ds, _ :: ts, r =>
    if (ss.headD .Invalid).toNat ≤ v.toNat then
      match r with
      | x :: xs => x :: supplyDefaults v ss.tail ds.tail ts xs
      | [] => []
    else ds.headD (.num 0) :: supplyDefaults v ss.tail ds.tail ts r

/-! ## `database.h`: the catalog store -/

/-- `BrickLink::UpdateStatus` (declared in global.h; the enumerators are those used by the
sources at hand). -/
inductive UpdateStatus where
  | Ok
  | Updating
  | UpdateFailed
  deriving DecidableEq, Repr

/-- `class TransferJob`, as far as the update protocol uses it: a conditional fetch of a URL
with the cached entity tag, if any.  `id` tells jobs apart as the pointer does in C++. -/
structure TransferJob where
  id : Nat
  url : String
  cachedTag : Option String
  deriving DecidableEq, Repr

/-- `class Transfer`, the external transfer collaborator: the jobs handed to it so far. -/
structure Transfer where
  jobs : List TransferJob
  deriving DecidableEq, Repr

/-- Modelled from the spec: what the transfer collaborator reports when a job completes, "not modified", "ok" with a
body and its entity tag, or any other status or transport error. -/
inductive TransferResult where
  | notModified
  | ok (body : List Nat) (tag : String)
  | failed
  deriving DecidableEq, Repr

/-- Modelled from the spec: `FormatError`, with the reason of the failure. -/
inductive FormatError where
  | malformedChunk
  | badMagic
  | unsupportedVersion
  | unexpectedChunk
  | corruptRecord
  deriving DecidableEq, Repr

/-- The state fields of `class Database` (database.h, lines 94 to 116).  `m_lastUpdated` is
`none` for a null `QDateTime` and seconds since the epoch otherwise; `m_pool` is the arena
the `unique_ptr` owns; a record table is the list of its records; `m_apiKeys` is the list of
the (id, key) entries of the hash. -/
structure Database where
  m_updateUrl : String
  m_valid : Bool
  m_updateStatus : UpdateStatus
  m_updateInterval : Int
  m_lastUpdated : Option Nat
  m_etag : String
  m_transfer : Transfer
  m_job : Option TransferJob
  m_pool : MemoryResource
  m_colors : List Record
  m_ldrawExtraColors : List Record
  m_categories : List Record
  m_itemTypes : List Record
  m_items : List Record
  m_itemChangelog : List Record
  m_colorChangelog : List Record
  m_relationships : List Record
  m_relationshipMatches : List Record
  m_apiKeys : List Record
  m_apiQuirks : List Nat
  m_latestChangelogId : Nat
  deriving DecidableEq, Repr

/-- Modelled from the spec: the fixed order of the entity tables in the container, colors, categories, item types,
items, item changelog, color changelog, relationships, relationship matches, API keys. -/
def tableOrder : List EntityKind :=
  [.Color, .Category, .ItemType, .Item, .ItemChangeLogEntry, .ColorChangeLogEntry,
    .Relationship, .RelationshipMatch, .ApiKey]

/-- Modelled from the spec: one decoded generation of the catalog, its arena and its tables in `tableOrder`. -/
structure Catalog where
  pool : MemoryResource
  tables : List (List Record)
  deriving DecidableEq, Repr

/-- Modelled from the spec: reading `count` records of one kind from the stream. -/
def readRecords (fmt : Format) (kind : EntityKind) (bo : ByteOrder) (dev : List Nat) :
    Nat → Nat → MemoryResource → Option (List Record × Nat × MemoryResource)
  | 0, pos, pool => some ([], pos, pool)
  | count + 1, pos, pool =>
    match readFromDatabase fmt kind bo dev pos pool with
    | none => none
    | some (r, pos1, pool1) =>
      match readRecords fmt kind bo dev count pos1 pool1 with
      | none => none
      | some (rs, pos2, pool2) => some (r :: rs, pos2, pool2)

/-- Modelled from the spec: writing the records of one table one after the other. -/
def writeRecords (fmt : Format) (kind : EntityKind) (pool : MemoryResource) (bo : ByteOrder)
    (v : Database.Version) : List Record → Option (List Nat)
  | [] => some []
  | r :: rs =>
    match writeToDatabase fmt kind pool r bo v, writeRecords fmt kind pool bo v rs with
    | some b, some bs => some (b ++ bs)
    | _, _ => none

/-- Modelled from the spec: skipping the unknown chunks that follow the known contents of
the chunk the reader stands in (or of the stream, when no chunk is open).  While the position
is before the end of that region, the next chunk is opened with `startChunk`, jumped over
with `skipChunk` and closed with `endChunk`; a header that cannot be opened is a
`FormatError`.  Every round moves at least 16 bytes forward, so a `fuel` of the number of
bytes in the region is never used up. -/
def skipUnknownChunks : Nat → ChunkReader → Except FormatError ChunkReader
  | 0, cr => if cr.pos < cr.enclosingEnd then .error .malformedChunk else .ok cr
  | fuel + 1, cr =>
    if cr.pos < cr.enclosingEnd then
      match cr.startChunk with
      | (false, _) => .error .malformedChunk
      | (true, cr1) =>
        match cr1.skipChunk with
        | (false, _) => .error .malformedChunk
        | (true, cr2) =>
          match cr2.endChunk with
          | (false, _) => .error .malformedChunk
          | (true, cr3) => skipUnknownChunks fuel cr3
    else .ok cr

/-- Modelled from the spec: reading one entity table.  The table is a child chunk with the
table's identifier whose payload is the record count (an array length prefix) followed by
the records; whatever chunks a newer generation may have appended behind the records are
skipped, and `endChunk` closes the table.  Any failure is a `FormatError`. -/
def readTable (fmt : Format) (kind : EntityKind) (cr : ChunkReader) (pool : MemoryResource) :
    Except FormatError (List Record × ChunkReader × MemoryResource) :=
  match cr.startChunk with
  | (false, _) => .error .malformedChunk
  | (true, cr1) =>
    if cr1.chunkId ≠ fmt.tableId kind then .error .unexpectedChunk
    else
      match readRaw cr1.m_file cr1.pos 4 with
      | none => .error .corruptRecord
      | some cb =>
        match readRecords fmt kind cr1.bo cr1.m_file (getUInt cr1.bo cb) (cr1.pos + 4) pool with
        | none => .error .corruptRecord
        | some (recs, pos1, pool1) =>
          if cr1.chunkStart + cr1.chunkSize < pos1 then .error .corruptRecord
          else
            match skipUnknownChunks cr1.m_file.length ({ cr1 with pos := pos1 } : ChunkReader) with
            | .error e => .error e
            | .ok cr2 =>
              match cr2.endChunk with
              | (false, _) => .error .malformedChunk
              | (true, cr3) => .ok (recs, cr3, pool1)

/-- Modelled from the spec: reading the entity tables of the given kinds one after the
other. -/
def readTables (fmt : Format) :
    List EntityKind → ChunkReader → MemoryResource →
      Except FormatError (List (List Record) × ChunkReader × MemoryResource)
  | [], cr, pool => .ok ([], cr, pool)
  | kind :: kinds, cr, pool =>
    match readTable fmt kind cr pool with
    | .error e => .error e
    | .ok (t, cr1, pool1) =>
      match readTables fmt kinds cr1 pool1 with
      | .error e => .error e
      | .ok (ts, cr2, pool2) => .ok (t :: ts, cr2, pool2)

/-- Modelled from the spec: the tables read from a stream of generation `v`, every record
completed with the defaults of the fields that generation does not define. -/
def supplyDefaultsTables (fmt : Format) (v : Database.Version) :
    List EntityKind → List (List Record) → List (List Record)
  | kind :: kinds, t :: ts =>
    t.map (supplyDefaults v (fmt.introduced kind) (fmt.defaults kind) (fmt.fields kind))
      :: supplyDefaultsTables fmt v kinds ts
  | _, _ => []

/-- Modelled from the spec: `load(stream) -> Catalog | FormatError`.  It opens the top-level
chunk, checks the magic identifier and that the version `v` is an enumerator not older than
`OldestStillSupported`, reads the nine tables in the fixed order into a fresh arena, each
record by the decoder branch for `v` (the fields that generation defines are read, the others
receive their defaults), skips the unknown trailing chunks inside the top-level chunk, closes
it, and skips the unknown chunks behind it. -/
def load (fmt : Format) (content : List Nat) : Except FormatError Catalog :=
  match (ChunkReader.new content fmt.byteOrder).startChunk with
  | (false, _) => .error .malformedChunk
  | (true, cr1) =>
    if cr1.chunkId ≠ fmt.magic then .error .badMagic
    else
      match Database.Version.ofNat? cr1.chunkVersion with
      | none => .error .unsupportedVersion
      | some v =>
        if v.toNat < Database.Version.OldestStillSupported.toNat then .error .unsupportedVersion
        else
          match readTables (fmt.atVersion v) tableOrder cr1
              (MemoryResource.empty fmt.blockSize) with
          | .error e => .error e
          | .ok (tables, cr2, pool) =>
            match skipUnknownChunks content.length cr2 with
            | .error e => .error e
            | .ok cr3 =>
              match cr3.endChunk with
              | (false, _) => .error .malformedChunk
              | (true, cr4) =>
                match skipUnknownChunks content.length cr4 with
                | .error e => .error e
                | .ok _ =>
                  .ok { pool := pool, tables := supplyDefaultsTables fmt v tableOrder tables }

namespace Database

/-- Modelled from the spec: `Database::Database(const QString &updateUrl, QObject *parent)`,
whose body (database.cpp) is not among the sources.  The members have the values of the
default member initialisers of the header: not valid, `UpdateFailed`, interval 0, no job,
empty tables, `m_latestChangelogId = 0`; the spec has the database constructed empty. -/
def new (updateUrl : String) : Database :=
  { m_updateUrl := updateUrl
    m_valid := false
    m_updateStatus := .UpdateFailed
    m_updateInterval := 0
    m_lastUpdated := none
    m_etag := ""
    m_transfer := { jobs := [] }
    m_job := none
    m_pool := MemoryResource.empty 0
    m_colors := []
    m_ldrawExtraColors := []
    m_categories := []
    m_itemTypes := []
    m_items := []
    m_itemChangelog := []
    m_colorChangelog := []
    m_relationships := []
    m_relationshipMatches := []
    m_apiKeys := []
    m_apiQuirks := []
    m_latestChangelogId := 0 }

/-- The record table of an entity kind. -/
def table (db : Database) : EntityKind → List Record
  | .Color => db.m_colors
  | .Category => db.m_categories
  | .ItemType => db.m_itemTypes
  | .Item => db.m_items
  | .ItemChangeLogEntry => db.m_itemChangelog
  | .ColorChangeLogEntry => db.m_colorChangelog
  | .Relationship => db.m_relationships
  | .RelationshipMatch => db.m_relationshipMatches
  | .ApiKey => db.m_apiKeys

/-- Modelled from the spec: `void Database::read(const QString &fileName)` on a file with
the given contents.  The bytes are decoded into a new catalog; only when that succeeds are
the arena and all record vectors replaced together and the database marked valid.  On a
`FormatError` the database is left as it was. -/
def read (fmt : Format) (db : Database) (content : List Nat) : Except FormatError Unit × Database :=
  match load fmt content with
  | .error e => (.error e, db)
  | .ok cat =>
    (.ok (),
     { db with
       m_valid := true
       m_pool := cat.pool
       m_colors := cat.tables.getD 0 []
       m_ldrawExtraColors := []
       m_categories := cat.tables.getD 1 []
       m_itemTypes := cat.tables.getD 2 []
       m_items := cat.tables.getD 3 []
       m_itemChangelog := cat.tables.getD 4 []
       m_colorChangelog := cat.tables.getD 5 []
       m_relationships := cat.tables.getD 6 []
       m_relationshipMatches := cat.tables.getD 7 []
       m_apiKeys := cat.tables.getD 8 []
       m_apiQuirks := []
       m_latestChangelogId := 0 })

/-- Modelled from the spec: the writer steps for one entity table, a child chunk holding the record count and the
records. -/
def writeTableOps (fmt : Format) (db : Database) (v : Database.Version) (kind : EntityKind) :
    Option (List WriteOp) :=
  match writeRecords fmt kind db.m_pool fmt.byteOrder v (db.table kind) with
  | none => none
  | some bs =>
    some [.startChunk (fmt.tableId kind) (fmt.tableVersion kind),
      .raw (putUInt fmt.byteOrder 4 (db.table kind).length ++ bs), .endChunk]

/-- Modelled from the spec: the writer steps for the entity tables of the given kinds. -/
def writeTablesOps (fmt : Format) (db : Database) (v : Database.Version) :
    List EntityKind → Option (List WriteOp)
  | [] => some []
  | kind :: kinds =>
    match writeTableOps fmt db v kind, writeTablesOps fmt db v kinds with
    | some a, some b => some (a ++ b)
    | _, _ => none

/-- Modelled from the spec: `void Database::write(const QString &fileName, Version version)
const`; the result is the contents of the file.  A top-level chunk tagged with the target
version holds one child chunk per entity table in the fixed order. -/
def write (fmt : Format) (db : Database) (version : Database.Version) : Option (List Nat) :=
  match writeTablesOps fmt db version tableOrder with
  | none => none
  | some ops =>
    some ((ChunkWriter.new fmt.byteOrder).run
      (.startChunk fmt.magic version.toNat :: (ops ++ [.endChunk]))).m_file

/-- Modelled from the spec: `bool Database::startUpdate(bool force)`; `startUpdate()` is the
call with `force = false`.  While an update is in flight the call does nothing.  Otherwise
it hands a conditional fetch of the update URL to the transfer collaborator, passing the
stored entity tag if there is one (none when forced), and the status becomes `Updating`. -/
def startUpdate (db : Database) (force : Bool) : Bool × Database :=
  if db.m_updateStatus = .Updating then (false, db)
  else
    let job : TransferJob :=
      { id := db.m_transfer.jobs.length
        url := db.m_updateUrl
        cachedTag := if force || db.m_etag == "" then none else some db.m_etag }
    (true,
     { db with
       m_updateStatus := .Updating
       m_job := some job
       m_transfer := { jobs := db.m_transfer.jobs ++ [job] } })

/-- Modelled from the spec: the handler of the transfer collaborator's completion signal, at
time `now`.  A result for a job that is not the update in flight is ignored.  "Not modified"
is success without new data; a body is decoded by `read` and on success published with the
refresh timestamp and the new entity tag; a decode failure or any other outcome keeps the
previous catalog and ends in `UpdateFailed`. -/
def onTransferFinished (fmt : Format) (db : Database) (job : TransferJob) (res : TransferResult)
    (now : Nat) : Database :=
  if db.m_updateStatus ≠ .Updating ∨ db.m_job ≠ some job then db
  else
    match res with
    | .notModified =>
      { db with m_job := none, m_updateStatus := if db.m_valid then .Ok else .UpdateFailed }
    | .failed => { db with m_job := none, m_updateStatus := .UpdateFailed }
    | .ok body tag =>
      match db.read fmt body with
      | (.error _, db1) => { db1 with m_job := none, m_updateStatus := .UpdateFailed }
      | (.ok _, db1) =>
        { db1 with
          m_job := none
          m_updateStatus := .Ok
          m_lastUpdated := some now
          m_etag := tag }

end Database

/-! ## `database.h`: accessors, refresh interval, cancelling -/

namespace Database

/-- `bool isValid() const { return m_valid; }`. -/
def isValid (db : Database) : Bool := db.m_valid

/-- `QDateTime lastUpdated() const { return m_lastUpdated; }`. -/
def lastUpdated (db : Database) : Option Nat := db.m_lastUpdated

/-- `BrickLink::UpdateStatus updateStatus() const { return m_updateStatus; }`. -/
def updateStatus (db : Database) : UpdateStatus := db.m_updateStatus

/-- Modelled from the spec: `void Database::setUpdateInterval(int interval)` (its body is in
database.cpp, which is not among the sources); it stores the configured refresh interval, in
seconds. -/
def setUpdateInterval (db : Database) (interval : Int) : Database :=
  { db with m_updateInterval := interval }

/-- `QDateTime::secsTo`: the seconds from one time to another, and 0 when the first one is a
null `QDateTime`. -/
def secsTo (since : Option Nat) (now : Nat) : Int :=
  match since with
  | none => 0
  | some t => (now : Int) - (t : Int)

/-- Modelled from the spec: `bool Database::isUpdateNeeded() const`, with the wall-clock time
`now` of the call: true when no valid catalog has been loaded, or when the time since
`m_lastUpdated` exceeds the configured interval. -/
def isUpdateNeeded (db : Database) (now : Nat) : Bool :=
  !db.m_valid || decide (db.m_updateInterval < secsTo db.m_lastUpdated now)

/-- Modelled from the spec: `void Database::cancelUpdate()`.  When an update is in flight it
aborts the fetch: the job is dropped and, an aborted transfer being a failed one, the status
leaves `Updating` for `UpdateFailed`; the catalog is not touched.  Otherwise it does
nothing. -/
def cancelUpdate (db : Database) : Database :=
  match db.m_job with
  | none => db
  | some _ =>
    if db.m_updateStatus = .Updating then
      { db with m_job := none, m_updateStatus := .UpdateFailed }
    else db

end Database

/-! ## The arena: sequences of `allocate` calls -/

/-- Two byte ranges do not overlap: they lie in different blocks, or one ends before the
other starts. -/
def ByteRange.disjoint (a b : ByteRange) : Prop :=
  a.block ≠ b.block ∨ a.offset + a.length ≤ b.offset ∨ b.offset + b.length ≤ a.offset

/-- A sequence of `allocate` calls on one arena, with the given byte counts: the ranges
returned, in call order, and the arena after the last call. -/
def MemoryResource.allocateAll : MemoryResource → List Nat → List ByteRange × MemoryResource
  | pool, [] => ([], pool)
  | pool, n :: ns =>
    ((pool.allocate n).1 :: (allocateAll (pool.allocate n).2 ns).1,
     (allocateAll (pool.allocate n).2 ns).2)

/-! ## `desktop/headerview.cpp` -/

/-- `Qt::SortOrder`: `AscendingOrder = 0`, `DescendingOrder = 1`. -/
inductive SortOrder where
  | AscendingOrder
  | DescendingOrder
  deriving DecidableEq, Repr

/-- The integer value of a `Qt::SortOrder`. -/
def SortOrder.toInt : SortOrder → Int
  | .AscendingOrder => 0
  | .DescendingOrder => 1

/-- The cast `Qt::SortOrder(i)` for the two enumerator values. -/
def SortOrder.ofInt (i : Int) : SortOrder :=
  if i = 0 then .AscendingOrder else .DescendingOrder

/-- `Qt::ShiftModifier` in `Qt::KeyboardModifiers`. -/
def ShiftModifier : Nat := 0x02000000

/-- What the handlers of `HeaderView` emit or request. -/
inductive HeaderSignal where
  | update
  | isSortedChanged (sorted : Bool)
  | sortColumnsChanged (sortColumns : List (Int × SortOrder))
  deriving DecidableEq, Repr

/-- `class HeaderView : public QHeaderView`, as far as the functions below use it: the
members `m_sortColumns`, `m_isSorted`, `m_isConfigurable`, and of the `QHeaderView` base
the logical index of the section at each visual index (`visualOrder`) and the hidden
sections. -/
structure HeaderView where
  m_sortColumns : List (Int × SortOrder)
  m_isSorted : Bool
  m_isConfigurable : Bool
  visualOrder : List Int
  hiddenSections : List Int
  deriving DecidableEq, Repr

namespace HeaderView

/-- `QVector<QPair<int, Qt::SortOrder>> HeaderView::sortColumns() const`. -/
def sortColumns (h : HeaderView) : List (Int × SortOrder) := h.m_sortColumns

/-- `bool HeaderView::isSorted() const`. -/
def isSorted (h : HeaderView) : Bool := h.m_isSorted

/-- `bool HeaderView::isConfigurable() const`. -/
def isConfigurable (h : HeaderView) : Bool := h.m_isConfigurable

/-- The loop of the Shift branch: the first entry whose section is `clicked` gets the
opposite order (`Qt::SortOrder(1 - order)`); `none` when no entry has that section
(`found` stays false). -/
def toggleSection (clicked : Int) : List (Int × SortOrder) → Option (List (Int × SortOrder))
  | [] => none
  | (s, order) :: rest =>
    if s = clicked then some ((s, SortOrder.ofInt (1 - order.toInt)) :: rest)
    else
      match toggleSection clicked rest with
      | none => none
      | some rest1 => some ((s, order) :: rest1)

/-- The handler connected to `QHeaderView::sectionClicked` in the constructor of
`HeaderView` for a click on the section `clicked` (the lambda's parameter `section`), with
the value of `qApp->keyboardModifiers()` at the click.  The result is the
new state and what was emitted. -/
def sectionClicked (h : HeaderView) (keyboardModifiers : Nat) (clicked : Int) :
    HeaderView × List HeaderSignal :=
  if !h.isConfigurable then (h, [])
  else
    let firstSC : Int × SortOrder :=
      match h.m_sortColumns with
      | [] => (-1, .AscendingOrder)
      | sc :: _ => sc
    if !h.m_sortColumns.isEmpty && !h.m_isSorted && decide (clicked = firstSC.1) then
      ({ h with m_isSorted := true }, [.update, .isSortedChanged true])
    else
      let sortColumns : List (Int × SortOrder) :=
        if keyboardModifiers = ShiftModifier then
          match toggleSection clicked h.m_sortColumns with
          | some toggled => toggled
          | none => h.m_sortColumns ++ [(clicked, firstSC.2)]
        else
          if firstSC.1 = clicked then [(clicked, SortOrder.ofInt (1 - firstSC.2.toInt))]
          else [(clicked, .AscendingOrder)]
      ({ h with m_sortColumns := sortColumns, m_isSorted := true },
        (if !h.m_isSorted then [.isSortedChanged true] else [])
          ++ [.sortColumnsChanged sortColumns])

/-- `int QHeaderView::count() const`. -/
def count (h : HeaderView) : Int := h.visualOrder.length

/-- `int QHeaderView::visualIndex(int logicalIndex) const`; -1 when there is no such
section. -/
def visualIndex (h : HeaderView) (logicalIndex : Int) : Int :=
  if h.visualOrder.indexOf logicalIndex < h.visualOrder.length then
    (h.visualOrder.indexOf logicalIndex : Int)
  else -1

/-- `void QHeaderView::moveSection(int from, int to)`: the section at visual index `from`
(`fromVisual`) comes to occupy visual index `to` (`toVisual`), the sections between the two shift by one; nothing
happens for an index out of range. -/
def moveSection (h : HeaderView) (fromVisual toVisual : Int) : HeaderView :=
  if fromVisual < 0 ∨ h.count ≤ fromVisual ∨ toVisual < 0 ∨ h.count ≤ toVisual then h
  else
    match h.visualOrder[fromVisual.toNat]? with
    | none => h
    | some li =>
      { h with
        visualOrder := (h.visualOrder.eraseIdx fromVisual.toNat).take toVisual.toNat
          ++ li :: (h.visualOrder.eraseIdx fromVisual.toNat).drop toVisual.toNat }

/-- `bool QHeaderView::isSectionHidden(int logicalIndex) const`. -/
def isSectionHidden (h : HeaderView) (logicalIndex : Int) : Bool :=
  decide (logicalIndex ∈ h.hiddenSections)

/-- `void QHeaderView::hideSection(int logicalIndex)`; nothing happens for an index out of
range. -/
def hideSection (h : HeaderView) (logicalIndex : Int) : HeaderView :=
  if logicalIndex < 0 ∨ h.count ≤ logicalIndex then h
  else if logicalIndex ∈ h.hiddenSections then h
  else { h with hiddenSections := logicalIndex :: h.hiddenSections }

/-- `void QHeaderView::showSection(int logicalIndex)`; nothing happens for an index out of
range. -/
def showSection (h : HeaderView) (logicalIndex : Int) : HeaderView :=
  if logicalIndex < 0 ∨ h.count ≤ logicalIndex then h
  else { h with hiddenSections := h.hiddenSections.filter (fun li => li != logicalIndex) }

end HeaderView

/-- `class SectionItem : public QListWidgetItem`: the logical index `m_lidx` and whether
`checkState()` is `Qt::Checked`. -/
structure SectionItem where
  logicalIndex : Int
  checked : Bool
  deriving DecidableEq, Repr

/-- The loop of `SectionConfigDialog::accept()` from list row `vi` on, over the remaining
rows of `m_list`, acting on `m_header`. -/
def SectionConfigDialog.acceptFrom : List SectionItem → Nat → HeaderView → HeaderView
  | [], _, m_header => m_header
  | si :: rest, vi, m_header =>
    let li := si.logicalIndex
    let oldvi := m_header.visualIndex li
    let moved := if oldvi ≠ (vi : Int) then m_header.moveSection oldvi vi else m_header
    let oldvis := !moved.isSectionHidden li
    let vis := si.checked
    let shown :=
      if vis ≠ oldvis then (if vis then moved.showSection li else moved.hideSection li)
      else moved
    SectionConfigDialog.acceptFrom rest (vi + 1) shown

/-- `void SectionConfigDialog::accept()` on the rows of `m_list`: the header afterwards. -/
def SectionConfigDialog.accept (m_list : List SectionItem) (m_header : HeaderView) : HeaderView :=
  SectionConfigDialog.acceptFrom m_list 0 m_header

/-! ## Lots -/

/-- A `const BrickLink::Item *` as the cart import uses it: the id of its item type, its id,
and whether its item type has sub-conditions (`itemType()->hasSubConditions()`). -/
structure Item where
  itemTypeId : Char
  id : String
  hasSubConditions : Bool
  deriving DecidableEq, Repr

/-- A `const BrickLink::Color *`, given by the color id. -/
structure Color where
  id : Nat
  deriving DecidableEq, Repr

/-- `BrickLink::Condition`. -/
inductive Condition where
  | New
  | Used
  deriving DecidableEq, Repr

/-- `BrickLink::SubCondition`. -/
inductive SubCondition where
  | None
  | Complete
  | Incomplete
  | Sealed
  deriving DecidableEq, Repr

/-- A `BrickLink::Lot` with the members that the cart import sets. -/
structure Lot where
  item : Item
  color : Color
  condition : Condition
  subCondition : SubCondition
  quantity : Int
  price : Rat
  comments : String
  deriving DecidableEq, Repr

/-! ## `common/script.cpp`: `PrintingScriptAction::executePrint` -/

/-- `DocumentModel` as far as `executePrint` uses it: `lots()` and `sortLotList`, whose body
is not among the sources and is taken as it comes. -/
structure DocumentModel where
  lots : List Lot
  sortLotList : List Lot → List Lot

/-- `Document` as far as `executePrint` uses it: `model()` and `selectedLots()`. -/
structure Document where
  model : DocumentModel
  selectedLots : List Lot

/-- What a call of the JavaScript print function does, as far as `executePrint` looks at it:
whether the returned value is an error (and its formatted text), whether the job was
aborted, whether `job->print(pages)` starts, and the page count of the job. -/
structure ScriptCall where
  isError : Bool
  errorText : String
  isAborted : Bool
  print : List Nat → Bool
  pageCount : Nat

/-- `class PrintingScriptAction`: `m_text` and `m_printFunction`; the function is `none`
when the `QJSValue` is not callable, and else maps the arguments `document` and `lots` of the
call to what the call does. -/
structure PrintingScriptAction where
  m_text : String
  m_printFunction : Option (Document → List Lot → ScriptCall)

/-- The exceptions that `executePrint` throws. -/
inductive PrintError where
  | noPrintFunction
  | scriptError (text : String)
  | jobAborted
  | printFailed
  deriving DecidableEq, Repr

/-- What `executePrint` has done when it returns or throws: the lot list it passed as third
argument to the print function (if it called it), the value left in `*maxPageCount`, and the
exception thrown, if any. -/
structure PrintOutcome where
  passedLots : Option (List Lot)
  maxPageCount : Nat
  thrown : Option PrintError
  deriving DecidableEq, Repr

/-- `void PrintingScriptAction::executePrint(QPaintDevice *pd, Document *doc, bool
selectionOnly, const QList<uint> &pages, uint *maxPageCount)`. -/
def PrintingScriptAction.executePrint (action : PrintingScriptAction) (doc : Document)
    (selectionOnly : Bool) (pages : List Nat) : PrintOutcome :=
  match action.m_printFunction with
  | none => { passedLots := none, maxPageCount := 0, thrown := some .noPrintFunction }
  | some printFunction =>
    let lots := doc.model.sortLotList (if selectionOnly then doc.selectedLots else doc.model.lots)
    let result := printFunction doc lots
    if result.isError then
      { passedLots := some lots, maxPageCount := 0, thrown := some (.scriptError result.errorText) }
    else if result.isAborted then
      { passedLots := some lots, maxPageCount := 0, thrown := some .jobAborted }
    else if !result.print pages then
      { passedLots := some lots, maxPageCount := 0, thrown := some .printFailed }
    else
      { passedLots := some lots, maxPageCount := result.pageCount % 2 ^ 32, thrown := none }

/-! ## `ldraw/rendercontroller.cpp`: the bounding box in `calculateRenderData` -/

/-- A `QVector3D` with finite `float` components, each given by its exact value. -/
structure QVector3D where
  x : Rat
  y : Rat
  z : Rat
  deriving DecidableEq, Repr

/-- `std::numeric_limits<float>::min()`: the smallest positive normalised `float`,
`2 ^ (-126)`. -/
def fmin : Rat := 1 / 2 ^ 126

/-- `std::numeric_limits<float>::max()`: `(2 ^ 24 - 1) * 2 ^ 104`. -/
def fmax : Rat := (2 ^ 24 - 1) * 2 ^ 104

/-- `std::min(a, b)`: `(b < a) ? b : a`. -/
def stdMin (a b : Rat) : Rat := if b < a then b else a

/-- `std::max(a, b)`: `(a < b) ? b : a`. -/
def stdMax (a b : Rat) : Rat := if a < b then b else a

/-- The bounding-box loop of `RenderController::calculateRenderData` over the vertices of one
surface buffer, each vertex given by its position `v[0], v[1], v[2]` (the first three floats
of its stride): the pair `(vmin, vmax)` passed to `geo->setBounds`. -/
def calculateBounds (positions : List QVector3D) : QVector3D × QVector3D :=
  positions.foldl
    (fun (b : QVector3D × QVector3D) (v : QVector3D) =>
      (⟨stdMin b.1.x v.x, stdMin b.1.y v.y, stdMin b.1.z v.z⟩,
       ⟨stdMax b.2.x v.x, stdMax b.2.y v.y, stdMax b.2.z v.z⟩))
    (⟨fmax, fmax, fmax⟩, ⟨fmin, fmin, fmin⟩)

/-! ## `bricklink/cart.cpp` -/

/-- A JSON value as `QJsonValue` presents it. -/
inductive Json where
  | null
  | bool (b : Bool)
  | number (n : Int)
  | string (s : String)
  | array (items : List Json)
  | object (members : List (String × Json))

namespace Json

/-- `value[key]` followed by the conversion the next access needs: the member of an object,
and `null` (for `QJsonValue::Undefined`) when the value is no object or has no such member. -/
def get (v : Json) (key : String) : Json :=
  match v with
  | .object members =>
    match members.find? (fun m => m.1 == key) with
    | some m => m.2
    | none => .null
  | _ => .null

/-- `QJsonValue::toArray()`: the items of an array, and no items for any other value. -/
def toArray : Json → List Json
  | .array items => items
  | _ => []

/-- `QJsonValue::toString()`: the string, and the empty string for any other value. -/
def toStr : Json → String
  | .string s => s
  | _ => ""

/-- `QJsonValue::toInt()`: the number when it fits an `int`, and the default 0 when it does
not or when the value is no number. -/
def toInt : Json → Int
  | .number n => if -2 ^ 31 ≤ n ∧ n < 2 ^ 31 then n else 0
  | _ => 0

end Json

/-- `class CartPrivate`: the members of a cart. -/
structure Cart where
  m_domestic : Bool
  m_sellerId : Int
  m_sellerName : String
  m_storeName : String
  m_lastUpdated : Option Nat
  m_total : Rat
  m_currencyCode : String
  m_itemCount : Int
  m_lotCount : Int
  m_countryCode : String
  m_lots : List Lot
  deriving DecidableEq, Repr

/-- `int Cart::sellerId() const`. -/
def Cart.sellerId (cart : Cart) : Int := cart.m_sellerId

/-- `void Cart::setLots(LotList &&lots)`. -/
def Cart.setLots (cart : Cart) (lots : List Lot) : Cart := { cart with m_lots := lots }

/-- What `cart.cpp` uses from outside the sources at hand: `QJsonDocument::fromJson` (the
parsed document, or text and offset of the parse error), the catalog lookups `Core::item` and
`Core::color`, `ItemType::idFromFirstCharInString`, the conversion
`QJsonValue::toVariant().toUInt()`, `QLocale::toDouble` for the locale en_US, and
`QString::trimmed`. -/
structure CartEnv where
  fromJson : List Nat → Except (String × Int) Json
  item : Char → String → Option Item
  color : Nat → Option Color
  idFromFirstCharInString : String → Char
  toUInt : Json → Nat
  toDouble : String → Rat
  trimmed : String → String

/-- The job passed to the handler of `Core::authenticatedTransferFinished`, as far as the
handler looks at it: `isCompleted()`, `responseCode()`, `userTag()`, `userData(type).toInt()`,
`data()` and `errorString()`; `id` tells jobs apart as the pointer does. -/
structure Carts.TransferJob where
  id : Nat
  isCompleted : Bool
  responseCode : Int
  userTag : String
  userData : Int
  data : List Nat
  errorString : String
  deriving DecidableEq, Repr

/-- `class Carts`: the members that the handler of `authenticatedTransferFinished` reads or
writes. -/
structure Carts where
  m_carts : List Cart
  m_cartJobs : List Carts.TransferJob
  m_job : Option Carts.TransferJob
  m_updateStatus : UpdateStatus
  m_lastUpdated : Option Nat
  deriving DecidableEq, Repr

/-- The signals of `Carts` that the handler of `authenticatedTransferFinished` emits. -/
inductive CartsSignal where
  | fetchLotsFinished (cart : Cart) (success : Bool) (message : String)
  | updateFinished (success : Bool) (message : String)
  | lastUpdatedChanged (lastUpdated : Option Nat)
  | updateStatusChanged (updateStatus : UpdateStatus)
  deriving DecidableEq, Repr

namespace Carts

/-- The body of the loop of `Carts::parseSellerCart` for one entry `cartItem` of the `items`
array, on the lots collected so far and the running `invalidCount`. -/
def parseCartItem (env : CartEnv) (acc : List Lot × Int) (cartItem : Json) : List Lot × Int :=
  let itemId := (cartItem.get "itemNo").toStr
  let itemSeq := (cartItem.get "itemSeq").toInt
  let itemTypeId := env.idFromFirstCharInString (cartItem.get "itemType").toStr
  let colorId := env.toUInt (cartItem.get "colorID")
  let cond := if (cartItem.get "invNew").toStr = "New" then Condition.New else Condition.Used
  let qty := (cartItem.get "cartQty").toInt
  let priceStr := (cartItem.get "nativePrice").toStr
  let price := env.toDouble (priceStr.drop 4)
  let comment := env.trimmed (cartItem.get "invDescription").toStr
  let itemId := if itemSeq ≠ 0 then itemId ++ "-" ++ toString itemSeq else itemId
  match env.item itemTypeId itemId, env.color colorId with
  | some item, some color =>
    let scond := (cartItem.get "invComplete").toStr
    let sub0 := SubCondition.None
    let sub1 := if scond = "Complete" then SubCondition.Complete else sub0
    let sub2 := if scond = "Incomplete" then SubCondition.Incomplete else sub1
    let sub3 := if scond = "Sealed" then SubCondition.Sealed else sub2
    let lot : Lot :=
      { item := item
        color := color
        condition := cond
        subCondition := if item.hasSubConditions then sub3 else SubCondition.None
        quantity := qty
        price := price
        comments := comment }
    (acc.1 ++ [lot], acc.2)
  | _, _ => (acc.1, acc.2 + 1)

/-- `int Carts::parseSellerCart(Cart *cart, const QByteArray &data)`: the text of the
exception thrown for invalid JSON, or the cart with its new lots together with the returned
`invalidCount`. -/
def parseSellerCart (env : CartEnv) (cart : Cart) (data : List Nat) : Except String (Cart × Int) :=
  match env.fromJson data with
  | .error (errorString, offset) =>
    .error ("Invalid JSON: " ++ errorString ++ " at " ++ toString offset)
  | .ok json =>
    let cartItems := ((json.get "cart").get "items").toArray
    let (lots, invalidCount) := cartItems.foldl (parseCartItem env) ([], 0)
    .ok (cart.setLots lots, invalidCount)

/-- `QString::clear()`: the string is empty afterwards, whatever it held. -/
def clear (_message : String) : String := ""

/-- `tr("Failed to import cart %1").arg(sid)`, untranslated. -/
def failedToImportCart (sid : Int) : String :=
  "Failed to import cart " ++ toString sid

/-- `tr("%n lot(s) of your Shopping Cart could not be imported.", nullptr, invalidCount)`,
untranslated. -/
def lotsNotImported (invalidCount : Int) : String :=
  toString invalidCount ++ " lot(s) of your Shopping Cart could not be imported."

/-- Replacing the first cart of the list that has the given seller id. -/
def replaceCart (sid : Int) (cart : Cart) : List Cart → List Cart
  | [] => []
  | c :: cs => if c.sellerId = sid then cart :: cs else c :: replaceCart sid cart cs

/-- The first branch of the handler connected to `Core::authenticatedTransferFinished` in the
constructor of `Carts`, taken when `m_cartJobs.contains(job) && (type == "cart")`: the state
afterwards and the signals emitted. -/
def cartTransferFinished (env : CartEnv) (carts : Carts) (job : Carts.TransferJob) :
    Carts × List CartsSignal :=
  let jobCompleted := job.isCompleted && decide (job.responseCode = 200)
  let carts1 := { carts with m_cartJobs := carts.m_cartJobs.erase job }
  let success := jobCompleted
  let sid := job.userData
  let message := failedToImportCart sid
  match carts1.m_carts.find? (fun cart => decide (cart.sellerId = sid)) with
  | none => (carts1, [])
  | some cart =>
    if !jobCompleted then
      -- the exception thrown in the try block is caught right below it
      (carts1, [.fetchLotsFinished cart false
        (message ++ ": " ++ (message ++ ": " ++ job.errorString))])
    else
      match parseSellerCart env cart job.data with
      | .error e => (carts1, [.fetchLotsFinished cart false (message ++ ": " ++ e)])
      | .ok (cart1, invalidCount) =>
        let message1 := if invalidCount ≠ 0 then lotsNotImported invalidCount else message
        let message2 := clear message1
        ({ carts1 with m_carts := replaceCart sid cart1 carts1.m_carts },
          [.fetchLotsFinished cart1 success message2])

end Carts

/-! ## `Carts::parseGlobalCart` and the `globalCart` branch of the transfer handler -/

/-- The bytes of a C string literal of ASCII characters. -/
def latin1 (s : String) : List Nat := s.toList.map Char.toNat

namespace QByteArray

/-- The forward search of `QByteArray::indexOf`: the index, counted from `i`, of the first
suffix of the remaining bytes that begins with `needle`, and -1 when there is none. -/
def indexOfAux (needle : List Nat) : List Nat → Int → Int
  | [], i => if needle <+: [] then i else -1
  | d :: ds, i => if needle <+: d :: ds then i else indexOfAux needle ds (i + 1)

/-- `qsizetype QByteArray::indexOf(QByteArrayView bv, qsizetype from) const` (the library
function, also for the overload taking a single `char`): a negative `from` counts from the
end; the result is the index of the first occurrence of `needle` at or after `from`, and -1
when there is none.  The parameter `from` is `start` here. -/
def indexOf (data needle : List Nat) (start : Int) : Int :=
  let start1 : Int := if start < 0 then max (start + data.length) 0 else start
  if start1 + needle.length > data.length then -1
  else indexOfAux needle (data.drop start1.toNat) start1

/-- `QByteArray QByteArray::mid(qsizetype pos, qsizetype len) const` (the library function):
the bytes from index `pos` on, at most `len` of them, with the clipping of
`QContainerImplHelper::mid`. -/
def mid (data : List Nat) (pos len : Int) : List Nat :=
  if pos > data.length then []
  else if pos < 0 then
    if len < 0 ∨ len + pos ≥ data.length then data
    else if len + pos ≤ 0 then []
    else data.take (len + pos).toNat
  else if len < 0 ∨ len > data.length - pos then data.drop pos.toNat
  else (data.drop pos.toNat).take len.toNat

end QByteArray

/-- What `parseGlobalCart` uses from outside the sources at hand besides what `CartEnv` has:
`QStringView::toDouble` and `QDate::fromString(string, u"yyyy-MM-dd")` (a day number, or
`none` for an invalid date). -/
structure GlobalCartEnv extends CartEnv where
  stringViewToDouble : String → Rat
  dateFromString : String → Option Nat

/-- `Cart::Cart()`: the members of `CartPrivate` as their default member initialisers leave
them; `m_sellerId` has none and is written before it is read. -/
def Cart.new : Cart :=
  { m_domestic := false
    m_sellerId := 0
    m_sellerName := ""
    m_storeName := ""
    m_lastUpdated := none
    m_total := 0
    m_currencyCode := ""
    m_itemCount := 0
    m_lotCount := 0
    m_countryCode := ""
    m_lots := [] }

namespace Carts

/-- The literal `"var GlobalCart"` searched for by `parseGlobalCart`. -/
def globalCartMarker : List Nat := latin1 "var GlobalCart"

/-- The literal `"\x7d;\r\n"` searched for by `parseGlobalCart`: a closing brace, a semicolon,
carriage return and line feed. -/
def globalCartEnd : List Nat := latin1 "\x7d;\r\n"

/-- The character literal of the opening brace, `'\x7b'`. -/
def openBrace : Nat := 123

/-- The first statements of `Carts::parseGlobalCart`, up to
`auto globalCart = data.mid(startPos, endPos - startPos + 1)`: the text of the exception
thrown, or the byte array `globalCart` that is handed to `QJsonDocument::fromJson`.  The
positions are `qsizetype` values between -1 and the size of `data`. -/
def globalCartSlice (data : List Nat) : Except String (List Nat) :=
  let pos := QByteArray.indexOf data globalCartMarker 0
  if pos < 0 then
    .error "Invalid HTML - cannot parse"
  else
    let startPos := QByteArray.indexOf data [openBrace] pos
    let endPos := QByteArray.indexOf data globalCartEnd pos
    if startPos ≤ pos ∨ endPos < startPos then
      .error "Invalid HTML - found GlobalCart, but could not parse line"
    else
      .ok (QByteArray.mid data startPos (endPos - startPos + 1))

/-- The body of the last loop of `Carts::parseGlobalCart` for one entry `jsonCart`, on the
carts collected so far. -/
def parseGlobalCartEntry (env : GlobalCartEnv) (carts : List Cart) (jsonCart : Json) :
    List Cart :=
  let sellerId := (jsonCart.get "sellerID").toInt
  let lots := (jsonCart.get "totalLots").toInt
  let items := (jsonCart.get "totalItems").toInt
  let totalPrice := (jsonCart.get "totalPriceNative").toStr
  if sellerId ≠ 0 ∧ ¬ totalPrice.isEmpty ∧ lots ≠ 0 ∧ items ≠ 0 then
    let cart : Cart :=
      { Cart.new with
        m_sellerId := sellerId
        m_lotCount := lots
        m_itemCount := items
        m_currencyCode :=
          if (totalPrice.drop 2).take 2 = " $" then totalPrice.take 2 ++ "D"
          else totalPrice.take 3
        m_total := env.stringViewToDouble (totalPrice.drop 4)
        m_domestic := decide ((jsonCart.get "type").toStr = "domestic")
        m_lastUpdated := env.dateFromString (jsonCart.get "lastUpdated").toStr
        m_sellerName := (jsonCart.get "sellerName").toStr
        m_storeName := (jsonCart.get "storeName").toStr
        m_countryCode := (jsonCart.get "countryID").toStr }
    carts ++ [cart]
  else carts

/-- The statements of `Carts::parseGlobalCart` after the JSON document is there: the
domestic stores followed by the international ones, each turned into a cart when it has a
seller, a price, lots and items. -/
def cartsOfJson (env : GlobalCartEnv) (json : Json) : List Cart :=
  let domesticCarts := ((json.get "domestic").get "stores").toArray
  let internationalCarts := ((json.get "international").get "stores").toArray
  let jsonCarts := domesticCarts ++ internationalCarts
  jsonCarts.foldl (parseGlobalCartEntry env) []

/-- The statements of `Carts::parseGlobalCart` from `QJsonDocument::fromJson(globalCart, &err)`
on, for the byte array `globalCart`. -/
def parseGlobalCartJson (env : GlobalCartEnv) (globalCart : List Nat) :
    Except String (List Cart) :=
  match env.fromJson globalCart with
  | .error (errorString, offset) =>
    .error ("Invalid JSON: " ++ errorString ++ " at " ++ toString offset)
  | .ok json => .ok (cartsOfJson env json)

/-- `QVector<BrickLink::Cart *> Carts::parseGlobalCart(const QByteArray &data)`: the text of
the exception thrown, or the carts returned. -/
def parseGlobalCart (env : GlobalCartEnv) (data : List Nat) : Except String (List Cart) :=
  match globalCartSlice data with
  | .error e => .error e
  | .ok globalCart => parseGlobalCartJson env globalCart

/-- `void Carts::setLastUpdated(const QDateTime &lastUpdated)`. -/
def setLastUpdated (carts : Carts) (lastUpdated : Option Nat) : Carts × List CartsSignal :=
  if lastUpdated ≠ carts.m_lastUpdated then
    ({ carts with m_lastUpdated := lastUpdated }, [.lastUpdatedChanged lastUpdated])
  else (carts, [])

/-- `void Carts::setUpdateStatus(UpdateStatus updateStatus)`. -/
def setUpdateStatus (carts : Carts) (updateStatus : UpdateStatus) : Carts × List CartsSignal :=
  if updateStatus ≠ carts.m_updateStatus then
    ({ carts with m_updateStatus := updateStatus }, [.updateStatusChanged updateStatus])
  else (carts, [])

/-- The second branch of the handler connected to `Core::authenticatedTransferFinished` in
the constructor of `Carts`, taken when `(job == m_job) && (type == "globalCart")`: the state
afterwards and the signals emitted, with `now` for `QDateTime::currentDateTime()`.  The
reset notifications of the table model and the per-cart connections are left out. -/
def globalCartTransferFinished (env : GlobalCartEnv) (carts : Carts) (job : Carts.TransferJob)
    (now : Nat) : Carts × List CartsSignal :=
  let jobCompleted := job.isCompleted && decide (job.responseCode = 200)
  let success := jobCompleted
  let message := "Failed to import the carts"
  let tried : Carts × Bool × String :=
    if success then
      match parseGlobalCart env job.data with
      | .ok newCarts =>
        ({ carts with m_carts := newCarts.foldl (fun m_carts cart => m_carts ++ [cart]) [] },
          success, clear message)
      | .error e => (carts, false, message ++ ": " ++ e)
    else (carts, success, message)
  let carts1 := tried.1
  let success1 := tried.2.1
  let message1 := tried.2.2
  let updated := carts1.setLastUpdated (some now)
  let status := updated.1.setUpdateStatus (if success1 then .Ok else .UpdateFailed)
  ({ status.1 with m_job := none },
    updated.2 ++ status.2 ++ [.updateFinished success1 (if success1 then "" else message1)])

/-- The handler connected to `Core::authenticatedTransferFinished` in the constructor of
`Carts`: the branch for the job of one seller cart, the branch for the job of the cart list,
and nothing for any other job. -/
def authenticatedTransferFinished (env : GlobalCartEnv) (carts : Carts)
    (job : Carts.TransferJob) (now : Nat) : Carts × List CartsSignal :=
  let type := job.userTag
  if carts.m_cartJobs.contains job ∧ type = "cart" then
    cartTransferFinished env.toCartEnv carts job
  else if carts.m_job = some job ∧ type = "globalCart" then
    globalCartTransferFinished env carts job now
  else (carts, [])

end Carts

/-! ## `desktop/smartvalidator.cpp`: `DotCommaFilter` -/

/-- A `QChar`: one UTF-16 code unit. -/
abbrev QChar := Nat

/-- The values of `QEvent::Type` that `DotCommaFilter::eventFilter` tells apart. -/
inductive QEventType where
  | KeyPress
  | KeyRelease
  | Other (type : Nat)
  deriving DecidableEq, Repr

/-- A `QKeyEvent` as `DotCommaFilter::eventFilter` reads and builds it: `type()`, `key()`,
`modifiers()`, `text()`, `isAutoRepeat()` and `count()`. -/
structure QKeyEvent where
  type : QEventType
  key : Int
  modifiers : Nat
  text : List QChar
  isAutoRepeat : Bool
  count : Int
  deriving DecidableEq, Repr

/-- The receiver `o` of an event as the two `qobject_cast`s of `eventFilter` see it: a
`QDoubleSpinBox`, a `QLineEdit` (with whether its validator is a `QDoubleValidator`), or
any other object. -/
inductive Receiver where
  | doubleSpinBox
  | lineEdit (hasDoubleValidator : Bool)
  | other
  deriving DecidableEq, Repr

namespace DotCommaFilter

/-- The character literal `u'.'`. -/
def dot : QChar := 46

/-- The character literal `u','`. -/
def comma : QChar := 44

/-- One round of the loop of `DotCommaFilter::eventFilter` at index `i`, on the local `text`
and the flag `fixed`; `keText` is `ke->text()` and `decimalPoint` is
`QLocale::system().decimalPoint().at(0)`. -/
def fixStep (decimalPoint : QChar) (keText : List QChar) (state : List QChar × Bool) (i : Nat) :
    List QChar × Bool :=
  match state.1[i]? with
  | some ir =>
    if ir = dot ∨ ir = comma then
      let text := state.1.set i decimalPoint
      (text, decide (text ≠ keText))
    else state
  | none => state

/-- The loop `for (int i = 0; i < text.length(); ++i)` of `DotCommaFilter::eventFilter`,
started with `text = ke->text()` and `fixed = false`: the final `text` and `fixed`. -/
def fixText (decimalPoint : QChar) (keText : List QChar) : List QChar × Bool :=
  (List.range keText.length).foldl (fixStep decimalPoint keText) (keText, false)

/-- `bool DotCommaFilter::eventFilter(QObject *o, QEvent *e)`: the return value and the
events posted to `o` with `QCoreApplication::postEvent`. -/
def eventFilter (decimalPoint : QChar) (o : Receiver) (e : QKeyEvent) : Bool × List QKeyEvent :=
  if e.type = .KeyPress ∨ e.type = .KeyRelease then
    if o = .doubleSpinBox ∨ o = .lineEdit true then
      let ke := e
      let fixedText := fixText decimalPoint ke.text
      if fixedText.2 then
        let nke : QKeyEvent :=
          { type := ke.type
            key := ke.key
            modifiers := ke.modifiers
            text := fixedText.1
            isAutoRepeat := ke.isAutoRepeat
            count := ke.count % 2 ^ 16 }
        (true, [nke])
      else (false, [])
    else (false, [])
  else (false, [])

/-- The claim's `r(t)`: `t` with every `'.'` and `','` replaced by the decimal point. -/
def replaceSeparators (decimalPoint : QChar) (t : List QChar) : List QChar :=
  t.map (fun c => if c = dot ∨ c = comma then decimalPoint else c)

end DotCommaFilter

/-! ## Occurrences of a byte sequence -/

/-- The byte sequence `needle` occurs in `data` at index `i`. -/
def occursAt (needle data : List Nat) (i : Nat) : Prop := needle <+: data.drop i

instance (needle data : List Nat) (i : Nat) : Decidable (occursAt needle data i) :=
  inferInstanceAs (Decidable (needle <+: data.drop i))

/-- Index `i` is the first index at or after `start` at which `needle` occurs in `data`. -/
def firstOccurrence (needle data : List Nat) (start i : Nat) : Prop :=
  start ≤ i ∧ occursAt needle data i ∧ ∀ j < i, start ≤ j → ¬ occursAt needle data j

instance (needle data : List Nat) (start i : Nat) :
    Decidable (firstOccurrence needle data start i) :=
  inferInstanceAs
    (Decidable (start ≤ i ∧ occursAt needle data i ∧ ∀ j < i, start ≤ j → ¬ occursAt needle data j))

/-- The two messages of `parseGlobalCart` that begin with `Invalid HTML`. -/
def isInvalidHtml (message : String) : Prop :=
  message = "Invalid HTML - cannot parse"
    ∨ message = "Invalid HTML - found GlobalCart, but could not parse line"

instance (message : String) : Decidable (isInvalidHtml message) :=
  inferInstanceAs
    (Decidable (message = "Invalid HTML - cannot parse"
      ∨ message = "Invalid HTML - found GlobalCart, but could not parse line"))

/-! ## Example streams -/

/-- A stream with chunks nested four deep: "BSDB" holds "COL " holds "CAT " holds the two
siblings "ITEM" (two payload bytes) and "REL " (one payload byte). -/
def nestedStream : List Nat :=
  ((ChunkWriter.new .LittleEndian).run
    [.startChunk (ChunkId ⟨66, 83, 68, 66⟩) 12, .startChunk (ChunkId ⟨67, 79, 76, 32⟩) 1,
      .startChunk (ChunkId ⟨67, 65, 84, 32⟩) 1, .startChunk (ChunkId ⟨73, 84, 69, 77⟩) 1,
      .raw [1, 2], .endChunk, .startChunk (ChunkId ⟨82, 69, 76, 32⟩) 2, .raw [3], .endChunk,
      .endChunk, .endChunk, .endChunk]).m_file

/-- A reader on `nestedStream` that has opened the three outer chunks. -/
def nestedReader : ChunkReader :=
  (ChunkReader.new nestedStream .LittleEndian).startChunk.2.startChunk.2.startChunk.2

/-- An arena that holds the name "Red" in its only block. -/
def sampleArena : MemoryResource :=
  ((MemoryResource.empty 1024).store [82, 101, 100]).2

/-- A format for the examples: little-endian, top-level chunk "BSDB", a color being an
unsigned 32-bit id, a name, and a signed 16-bit number; every other record kind a single
unsigned 32-bit number.  The third field of a color was introduced with V9 and has the
default -1 for older generations. -/
def sampleFormat : Format :=
  { byteOrder := .LittleEndian
    magic := ChunkId ⟨66, 83, 68, 66⟩
    tableId := fun k => ChunkId ⟨84, 66, 76, 48 + (k.toCtorIdx)⟩
    tableVersion := fun _ => 1
    fields := fun k =>
      match k with
      | .Color => [.num 4 false, .bytes, .num 2 true]
      | _ => [.num 4 false]
    introduced := fun k =>
      match k with
      | .Color => [.V1, .V1, .V9]
      | _ => []
    defaults := fun k =>
      match k with
      | .Color => [.num 0, .num 0, .num (-1)]
      | _ => []
    blockSize := 1024 }

/-- The color record 11 "Red" -3 with its name in `sampleArena`. -/
def sampleColor : Record :=
  [.num 11, .view ((MemoryResource.empty 1024).store [82, 101, 100]).1, .num (-3)]

/-- A database with a valid catalog: the color 11 "Red" -3, the category 7, two item types
and one item; the other tables are empty. -/
def sampleDatabase : Database :=
  { Database.new "https://example.org/database-v12" with
    m_valid := true
    m_updateStatus := .Ok
    m_lastUpdated := some 1700000000
    m_pool := sampleArena
    m_colors := [sampleColor]
    m_categories := [[.num 7]]
    m_itemTypes := [[.num 80], [.num 83]]
    m_items := [[.num 3001]] }

/-- The nine table chunks of a catalog without records: each holds the record count 0. -/
def emptyTables : List (Nat × Nat × List Nat) :=
  tableOrder.map fun kind => (sampleFormat.tableId kind, 1, [0, 0, 0, 0])

/-- A database file of the latest version with nine empty tables and, behind the ninth table,
a complete chunk "XTRA" that the reader does not know. -/
def trailingChunkFile : List Nat :=
  chunkBytes .LittleEndian sampleFormat.magic 12
    (ChunkReader.chunksBytes .LittleEndian emptyTables
      ++ chunkBytes .LittleEndian (ChunkId ⟨88, 84, 82, 65⟩) 0 [1, 2, 3])

/-- A configurable header of four sections shown in the order 2, 0, 3, 1, section 3 hidden,
sorted by section 2 ascending, then section 5 descending. -/
def sampleHeader : HeaderView :=
  { m_sortColumns := [(2, .AscendingOrder), (5, .DescendingOrder)]
    m_isSorted := true
    m_isConfigurable := true
    visualOrder := [2, 0, 3, 1]
    hiddenSections := [3] }

/-- The rows of the column dialog after the user has dragged the sections into the order
1, 3, 0, 2 and unchecked section 0. -/
def sampleRows : List SectionItem :=
  [⟨1, true⟩, ⟨3, true⟩, ⟨0, false⟩, ⟨2, true⟩]

/-- A lot for the examples: `qty` pieces of the part 3001 in color 11. -/
def sampleLot (qty : Int) : Lot :=
  { item := ⟨'P', "3001", false⟩
    color := ⟨11⟩
    condition := .New
    subCondition := .None
    quantity := qty
    price := 0
    comments := "" }

/-- A document with three lots, the middle one selected, whose model keeps the order of a lot
list when sorting it. -/
def sampleDocument : Document :=
  { model := { lots := [sampleLot 1, sampleLot 2, sampleLot 3], sortLotList := fun lots => lots }
    selectedLots := [sampleLot 2] }

/-- A printing action whose print function prints one page per lot. -/
def samplePrintAction : PrintingScriptAction :=
  { m_text := "Print: Classic layout"
    m_printFunction := some fun _ lots =>
      { isError := false, errorText := "", isAborted := false, print := fun _ => true,
        pageCount := lots.length } }

/-- A seller cart as `parseGlobalCart` leaves it: seller 42, no lots fetched yet. -/
def sampleCart : Cart :=
  { m_domestic := true
    m_sellerId := 42
    m_sellerName := "seller"
    m_storeName := "store"
    m_lastUpdated := none
    m_total := 3
    m_currencyCode := "USD"
    m_itemCount := 3
    m_lotCount := 2
    m_countryCode := "US"
    m_lots := [] }

/-- One entry of the `items` array of a seller cart, with the given color id. -/
def sampleCartItem (colorId : Int) : Json :=
  .object
    [("itemNo", .string "3001"), ("itemSeq", .number 0), ("itemType", .string "PART"),
     ("colorID", .number colorId), ("invNew", .string "New"), ("cartQty", .number 2),
     ("nativePrice", .string "US $0.50"), ("invDescription", .string "")]

/-- A seller cart body with two entries: the first has a known color, the second has not. -/
def sampleCartJson : Json :=
  .object [("cart", .object [("items", .array [sampleCartItem 11, sampleCartItem 999])])]

/-- A catalog that knows the part 3001 and the color 11, and a parser that accepts every
non-empty body as `sampleCartJson`. -/
def sampleCartEnv : CartEnv :=
  { fromJson := fun data => if data = [] then .error ("illegal value", 0) else .ok sampleCartJson
    item := fun itemTypeId itemId =>
      if itemTypeId = 'P' ∧ itemId = "3001" then some ⟨'P', "3001", false⟩ else none
    color := fun colorId => if colorId = 11 then some ⟨11⟩ else none
    idFromFirstCharInString := fun s => s.front
    toUInt := fun v => v.toInt.toNat
    toDouble := fun _ => 1 / 2
    trimmed := fun s => s }

/-- The job that fetched the lots of `sampleCart`: completed, response code 200. -/
def sampleCartJob : Carts.TransferJob :=
  { id := 1
    isCompleted := true
    responseCode := 200
    userTag := "cart"
    userData := 42
    data := [123, 125]
    errorString := "" }

/-- The carts with `sampleCart` and its running job. -/
def sampleCarts : Carts :=
  { m_carts := [sampleCart]
    m_cartJobs := [sampleCartJob]
    m_job := none
    m_updateStatus := .Ok
    m_lastUpdated := none }

/-- The one lot of `sampleCartJson` that resolves. -/
def sampleCartLot : Lot :=
  { item := ⟨'P', "3001", false⟩
    color := ⟨11⟩
    condition := .New
    subCondition := .None
    quantity := 2
    price := 1 / 2
    comments := "" }

/-- The positions of a surface buffer holding one triangle, all coordinates negative. -/
def sampleTriangle : List QVector3D :=
  [⟨-1, -1, -1⟩, ⟨-2, -1, -1⟩, ⟨-1, -2, -1⟩]

/-- A cart page: the marker at index 8, the JSON text `\x7b\x7d` at the indices 25 and 26,
then the end of the statement. -/
def samplePage : List Nat := latin1 "<script>var GlobalCart = \x7b\x7d;\r\n</script>"

/-- A page without the marker. -/
def sampleLoginPage : List Nat := latin1 "<html>Please log in</html>"

/-- The environment `sampleCartEnv` with a number parser and a date parser that know one
value each. -/
def sampleGlobalCartEnv : GlobalCartEnv :=
  { toCartEnv := sampleCartEnv
    stringViewToDouble := fun s => if s = "3.00" then 3 else 0
    dateFromString := fun s => if s = "2024-01-01" then some 19723 else none }

/-- The job of a cart-list refresh that got the login page: completed, response code 200. -/
def sampleGlobalCartJob : Carts.TransferJob :=
  { id := 2
    isCompleted := true
    responseCode := 200
    userTag := "globalCart"
    userData := 1
    data := sampleLoginPage
    errorString := "" }

/-- The carts with `sampleCart`, updating, with `sampleGlobalCartJob` as the running job. -/
def sampleUpdatingCarts : Carts :=
  { m_carts := [sampleCart]
    m_cartJobs := []
    m_job := some sampleGlobalCartJob
    m_updateStatus := .Updating
    m_lastUpdated := none }

/-- A key press of the comma key on a keypad, with the text `,`. -/
def sampleKeyEvent : QKeyEvent :=
  { type := .KeyPress
    key := 44
    modifiers := 0x20000000
    text := [44]
    isAutoRepeat := false
    count := 1 }

/-! ## Chunk identifiers -/

theorem land_7f (c : Nat) : c &&& 0x7f = c % 128 := by
  have := Nat.and_pow_two_sub_one_eq_mod c 7
  simpa using this

theorem shl_lor (a b k : Nat) (h : a < 2 ^ k) : (b <<< k) ||| a = b * 2 ^ k + a := by
  rw [Nat.shiftLeft_eq, Nat.mul_comm, Nat.mul_add_lt_is_or h]

theorem ChunkId_eq_sum (str : ChunkName) :
    ChunkId str
      = str.c0 % 128 + str.c1 % 128 * 2 ^ 8 + str.c2 % 128 * 2 ^ 16 + str.c3 % 128 * 2 ^ 24 := by
  unfold ChunkId
  simp only [land_7f]
  have h0 := Nat.mod_lt str.c0 (show 128 > 0 by decide)
  have h1 := Nat.mod_lt str.c1 (show 128 > 0 by decide)
  have h2 := Nat.mod_lt str.c2 (show 128 > 0 by decide)
  have h3 := Nat.mod_lt str.c3 (show 128 > 0 by decide)
  generalize str.c0 % 128 = a at *
  generalize str.c1 % 128 = b at *
  generalize str.c2 % 128 = c at *
  generalize str.c3 % 128 = d at *
  have e0 : a % 2 ^ 32 = a := Nat.mod_eq_of_lt (by omega)
  have e1 : b % 2 ^ 32 = b := Nat.mod_eq_of_lt (by omega)
  have e2 : c % 2 ^ 32 = c := Nat.mod_eq_of_lt (by omega)
  have e3 : d % 2 ^ 32 = d := Nat.mod_eq_of_lt (by omega)
  rw [e0, e1, e2, e3]
  simp only [Nat.shiftLeft_eq]
  have f1 : b * 2 ^ 8 % 2 ^ 32 = b * 2 ^ 8 := Nat.mod_eq_of_lt (by omega)
  have f2 : c * 2 ^ 16 % 2 ^ 32 = c * 2 ^ 16 := Nat.mod_eq_of_lt (by omega)
  have f3 : d * 2 ^ 24 % 2 ^ 32 = d * 2 ^ 24 := Nat.mod_eq_of_lt (by omega)
  rw [f1, f2, f3]
  have g1 : d * 2 ^ 24 ||| c * 2 ^ 16 = (d * 2 ^ 8 + c) * 2 ^ 16 := by
    have := shl_lor (c * 2 ^ 16) d 24 (by omega)
    rw [Nat.shiftLeft_eq] at this
    rw [this]; ring
  have g2 : (d * 2 ^ 8 + c) * 2 ^ 16 ||| b * 2 ^ 8 = ((d * 2 ^ 8 + c) * 2 ^ 8 + b) * 2 ^ 8 := by
    have := shl_lor (b * 2 ^ 8) (d * 2 ^ 8 + c) 16 (by omega)
    rw [Nat.shiftLeft_eq] at this
    rw [this]; ring
  have g3 : ((d * 2 ^ 8 + c) * 2 ^ 8 + b) * 2 ^ 8 ||| a
      = ((d * 2 ^ 8 + c) * 2 ^ 8 + b) * 2 ^ 8 + a := by
    have := shl_lor a ((d * 2 ^ 8 + c) * 2 ^ 8 + b) 8 (by omega)
    rw [Nat.shiftLeft_eq] at this
    exact this
  rw [g1, g2, g3]
  omega

theorem ChunkId_lt (str : ChunkName) : ChunkId str < 2 ^ 32 := by
  rw [ChunkId_eq_sum]; omega

theorem land_mask_zero (x : Nat) (h7 : x / 2 ^ 7 % 2 = 0) (h15 : x / 2 ^ 15 % 2 = 0)
    (h23 : x / 2 ^ 23 % 2 = 0) (h31 : x / 2 ^ 31 % 2 = 0) : x &&& 0x80808080 = 0 := by
  apply Nat.eq_of_testBit_eq
  intro i
  rw [Nat.testBit_and, Nat.zero_testBit]
  by_cases hi : i < 32
  · interval_cases i <;> simp [Nat.testBit, Nat.shiftRight_eq_div_pow] <;> omega
  · have : (0x80808080 : Nat).testBit i = false := by
      apply Nat.testBit_lt_two_pow
      calc (0x80808080 : Nat) < 2 ^ 32 := by decide
        _ ≤ 2 ^ i := Nat.pow_le_pow_right (by decide) (by omega)
    simp [this]

/-- C5: for every four-character name, `ChunkId` is the bitwise OR of the four characters
masked with `0x7f` and shifted by 0, 8, 16 and 24 bits; hence the top bit of each of its four
bytes is clear (`ChunkId & 0x80808080 = 0`) and the first character occupies the least
significant byte. -/
theorem ChunkId_packing (str : ChunkName) :
    ChunkId str = (str.c0 &&& 0x7f) ||| ((str.c1 &&& 0x7f) <<< 8) ||| ((str.c2 &&& 0x7f) <<< 16)
        ||| ((str.c3 &&& 0x7f) <<< 24)
    ∧ ChunkId str &&& 0x80808080 = 0
    ∧ ChunkId str &&& 0xff = str.c0 &&& 0x7f := by
  refine ⟨?_, ?_, ?_⟩
  · rw [ChunkId_eq_sum]
    simp only [land_7f]
    have h0 := Nat.mod_lt str.c0 (show 128 > 0 by decide)
    have h1 := Nat.mod_lt str.c1 (show 128 > 0 by decide)
    have h2 := Nat.mod_lt str.c2 (show 128 > 0 by decide)
    have h3 := Nat.mod_lt str.c3 (show 128 > 0 by decide)
    generalize str.c0 % 128 = a at *
    generalize str.c1 % 128 = b at *
    generalize str.c2 % 128 = c at *
    generalize str.c3 % 128 = d at *
    rw [Nat.lor_comm a, shl_lor a b 8 (by omega), Nat.lor_comm _ (c <<< 16),
      shl_lor _ c 16 (by omega), Nat.lor_comm _ (d <<< 24), shl_lor _ d 24 (by omega)]
    omega
  · apply land_mask_zero <;> rw [ChunkId_eq_sum] <;> omega
  · have := Nat.and_pow_two_sub_one_eq_mod (ChunkId str) 8
    have e : (2 : Nat) ^ 8 - 1 = 0xff := by decide
    rw [e] at this
    rw [this, land_7f, ChunkId_eq_sum]; omega

theorem ChunkVersion_eq (v : Nat) (hv : v < 2 ^ 32) : ChunkVersion v = v * 2 ^ 32 := by
  unfold ChunkVersion
  rw [Nat.mod_eq_of_lt hv, Nat.shiftLeft_eq]
  exact Nat.mod_eq_of_lt (by omega)

theorem key_eq_add (i v : Nat) (hi : i < 2 ^ 32) (hv : v < 2 ^ 32) :
    i ||| ChunkVersion v = v * 2 ^ 32 + i := by
  rw [ChunkVersion_eq v hv, Nat.lor_comm]
  have := shl_lor i v 32 hi
  rwa [Nat.shiftLeft_eq] at this

/-- C6: for every chunk id `ChunkId s` and every 32-bit version `v`, the 64-bit key
`k = ChunkId s | ChunkVersion v` satisfies `k mod 2^32 = ChunkId s` and `k >> 32 = v`, where
`ChunkVersion v = v * 2^32` without overflow in 64 bits; so two keys are equal iff both their
ids and their versions are equal. -/
theorem chunk_key_lossless (s : ChunkName) (v : Nat) (hv : v < 2 ^ 32) :
    (ChunkId s ||| ChunkVersion v) % 2 ^ 32 = ChunkId s
    ∧ (ChunkId s ||| ChunkVersion v) >>> 32 = v
    ∧ ChunkVersion v = v * 2 ^ 32
    ∧ ChunkId s ||| ChunkVersion v < 2 ^ 64
    ∧ ∀ (t : ChunkName) (w : Nat), w < 2 ^ 32 →
        (ChunkId s ||| ChunkVersion v = ChunkId t ||| ChunkVersion w
          ↔ ChunkId s = ChunkId t ∧ v = w) := by
  have hs := ChunkId_lt s
  refine ⟨?_, ?_, ChunkVersion_eq v hv, ?_, ?_⟩
  · rw [key_eq_add _ _ hs hv]; omega
  · rw [key_eq_add _ _ hs hv, Nat.shiftRight_eq_div_pow]; omega
  · rw [key_eq_add _ _ hs hv]; omega
  · intro t w hw
    have ht := ChunkId_lt t
    rw [key_eq_add _ _ hs hv, key_eq_add _ _ ht hw]
    constructor
    · intro h; omega
    · rintro ⟨h1, h2⟩; rw [h1, h2]

/-- Witness of C6 at the name "BSDB" and version 12. -/
theorem chunk_key_lossless_witness :
    (12 : Nat) < 2 ^ 32
    ∧ (ChunkId ⟨66, 83, 68, 66⟩ ||| ChunkVersion 12) % 2 ^ 32 = ChunkId ⟨66, 83, 68, 66⟩
    ∧ (ChunkId ⟨66, 83, 68, 66⟩ ||| ChunkVersion 12) >>> 32 = 12 :=
  ⟨by decide, (chunk_key_lossless ⟨66, 83, 68, 66⟩ 12 (by decide)).1,
    (chunk_key_lossless ⟨66, 83, 68, 66⟩ 12 (by decide)).2.1⟩

/-- C7: on names whose four characters all have code below 128, `ChunkId` is injective, and
the four characters are recovered as the four bytes of the id from least to most
significant. -/
theorem ChunkId_injective_ascii (s t : ChunkName)
    (hs : s.c0 < 128 ∧ s.c1 < 128 ∧ s.c2 < 128 ∧ s.c3 < 128)
    (ht : t.c0 < 128 ∧ t.c1 < 128 ∧ t.c2 < 128 ∧ t.c3 < 128) :
    (ChunkId s = ChunkId t → s = t)
    ∧ ChunkId s % 256 = s.c0
    ∧ ChunkId s / 2 ^ 8 % 256 = s.c1
    ∧ ChunkId s / 2 ^ 16 % 256 = s.c2
    ∧ ChunkId s / 2 ^ 24 % 256 = s.c3 := by
  obtain ⟨a0, a1, a2, a3⟩ := s
  obtain ⟨b0, b1, b2, b3⟩ := t
  simp only at hs ht
  refine ⟨?_, ?_, ?_, ?_, ?_⟩
  · intro h
    rw [ChunkId_eq_sum, ChunkId_eq_sum] at h
    simp only at h
    have : a0 = b0 ∧ a1 = b1 ∧ a2 = b2 ∧ a3 = b3 := by omega
    obtain ⟨h0, h1, h2, h3⟩ := this
    subst h0 h1 h2 h3; rfl
  all_goals (rw [ChunkId_eq_sum]; simp only; omega)

/-- Witness of C7 at the names "COL " and "COL ". -/
theorem ChunkId_injective_ascii_witness :
    ((67 : Nat) < 128 ∧ (79 : Nat) < 128 ∧ (76 : Nat) < 128 ∧ (32 : Nat) < 128)
    ∧ (ChunkId ⟨67, 79, 76, 32⟩ = ChunkId ⟨67, 79, 76, 32⟩ →
        (⟨67, 79, 76, 32⟩ : ChunkName) = ⟨67, 79, 76, 32⟩)
    ∧ ChunkId ⟨67, 79, 76, 32⟩ % 256 = 67
    ∧ ChunkId ⟨67, 79, 76, 32⟩ / 2 ^ 8 % 256 = 79
    ∧ ChunkId ⟨67, 79, 76, 32⟩ / 2 ^ 16 % 256 = 76
    ∧ ChunkId ⟨67, 79, 76, 32⟩ / 2 ^ 24 % 256 = 32 :=
  ⟨by decide, ChunkId_injective_ascii ⟨67, 79, 76, 32⟩ ⟨67, 79, 76, 32⟩ (by decide) (by decide)⟩

/-! ## Byte streams and chunk framing -/

theorem leBytes_length (n v : Nat) : (leBytes n v).length = n := by
  induction n generalizing v with
  | zero => rfl
  | succ n ih => simp [leBytes, ih]

theorem leValue_leBytes (n v : Nat) : leValue (leBytes n v) = v % 256 ^ n := by
  induction n generalizing v with
  | zero => simp [leBytes, leValue, Nat.mod_one]
  | succ n ih =>
    simp only [leBytes, leValue, ih, Nat.mod_mod]
    rw [pow_succ, Nat.mul_comm (256 ^ n) 256, Nat.mod_mul]

theorem putUInt_length (bo : ByteOrder) (n v : Nat) : (putUInt bo n v).length = n := by
  cases bo <;> simp [putUInt, leBytes_length]

theorem getUInt_putUInt (bo : ByteOrder) (n v : Nat) :
    getUInt bo (putUInt bo n v) = v % 256 ^ n := by
  cases bo <;> simp [putUInt, getUInt, leValue_leBytes]

theorem readRaw_append (pre mid post : List Nat) :
    readRaw (pre ++ mid ++ post) pre.length mid.length = some mid := by
  unfold readRaw
  have : pre.length + mid.length ≤ (pre ++ mid ++ post).length := by simp
  rw [if_pos this]
  simp

theorem overwrite_append (pre old new post : List Nat) (h : old.length = new.length) :
    overwrite (pre ++ old ++ post) pre.length new = pre ++ new ++ post := by
  unfold overwrite
  simp [List.take_append_eq_append_take, List.drop_append_eq_append_drop, ← h]

theorem overwrite_length (dev : List Nat) (off : Nat) (bytes : List Nat)
    (h : off + bytes.length ≤ dev.length) : (overwrite dev off bytes).length = dev.length := by
  unfold overwrite
  simp
  omega

theorem overwrite_take (dev : List Nat) (off : Nat) (bytes : List Nat) (p : Nat) (hp : p ≤ off)
    (hoff : off ≤ dev.length) :
    (overwrite dev off bytes).take p = dev.take p := by
  unfold overwrite
  rw [List.append_assoc, List.take_append_of_le_length (by simp; omega), List.take_take,
    Nat.min_eq_left hp]

theorem run_nil (cw : ChunkWriter) : cw.run [] = cw := rfl

theorem run_cons (cw : ChunkWriter) (op : WriteOp) (ops : List WriteOp) :
    cw.run (op :: ops) = (cw.step op).run ops := rfl

theorem run_nested (P : Nat) (ops : List WriteOp) :
    ∀ (d : Nat) (cw : ChunkWriter) (extra base : List write_chunk_info),
      cw.m_chunks = extra ++ base → extra.length = d →
      (∀ e ∈ extra, P + 8 ≤ e.startpos ∧ e.startpos ≤ cw.pos) → P ≤ cw.pos →
      properlyNested d ops = true →
      (cw.run ops).m_chunks = base ∧ (cw.run ops).m_file.take P = cw.m_file.take P
        ∧ cw.pos ≤ (cw.run ops).pos ∧ (cw.run ops).bo = cw.bo := by
  induction ops with
  | nil =>
    intro d cw extra base hc hl _ _ hn
    simp only [properlyNested, beq_iff_eq] at hn
    subst hn
    have : extra = [] := List.length_eq_zero.mp hl
    subst this
    simp [run_nil, hc]
  | cons op ops ih =>
    intro d cw extra base hc hl hex hP hn
    rw [run_cons]
    cases op with
    | raw bytes =>
      simp only [properlyNested] at hn
      have hpos : cw.pos ≤ (cw.step (.raw bytes)).pos := by
        simp [ChunkWriter.step, ChunkWriter.writeBytes, ChunkWriter.pos]
      obtain ⟨h1, h2, h3, h4⟩ := ih d (cw.step (.raw bytes)) extra base
        (by simpa [ChunkWriter.step, ChunkWriter.writeBytes] using hc) hl
        (fun e he => ⟨(hex e he).1, le_trans (hex e he).2 hpos⟩) (le_trans hP hpos) hn
      refine ⟨h1, ?_, le_trans hpos h3, ?_⟩
      · rw [h2]
        simp only [ChunkWriter.step, ChunkWriter.writeBytes]
        exact List.take_append_of_le_length hP
      · rw [h4]; rfl
    | startChunk id version =>
      simp only [properlyNested] at hn
      have hpos : cw.pos + 16 = (cw.step (.startChunk id version)).pos := by
        simp [ChunkWriter.step, ChunkWriter.startChunk, ChunkWriter.writeBytes, ChunkWriter.pos,
          putUInt_length]
      obtain ⟨h1, h2, h3, h4⟩ := ih (d + 1) (cw.step (.startChunk id version))
        (⟨id % 2 ^ 32, version % 2 ^ 32, cw.pos + 16⟩ :: extra) base
        (by
          simp [ChunkWriter.step, ChunkWriter.startChunk, ChunkWriter.writeBytes, ChunkWriter.pos,
            putUInt_length, hc])
        (by simp [hl])
        (by
          intro e he
          rcases List.mem_cons.mp he with h | h
          · subst h; simp only; omega
          · have := hex e h; omega)
        (by omega) hn
      refine ⟨h1, ?_, by omega, ?_⟩
      · rw [h2]
        simp only [ChunkWriter.step, ChunkWriter.startChunk, ChunkWriter.writeBytes]
        exact List.take_append_of_le_length hP
      · rw [h4]; rfl
    | endChunk =>
      cases d with
      | zero => simp [properlyNested] at hn
      | succ d =>
        simp only [properlyNested] at hn
        cases extra with
        | nil => simp at hl
        | cons top extra =>
          have htop := hex top (List.mem_cons_self _ _)
          have hstep : cw.step .endChunk = { cw with
              m_file := overwrite cw.m_file (top.startpos - 8) (putUInt cw.bo 8 (cw.pos - top.startpos))
              m_chunks := extra ++ base } := by
            simp [ChunkWriter.step, ChunkWriter.endChunk, hc]
          have hlen : (cw.step .endChunk).pos = cw.pos := by
            rw [hstep]
            simp only [ChunkWriter.pos]
            apply overwrite_length
            rw [putUInt_length]
            have := htop.2
            simp only [ChunkWriter.pos] at this
            omega
          obtain ⟨h1, h2, h3, h4⟩ := ih d (cw.step .endChunk) extra base
            (by rw [hstep]) (by simpa using hl)
            (fun e he => by
              have := hex e (List.mem_cons_of_mem _ he)
              rw [hlen]; exact this)
            (by rw [hlen]; exact hP) hn
          refine ⟨h1, ?_, by rw [← hlen]; exact h3, ?_⟩
          · rw [h2, hstep]
            simp only
            apply overwrite_take
            · omega
            · have := htop.2
              simp only [ChunkWriter.pos] at this
              omega
          · rw [h4, hstep]

theorem pow_256_4 : (256 : Nat) ^ 4 = 2 ^ 32 := by norm_num

theorem pow_256_8 : (256 : Nat) ^ 8 = 2 ^ 64 := by norm_num

theorem chunk_closed_form (cw : ChunkWriter) (id version : Nat) (ops : List WriteOp)
    (hn : properlyNested 0 ops = true) :
    ∃ payload : List Nat,
      ((cw.startChunk id version).2.run ops).m_file
          = (cw.startChunk id version).2.m_file ++ payload
      ∧ payload.length
          = ((cw.startChunk id version).2.run ops).pos - (cw.startChunk id version).2.pos
      ∧ (((cw.startChunk id version).2.run ops).endChunk).1 = true
      ∧ (((cw.startChunk id version).2.run ops).endChunk).2
          = { m_file := cw.m_file ++ chunkBytes cw.bo id version payload
              bo := cw.bo
              m_chunks := cw.m_chunks } := by
  set w1 := (cw.startChunk id version).2 with hw1
  have hw1c : w1.m_chunks = ⟨id % 2 ^ 32, version % 2 ^ 32, w1.pos⟩ :: cw.m_chunks := by
    simp [hw1, ChunkWriter.startChunk, ChunkWriter.writeBytes, ChunkWriter.pos]
  have hw1f : w1.m_file
      = cw.m_file ++ (putUInt cw.bo 4 id ++ putUInt cw.bo 4 version ++ putUInt cw.bo 8 0) := by
    simp [hw1, ChunkWriter.startChunk, ChunkWriter.writeBytes]
  have hw1b : w1.bo = cw.bo := by
    simp [hw1, ChunkWriter.startChunk, ChunkWriter.writeBytes]
  obtain ⟨h1, h2, h3, h4⟩ := run_nested w1.pos ops 0 w1 [] w1.m_chunks (by simp) rfl
    (by simp) (le_refl _) hn
  set w2 := w1.run ops with hw2
  obtain ⟨payload, hpay⟩ : ∃ p, p = w2.m_file.drop w1.pos := ⟨_, rfl⟩
  have hsplit : w2.m_file = w1.m_file ++ payload := by
    conv_lhs => rw [← List.take_append_drop w1.pos w2.m_file]
    rw [h2, hpay]
    simp [ChunkWriter.pos]
  have hl : payload.length = w2.pos - w1.pos := by
    rw [hpay]; simp [ChunkWriter.pos]
  refine ⟨payload, hsplit, hl, ?_, ?_⟩
  · simp [ChunkWriter.endChunk, h1, hw1c]
  · have hpos1 : w1.pos = cw.m_file.length + 16 := by
      simp [ChunkWriter.pos, hw1f, putUInt_length]
    have hfile : overwrite w2.m_file (w1.pos - 8) (putUInt w2.bo 8 (w2.pos - w1.pos))
        = cw.m_file ++ chunkBytes cw.bo id version payload := by
      rw [hsplit, hw1f, h4, hw1b, ← hl]
      have e : w1.pos - 8 = (cw.m_file ++ (putUInt cw.bo 4 id ++ putUInt cw.bo 4 version)).length := by
        rw [hpos1]; simp [putUInt_length]
      have := overwrite_append (cw.m_file ++ (putUInt cw.bo 4 id ++ putUInt cw.bo 4 version))
        (putUInt cw.bo 8 0) (putUInt cw.bo 8 payload.length) payload
        (by simp [putUInt_length])
      rw [← e] at this
      simp only [List.append_assoc, chunkBytes] at this ⊢
      exact this
    simp only [ChunkWriter.endChunk, h1, hw1c]
    rw [hfile, h4, hw1b]

theorem startChunk_chunkBytes (cr : ChunkReader) (pre payload post : List Nat) (id version : Nat)
    (hfile : cr.m_file = pre ++ chunkBytes cr.bo id version payload ++ post)
    (hpos : cr.pos = pre.length)
    (hend : pre.length + 16 + payload.length ≤ cr.enclosingEnd)
    (hlen : payload.length < 2 ^ 64) :
    cr.startChunk = (true, { cr with
      pos := pre.length + 16
      m_chunks := ⟨id % 2 ^ 32, version % 2 ^ 32, pre.length + 16, payload.length⟩ :: cr.m_chunks }) := by
  have hhdr : readRaw cr.m_file cr.pos 16
      = some (putUInt cr.bo 4 id ++ putUInt cr.bo 4 version ++ putUInt cr.bo 8 payload.length) := by
    rw [hfile, hpos]
    have := readRaw_append pre
      (putUInt cr.bo 4 id ++ putUInt cr.bo 4 version ++ putUInt cr.bo 8 payload.length)
      (payload ++ post)
    simp only [List.length_append, putUInt_length] at this
    simpa [chunkBytes] using this
  unfold ChunkReader.startChunk
  rw [hhdr]
  have e1 : getUInt cr.bo ((putUInt cr.bo 4 id ++ putUInt cr.bo 4 version
      ++ putUInt cr.bo 8 payload.length).take 4) = id % 2 ^ 32 := by
    rw [List.append_assoc, List.take_left' (putUInt_length _ _ _), getUInt_putUInt, pow_256_4]
  have e2 : getUInt cr.bo (((putUInt cr.bo 4 id ++ putUInt cr.bo 4 version
      ++ putUInt cr.bo 8 payload.length).drop 4).take 4) = version % 2 ^ 32 := by
    rw [List.append_assoc, List.drop_left' (putUInt_length _ _ _),
      List.take_left' (putUInt_length _ _ _), getUInt_putUInt, pow_256_4]
  have e3 : getUInt cr.bo ((putUInt cr.bo 4 id ++ putUInt cr.bo 4 version
      ++ putUInt cr.bo 8 payload.length).drop 8) = payload.length := by
    rw [List.drop_left' (by simp [putUInt_length]), getUInt_putUInt, pow_256_8]
    exact Nat.mod_eq_of_lt hlen
  simp only [e1, e2, e3, hpos]
  rw [if_pos hend]

theorem startChunk_ok (cr : ChunkReader) (h : cr.startChunk.1 = true) :
    ∃ hdr, readRaw cr.m_file cr.pos 16 = some hdr
      ∧ cr.pos + 16 + getUInt cr.bo (hdr.drop 8) ≤ cr.enclosingEnd
      ∧ cr.startChunk = (true, { cr with
          pos := cr.pos + 16
          m_chunks := ⟨getUInt cr.bo (hdr.take 4), getUInt cr.bo ((hdr.drop 4).take 4),
            cr.pos + 16, getUInt cr.bo (hdr.drop 8)⟩ :: cr.m_chunks }) := by
  unfold ChunkReader.startChunk at h ⊢
  cases hr : readRaw cr.m_file cr.pos 16 with
  | none => simp [hr] at h
  | some hdr =>
    simp only [hr] at h ⊢
    by_cases hb : cr.pos + 16 + getUInt cr.bo (hdr.drop 8) ≤ cr.enclosingEnd
    · exact ⟨hdr, rfl, hb, by rw [if_pos hb]⟩
    · rw [if_neg hb] at h; simp at h

/-- C3: after `ChunkWriter::startChunk(id, version)`, a payload written by properly nested
steps (raw bytes and child chunks) and `ChunkWriter::endChunk()`, a `ChunkReader` placed on
the written bytes at the chunk header opens the chunk when nothing encloses it, and whenever
its `startChunk()` succeeds it reports `chunkId() = id`, `chunkVersion() = version` and
`chunkSize() =` the number of payload bytes written between the two calls. -/
theorem framing_round_trip (cw : ChunkWriter) (id version : Nat) (ops : List WriteOp)
    (cr : ChunkReader)
    (hid : id < 2 ^ 32) (hver : version < 2 ^ 32)
    (hn : properlyNested 0 ops = true)
    (hsize : ((cw.startChunk id version).2.run ops).pos < 2 ^ 63)
    (hdev : cr.m_file = (((cw.startChunk id version).2.run ops).endChunk).2.m_file)
    (hbo : cr.bo = cw.bo) (hpos : cr.pos = cw.pos) :
    (cr.m_chunks = [] → cr.startChunk.1 = true)
    ∧ (cr.startChunk.1 = true →
        cr.startChunk.2.chunkId = id
        ∧ cr.startChunk.2.chunkVersion = version
        ∧ cr.startChunk.2.chunkSize
            = ((cw.startChunk id version).2.run ops).pos - (cw.startChunk id version).2.pos
        ∧ cr.startChunk.2.pos = (cw.startChunk id version).2.pos) := by
  obtain ⟨payload, hsplit, hl, _, hend⟩ := chunk_closed_form cw id version ops hn
  rw [hend] at hdev
  simp only at hdev
  have hw1 : (cw.startChunk id version).2.pos = cw.pos + 16 := by
    simp [ChunkWriter.startChunk, ChunkWriter.writeBytes, ChunkWriter.pos, putUInt_length]
  have hlt : payload.length < 2 ^ 64 := by omega
  have hfile : cr.m_file = cw.m_file ++ chunkBytes cr.bo id version payload ++ [] := by
    rw [hdev, hbo]; simp
  have hhdr : readRaw cr.m_file cr.pos 16
      = some (putUInt cr.bo 4 id ++ putUInt cr.bo 4 version ++ putUInt cr.bo 8 payload.length) := by
    rw [hfile, hpos]
    have := readRaw_append cw.m_file
      (putUInt cr.bo 4 id ++ putUInt cr.bo 4 version ++ putUInt cr.bo 8 payload.length)
      (payload ++ [])
    simp only [List.length_append, putUInt_length] at this
    simpa [chunkBytes, ChunkWriter.pos] using this
  constructor
  · intro hempty
    rw [startChunk_chunkBytes cr cw.m_file payload [] id version hfile hpos
      (by rw [ChunkReader.enclosingEnd, hempty, hfile]; simp [chunkBytes, putUInt_length]; omega)
      hlt]
  · intro hok
    obtain ⟨hdr, h1, _, h3⟩ := startChunk_ok cr hok
    rw [hhdr] at h1
    have h1 := (Option.some.inj h1).symm
    subst h1
    rw [h3]
    simp only [ChunkReader.chunkId, ChunkReader.chunkVersion, ChunkReader.chunkSize]
    refine ⟨?_, ?_, ?_, ?_⟩
    · rw [List.append_assoc, List.take_left' (putUInt_length _ _ _), getUInt_putUInt, pow_256_4]
      exact Nat.mod_eq_of_lt hid
    · rw [List.append_assoc, List.drop_left' (putUInt_length _ _ _),
        List.take_left' (putUInt_length _ _ _), getUInt_putUInt, pow_256_4]
      exact Nat.mod_eq_of_lt hver
    · rw [List.drop_left' (by simp [putUInt_length]), getUInt_putUInt, pow_256_8,
        Nat.mod_eq_of_lt hlt, hl]
    · rw [hw1, hpos]

/-- Witness of C3: a chunk "BSDB" of version 12 whose payload holds three raw bytes, a child
chunk "COL " with two bytes, and one more raw byte, written little-endian on an empty
device. -/
theorem framing_round_trip_witness :
    (ChunkId ⟨66, 83, 68, 66⟩ < 2 ^ 32 ∧ (12 : Nat) < 2 ^ 32)
    ∧ properlyNested 0
        [.raw [1, 2, 3], .startChunk (ChunkId ⟨67, 79, 76, 32⟩) 1, .raw [7, 8], .endChunk, .raw [9]]
        = true
    ∧ (((ChunkReader.new
          ((((ChunkWriter.new .LittleEndian).startChunk (ChunkId ⟨66, 83, 68, 66⟩) 12).2.run
            [.raw [1, 2, 3], .startChunk (ChunkId ⟨67, 79, 76, 32⟩) 1, .raw [7, 8], .endChunk,
              .raw [9]]).endChunk).2.m_file
          .LittleEndian).startChunk.1 = true) →
        (ChunkReader.new
          ((((ChunkWriter.new .LittleEndian).startChunk (ChunkId ⟨66, 83, 68, 66⟩) 12).2.run
            [.raw [1, 2, 3], .startChunk (ChunkId ⟨67, 79, 76, 32⟩) 1, .raw [7, 8], .endChunk,
              .raw [9]]).endChunk).2.m_file
          .LittleEndian).startChunk.2.chunkSize = 22) :=
  ⟨⟨by decide, by decide⟩, by decide, fun h =>
    ((framing_round_trip (ChunkWriter.new .LittleEndian) (ChunkId ⟨66, 83, 68, 66⟩) 12
      [.raw [1, 2, 3], .startChunk (ChunkId ⟨67, 79, 76, 32⟩) 1, .raw [7, 8], .endChunk, .raw [9]]
      (ChunkReader.new _ .LittleEndian) (by decide) (by decide) (by decide) (by decide) rfl rfl
      rfl).2 h).2.2.1⟩

/-- C2: whenever `ChunkReader::startChunk()` has opened a chunk (at any nesting depth),
`endChunk()` and `skipChunk()` called without reading any payload succeed and leave the
stream exactly at the chunk's start position plus its declared size, `endChunk()` restoring
the stack of enclosing chunks; and in a well-formed stream, where the chunk is followed by a
sibling chunk inside the enclosing region, that position is the end of the chunk's bytes,
from which the next `startChunk()` opens the sibling. -/
theorem skip_correctness (cr : ChunkReader) (hok : cr.startChunk.1 = true) :
    cr.startChunk.2.chunkStart = cr.pos + 16
    ∧ cr.startChunk.2.chunkSize = getUInt cr.bo ((cr.m_file.drop (cr.pos + 8)).take 8)
    ∧ cr.startChunk.2.endChunk = (true, { cr with
        pos := cr.startChunk.2.chunkStart + cr.startChunk.2.chunkSize })
    ∧ cr.startChunk.2.skipChunk.1 = true
    ∧ cr.startChunk.2.skipChunk.2.pos = cr.startChunk.2.chunkStart + cr.startChunk.2.chunkSize
    ∧ cr.startChunk.2.skipChunk.2.m_chunks = cr.startChunk.2.m_chunks
    ∧ ∀ (pre p1 p2 post : List Nat) (id1 v1 id2 v2 : Nat),
        cr.m_file = pre ++ chunkBytes cr.bo id1 v1 p1 ++ chunkBytes cr.bo id2 v2 p2 ++ post →
        cr.pos = pre.length →
        pre.length + (16 + p1.length) + (16 + p2.length) ≤ cr.enclosingEnd →
        p1.length < 2 ^ 64 → p2.length < 2 ^ 64 →
        cr.startChunk.2.chunkStart + cr.startChunk.2.chunkSize
            = (pre ++ chunkBytes cr.bo id1 v1 p1).length
        ∧ cr.startChunk.2.endChunk.2.startChunk.1 = true
        ∧ cr.startChunk.2.endChunk.2.startChunk.2.chunkId = id2 % 2 ^ 32
        ∧ cr.startChunk.2.endChunk.2.startChunk.2.chunkSize = p2.length := by
  obtain ⟨hdr, h1, h2, h3⟩ := startChunk_ok cr hok
  have hsz : getUInt cr.bo (hdr.drop 8) = getUInt cr.bo ((cr.m_file.drop (cr.pos + 8)).take 8) := by
    unfold readRaw at h1
    split at h1
    · have := (Option.some.inj h1).symm
      subst this
      rw [List.drop_take, List.drop_drop]
    · simp at h1
  have hend : cr.startChunk.2.endChunk = (true, { cr with
      pos := cr.startChunk.2.chunkStart + cr.startChunk.2.chunkSize }) := by
    rw [h3]; simp [ChunkReader.endChunk, ChunkReader.chunkStart, ChunkReader.chunkSize]
  refine ⟨by rw [h3]; rfl, by rw [h3]; exact hsz, hend, ?_, ?_, ?_, ?_⟩
  · rw [h3]; rfl
  · rw [h3]; rfl
  · rw [h3]; rfl
  · intro pre p1 p2 post id1 v1 id2 v2 hfile hpos hbound hp1 hp2
    have hs := startChunk_chunkBytes cr pre p1 (chunkBytes cr.bo id2 v2 p2 ++ post) id1 v1
      (by rw [hfile]; simp) hpos (by omega) hp1
    have hlen : (pre ++ chunkBytes cr.bo id1 v1 p1).length = pre.length + 16 + p1.length := by
      simp [chunkBytes, putUInt_length]; omega
    have hpos2 : cr.startChunk.2.chunkStart + cr.startChunk.2.chunkSize
        = (pre ++ chunkBytes cr.bo id1 v1 p1).length := by
      rw [hs, hlen]; rfl
    have hs2 := startChunk_chunkBytes
      { cr with pos := cr.startChunk.2.chunkStart + cr.startChunk.2.chunkSize }
      (pre ++ chunkBytes cr.bo id1 v1 p1) p2 post id2 v2 hfile hpos2
      (by
        rw [hlen]
        have : ChunkReader.enclosingEnd
            { cr with pos := cr.startChunk.2.chunkStart + cr.startChunk.2.chunkSize }
            = cr.enclosingEnd := rfl
        rw [this]; omega)
      hp2
    rw [hend]
    simp only
    rw [hs2]
    exact ⟨hpos2, rfl, rfl, rfl⟩

set_option maxRecDepth 8000 in
/-- Witness of C2 three levels deep: the reader has three chunks open, opens "ITEM" and
closes it unread, which leaves it at position 66 = 64 + 2, the header of "REL ", which the
next `startChunk()` opens. -/
theorem skip_correctness_witness :
    nestedReader.m_chunks.length = 3
    ∧ nestedReader.startChunk.1 = true
    ∧ nestedReader.startChunk.2.chunkStart = 64
    ∧ nestedReader.startChunk.2.endChunk.2.pos = 66
    ∧ nestedReader.m_file
        = nestedStream.take 48 ++ chunkBytes nestedReader.bo (ChunkId ⟨73, 84, 69, 77⟩) 1 [1, 2]
          ++ chunkBytes nestedReader.bo (ChunkId ⟨82, 69, 76, 32⟩) 2 [3] ++ []
    ∧ nestedReader.startChunk.2.endChunk.2.startChunk.2.chunkId
        = ChunkId ⟨82, 69, 76, 32⟩ % 2 ^ 32 :=
  ⟨by decide, by decide, (skip_correctness nestedReader (by decide)).1.trans (by decide),
    by decide, by decide,
    ((skip_correctness nestedReader (by decide)).2.2.2.2.2.2 (nestedStream.take 48) [1, 2] [3] []
      (ChunkId ⟨73, 84, 69, 77⟩) 1 (ChunkId ⟨82, 69, 76, 32⟩) 2 (by decide) (by decide)
      (by decide) (by decide) (by decide)).2.2.1⟩

/-! ## The arena -/

theorem overwrite_zero_full (old data : List Nat) (h : old.length = data.length) :
    overwrite old 0 data = data := by
  unfold overwrite
  simp [← h]

theorem overwrite_tail (pre old data : List Nat) (h : old.length = data.length) :
    overwrite (pre ++ old) pre.length data = pre ++ data := by
  have := overwrite_append pre old data [] h
  simpa using this

theorem readRaw_tail (pre data : List Nat) : readRaw (pre ++ data) pre.length data.length = some data := by
  have := readRaw_append pre data []
  simpa using this

theorem readRaw_append_left (bytes extra : List Nat) (off n : Nat) (x : List Nat)
    (h : readRaw bytes off n = some x) : readRaw (bytes ++ extra) off n = some x := by
  unfold readRaw at h ⊢
  split at h
  · rename_i hle
    rw [if_pos (by simp; omega)]
    rw [← h]
    congr 1
    rw [List.drop_append_of_le_length (by omega), List.take_append_of_le_length (by simp; omega)]
  · simp at h

theorem allocate_cases (pool : MemoryResource) (n : Nat) :
    (∃ cap mk, pool.allocate n = pool.openBlock cap n mk)
    ∨ (∃ i b, pool.blocks[i]? = some b
      ∧ pool.allocate n = (⟨i, b.bytes.length, n⟩,
          { pool with blocks := pool.blocks.set i { b with bytes := b.bytes ++ List.replicate n 0 } })) := by
  unfold MemoryResource.allocate
  split
  · exact Or.inl ⟨_, _, rfl⟩
  · split
    · exact Or.inl ⟨_, _, rfl⟩
    · rename_i i hcur
      split
      · exact Or.inl ⟨_, _, rfl⟩
      · rename_i b hb
        split
        · exact Or.inr ⟨i, b, hb, rfl⟩
        · exact Or.inl ⟨_, _, rfl⟩

/-- The two shapes of the arena after `store`: a new block that holds exactly the data, or
the data appended to the bytes of an existing block. -/
theorem store_cases (pool : MemoryResource) (data : List Nat) :
    (∃ cap cur, (pool.store data).1 = ⟨pool.blocks.length, 0, data.length⟩
      ∧ (pool.store data).2
          = { pool with blocks := pool.blocks ++ [⟨cap, data⟩], current := cur })
    ∨ (∃ i b, pool.blocks[i]? = some b
      ∧ (pool.store data).1 = ⟨i, b.bytes.length, data.length⟩
      ∧ (pool.store data).2
          = { pool with blocks := pool.blocks.set i ⟨b.capacity, b.bytes ++ data⟩ }) := by
  unfold MemoryResource.store
  rcases allocate_cases pool data.length with ⟨cap, mk, h⟩ | ⟨i, b, hb, h⟩
  · rw [h]
    refine Or.inl ⟨cap, if mk then some pool.blocks.length else pool.current, rfl, ?_⟩
    simp [MemoryResource.openBlock, MemoryResource.write, overwrite_zero_full]
  · rw [h]
    refine Or.inr ⟨i, b, hb, rfl, ?_⟩
    have hi : i < pool.blocks.length := by
      rcases List.getElem?_eq_some_iff.mp hb with ⟨h, _⟩
      exact h
    have := overwrite_tail b.bytes (List.replicate data.length 0) data (by simp)
    simp [MemoryResource.write, List.getElem?_set, hi, this]

theorem store_read (pool : MemoryResource) (data : List Nat) :
    (pool.store data).2.read (pool.store data).1 = some data := by
  rcases store_cases pool data with ⟨cap, cur, h1, h2⟩ | ⟨i, b, hb, h1, h2⟩
  · rw [h1, h2]
    simp [MemoryResource.read]
    have := readRaw_tail [] data
    simpa using this
  · rw [h1, h2]
    have hi : i < pool.blocks.length := by
      rcases List.getElem?_eq_some_iff.mp hb with ⟨h, _⟩
      exact h
    simp [MemoryResource.read, List.getElem?_set, hi]
    exact readRaw_tail b.bytes data

theorem store_frame (pool : MemoryResource) (data : List Nat) (r : ByteRange) (x : List Nat)
    (h : pool.read r = some x) : (pool.store data).2.read r = some x := by
  unfold MemoryResource.read at h
  cases hb : pool.blocks[r.block]? with
  | none => simp [hb] at h
  | some blk =>
    simp only [hb] at h
    have hr : r.block < pool.blocks.length := by
      rcases List.getElem?_eq_some_iff.mp hb with ⟨h, _⟩
      exact h
    rcases store_cases pool data with ⟨cap, cur, _, h2⟩ | ⟨i, b, hib, _, h2⟩
    · rw [h2]
      simp only [MemoryResource.read]
      rw [List.getElem?_append_left hr, hb]
      exact h
    · rw [h2]
      simp only [MemoryResource.read]
      by_cases hi : i = r.block
      · subst hi
        rw [hb] at hib
        have := Option.some.inj hib
        subst this
        simp [List.getElem?_set, hr]
        exact readRaw_append_left _ _ _ _ _ h
      · rw [List.getElem?_set_ne hi, hb]
        exact h

/-! ## Entity codecs -/

theorem getNum_putNum (pool : MemoryResource) (bo : ByteOrder) (width : Nat) (signed : Bool)
    (v : Int)
    (h : FieldValue.conforms pool (.num width signed) (.num v) = true) :
    getNum bo width signed (putNum bo width v) = v := by
  have hM : (0 : Int) < 256 ^ width := by positivity
  have hcast : ((256 ^ width : Nat) : Int) = (256 : Int) ^ width := by push_cast; rfl
  have hu : getUInt bo (putNum bo width v) = (v % 256 ^ width).toNat := by
    unfold putNum
    rw [getUInt_putUInt]
    apply Nat.mod_eq_of_lt
    have h1 := Int.emod_nonneg v (ne_of_gt hM)
    have h2 := Int.emod_lt_of_pos v hM
    zify
    rw [Int.toNat_of_nonneg h1]
    exact h2
  have hnn := Int.emod_nonneg v (ne_of_gt hM)
  unfold getNum
  rw [hu]
  cases signed with
  | false =>
    simp only [FieldValue.conforms, decide_eq_true_eq] at h
    simp only [Bool.false_and, Bool.false_eq_true, if_false]
    rw [Int.toNat_of_nonneg hnn]
    exact Int.emod_eq_of_lt h.1 h.2
  | true =>
    simp only [FieldValue.conforms, decide_eq_true_eq] at h
    simp only [Bool.true_and, decide_eq_true_eq]
    by_cases hv : 0 ≤ v
    · have e : v % 256 ^ width = v := Int.emod_eq_of_lt hv (by omega)
      rw [e]
      have : ¬ (256 ^ width ≤ 2 * v.toNat) := by
        zify
        rw [Int.toNat_of_nonneg hv]
        omega
      rw [if_neg this, Int.toNat_of_nonneg hv]
    · have e : v % 256 ^ width = v + 256 ^ width := by
        rw [← Int.add_emod_self]
        exact Int.emod_eq_of_lt (by omega) (by omega)
      rw [e]
      have hnn2 : 0 ≤ v + 256 ^ width := by omega
      have : 256 ^ width ≤ 2 * (v + 256 ^ width).toNat := by
        zify
        rw [Int.toNat_of_nonneg hnn2]
        omega
      rw [if_pos this, Int.toNat_of_nonneg hnn2]
      omega

theorem putNum_length (bo : ByteOrder) (width : Nat) (v : Int) :
    (putNum bo width v).length = width := by
  simp [putNum, putUInt_length]

/-- Reading back one written field: the reader consumes exactly the written bytes, the value
read has the contents of the value written, and every range of the arena it started from
still reads the same. -/
theorem readField_writeField (bo : ByteOrder) (pool : MemoryResource) (t : FieldType)
    (v : FieldValue) (b : List Nat) (hw : writeField bo pool t v = some b)
    (hc : v.conforms pool t = true) (pre post : List Nat) (pool0 : MemoryResource) :
    ∃ v1 pool1, readField bo (pre ++ b ++ post) pre.length pool0 t
        = some (v1, pre.length + b.length, pool1)
      ∧ v1.resolve pool1 = v.resolve pool
      ∧ (v.resolve pool).isSome = true
      ∧ ∀ r x, pool0.read r = some x → pool1.read r = some x := by
  cases t with
  | num width signed =>
    cases v with
    | view r => simp [writeField] at hw
    | num n =>
      simp only [writeField, Option.some.injEq] at hw
      subst hw
      refine ⟨.num n, pool0, ?_, rfl, rfl, fun _ _ h => h⟩
      have hr := readRaw_append pre (putNum bo width n) post
      rw [putNum_length] at hr
      simp only [readField, hr, putNum_length]
      rw [getNum_putNum pool bo width signed n hc]
  | bytes =>
    cases v with
    | num n => simp [writeField] at hw
    | view r =>
      simp only [writeField] at hw
      simp only [FieldValue.conforms] at hc
      cases hd : pool.read r with
      | none => simp [hd] at hw
      | some data =>
        simp only [hd, Option.some.injEq] at hw
        simp only [hd, decide_eq_true_eq] at hc
        subst hw
        have hr1 : readRaw (pre ++ (putUInt bo 4 data.length ++ data) ++ post) pre.length 4
            = some (putUInt bo 4 data.length) := by
          have := readRaw_append pre (putUInt bo 4 data.length) (data ++ post)
          rw [putUInt_length] at this
          simpa using this
        have hlen : getUInt bo (putUInt bo 4 data.length) = data.length := by
          rw [getUInt_putUInt, pow_256_4]
          exact Nat.mod_eq_of_lt hc
        have hr2 : readRaw (pre ++ (putUInt bo 4 data.length ++ data) ++ post) (pre.length + 4)
            data.length = some data := by
          have := readRaw_append (pre ++ putUInt bo 4 data.length) data post
          simp only [List.length_append, putUInt_length] at this
          simpa using this
        refine ⟨.view (pool0.store data).1, (pool0.store data).2, ?_, ?_, ?_, ?_⟩
        · simp only [readField, hr1, hlen, hr2, List.length_append, putUInt_length]
          simp [Nat.add_assoc]
        · simp [FieldValue.resolve, store_read, hd]
        · simp [FieldValue.resolve, hd]
        · intro r x h
          exact store_frame pool0 data r x h

theorem resolve_frame (pool0 pool1 : MemoryResource)
    (hf : ∀ r x, pool0.read r = some x → pool1.read r = some x) (v : FieldValue)
    (hs : (v.resolve pool0).isSome = true) : v.resolve pool1 = v.resolve pool0 := by
  cases v with
  | num n => rfl
  | view r =>
    simp only [FieldValue.resolve] at hs ⊢
    cases hd : pool0.read r with
    | none => simp [hd] at hs
    | some data => rw [hf r data hd]

/-- Reading back the written fields of a record. -/
theorem readFields_writeFields (bo : ByteOrder) (pool : MemoryResource) (ts : List FieldType) :
    ∀ (r : Record) (b : List Nat), writeFields bo pool ts r = some b →
      recordConforms pool ts r = true →
      ∀ (pre post : List Nat) (pool0 : MemoryResource),
        ∃ r1 pool1, readFields bo (pre ++ b ++ post) ts pre.length pool0
            = some (r1, pre.length + b.length, pool1)
          ∧ resolveRecord pool1 r1 = resolveRecord pool r
          ∧ (resolveRecord pool r).isSome = true
          ∧ ∀ rg x, pool0.read rg = some x → pool1.read rg = some x := by
  induction ts with
  | nil =>
    intro r b hw hc pre post pool0
    cases r with
    | nil =>
      simp only [writeFields, Option.some.injEq] at hw
      subst hw
      exact ⟨[], pool0, by simp [readFields], rfl, rfl, fun _ _ h => h⟩
    | cons v vs => simp [writeFields] at hw
  | cons t ts ih =>
    intro r b hw hc pre post pool0
    cases r with
    | nil => simp [writeFields] at hw
    | cons v vs =>
      simp only [writeFields] at hw
      simp only [recordConforms, Bool.and_eq_true] at hc
      cases hb1 : writeField bo pool t v with
      | none => simp [hb1] at hw
      | some b1 =>
        cases hb2 : writeFields bo pool ts vs with
        | none => simp [hb1, hb2] at hw
        | some b2 =>
          simp only [hb1, hb2, Option.some.injEq] at hw
          subst hw
          obtain ⟨v1, p1, hrd1, hres1, hsome1, hfr1⟩ :=
            readField_writeField bo pool t v b1 hb1 hc.1 pre (b2 ++ post) pool0
          obtain ⟨r2, p2, hrd2, hres2, hsome2, hfr2⟩ :=
            ih vs b2 hb2 hc.2 (pre ++ b1) post p1
          have hdev : pre ++ (b1 ++ b2) ++ post = pre ++ b1 ++ (b2 ++ post) := by simp
          have hdev2 : pre ++ (b1 ++ b2) ++ post = pre ++ b1 ++ b2 ++ post := by simp
          refine ⟨v1 :: r2, p2, ?_, ?_, ?_, fun rg x h => hfr2 rg x (hfr1 rg x h)⟩
          · simp only [readFields]
            rw [hdev, hrd1]
            simp only
            rw [← hdev, hdev2]
            have e : pre.length + b1.length = (pre ++ b1).length := by simp
            rw [e, hrd2]
            simp [Nat.add_assoc]
          · have hv1 : v1.resolve p2 = v.resolve pool := by
              rw [resolve_frame p1 p2 hfr2 v1 (by rw [hres1]; exact hsome1), hres1]
            simp only [resolveRecord, hv1, hres2]
          · simp only [resolveRecord]
            cases hx : v.resolve pool with
            | none => simp [hx] at hsome1
            | some c =>
              cases hy : resolveRecord pool vs with
              | none => simp [hy] at hsome2
              | some cs => rfl

theorem writeField_some (bo : ByteOrder) (pool : MemoryResource) (t : FieldType) (v : FieldValue)
    (hc : v.conforms pool t = true) : ∃ b, writeField bo pool t v = some b := by
  cases t with
  | num width signed =>
    cases v with
    | num n => exact ⟨_, rfl⟩
    | view r => cases signed <;> simp [FieldValue.conforms] at hc
  | bytes =>
    cases v with
    | num n => simp [FieldValue.conforms] at hc
    | view r =>
      simp only [FieldValue.conforms] at hc
      cases hd : pool.read r with
      | none => simp [hd] at hc
      | some data => exact ⟨putUInt bo 4 data.length ++ data, by simp [writeField, hd]⟩

theorem writeFields_some (bo : ByteOrder) (pool : MemoryResource) (ts : List FieldType) :
    ∀ (r : Record), recordConforms pool ts r = true → ∃ b, writeFields bo pool ts r = some b := by
  induction ts with
  | nil =>
    intro r hc
    cases r with
    | nil => exact ⟨[], rfl⟩
    | cons v vs => simp [recordConforms] at hc
  | cons t ts ih =>
    intro r hc
    cases r with
    | nil => simp [recordConforms] at hc
    | cons v vs =>
      simp only [recordConforms, Bool.and_eq_true] at hc
      obtain ⟨b1, h1⟩ := writeField_some bo pool t v hc.1
      obtain ⟨b2, h2⟩ := ih vs hc.2
      exact ⟨b1 ++ b2, by simp [writeFields, h1, h2]⟩

/-- C1: for every entity kind and every record of that kind, reading back with the kind's
`read…FromDatabase` function the bytes produced by the kind's `write…ToDatabase` function at
`Version::Latest` consumes exactly those bytes and yields a record with the same contents
(numbers equal, strings and arrays equal byte for byte once the views are followed into the
arena). -/
theorem entity_codec_round_trip (fmt : Format) (kind : EntityKind) (bo : ByteOrder)
    (pool : MemoryResource) (r : Record) (pool0 : MemoryResource)
    (hr : recordConforms pool (fmt.fields kind) r = true) :
    ∃ bytes r1 pool1,
      writeToDatabase fmt kind pool r bo Database.Version.Latest = some bytes
      ∧ readFromDatabase fmt kind bo bytes 0 pool0 = some (r1, bytes.length, pool1)
      ∧ resolveRecord pool1 r1 = resolveRecord pool r
      ∧ (resolveRecord pool r).isSome = true := by
  obtain ⟨b, hb⟩ := writeFields_some bo pool (fmt.fields kind) r hr
  obtain ⟨r1, pool1, h1, h2, h3, _⟩ :=
    readFields_writeFields bo pool (fmt.fields kind) r b hb hr [] [] pool0
  refine ⟨b, r1, pool1, hb, ?_, h2, h3⟩
  simpa [readFromDatabase] using h1

/-- Witness of C1 on the color record 11 "Red" -3. -/
theorem entity_codec_round_trip_witness :
    recordConforms sampleArena (sampleFormat.fields .Color) sampleColor = true
    ∧ writeToDatabase sampleFormat .Color sampleArena sampleColor .LittleEndian
        Database.Version.Latest = some [11, 0, 0, 0, 3, 0, 0, 0, 82, 101, 100, 253, 255]
    ∧ ∃ bytes r1 pool1,
        writeToDatabase sampleFormat .Color sampleArena sampleColor .LittleEndian
          Database.Version.Latest = some bytes
        ∧ readFromDatabase sampleFormat .Color .LittleEndian bytes 0 (MemoryResource.empty 64)
          = some (r1, bytes.length, pool1)
        ∧ resolveRecord pool1 r1 = resolveRecord sampleArena sampleColor
        ∧ (resolveRecord sampleArena sampleColor).isSome = true :=
  ⟨by decide, by decide,
    entity_codec_round_trip sampleFormat .Color .LittleEndian sampleArena sampleColor
      (MemoryResource.empty 64) (by decide)⟩

/-! ## The catalog store -/

/-- One round of skipping an unknown chunk: a chunk that opens is jumped over and closed, and
the reader is then at the end of the chunk's declared region, inside the chunk it started
in. -/
theorem skip_round (cr cr1 : ChunkReader) (h : cr.startChunk = (true, cr1)) :
    ∃ hdr, readRaw cr.m_file cr.pos 16 = some hdr
      ∧ cr.pos + 16 + getUInt cr.bo (hdr.drop 8) ≤ cr.enclosingEnd
      ∧ cr1 = { cr with
          pos := cr.pos + 16
          m_chunks := ⟨getUInt cr.bo (hdr.take 4), getUInt cr.bo ((hdr.drop 4).take 4),
            cr.pos + 16, getUInt cr.bo (hdr.drop 8)⟩ :: cr.m_chunks }
      ∧ cr1.skipChunk = (true, { cr1 with pos := cr.pos + 16 + getUInt cr.bo (hdr.drop 8) })
      ∧ ({ cr1 with pos := cr.pos + 16 + getUInt cr.bo (hdr.drop 8) } : ChunkReader).endChunk
          = (true, { cr with pos := cr.pos + 16 + getUInt cr.bo (hdr.drop 8) }) := by
  obtain ⟨hdr, h1, h2, h3⟩ := startChunk_ok cr (by rw [h])
  rw [h] at h3
  have h4 : cr1 = { cr with
      pos := cr.pos + 16
      m_chunks := ⟨getUInt cr.bo (hdr.take 4), getUInt cr.bo ((hdr.drop 4).take 4),
        cr.pos + 16, getUInt cr.bo (hdr.drop 8)⟩ :: cr.m_chunks } := by
    injection h3
  refine ⟨hdr, h1, h2, h4, ?_, ?_⟩
  · rw [h4]; rfl
  · rw [h4]; rfl

/-- At the end of the enclosing chunk there is nothing to skip. -/
theorem skipUnknownChunks_at_end (fuel : Nat) (cr : ChunkReader)
    (h : ¬ cr.pos < cr.enclosingEnd) : skipUnknownChunks fuel cr = .ok cr := by
  cases fuel <;> simp [skipUnknownChunks, h]

/-- One round of `skipUnknownChunks` on a chunk that opens. -/
theorem skipUnknownChunks_succ (fuel : Nat) (cr cr1 : ChunkReader) (hdr : List Nat)
    (hlt : cr.pos < cr.enclosingEnd) (h : cr.startChunk = (true, cr1))
    (hr : readRaw cr.m_file cr.pos 16 = some hdr) :
    skipUnknownChunks (fuel + 1) cr
      = skipUnknownChunks fuel { cr with pos := cr.pos + 16 + getUInt cr.bo (hdr.drop 8) } := by
  obtain ⟨hdr1, h1, _, _, h4, h5⟩ := skip_round cr cr1 h
  rw [hr] at h1
  injection h1 with h1
  subst h1
  rw [skipUnknownChunks, if_pos hlt, h]
  simp only [h4, h5]

/-- A `fuel` of the number of bytes that remain in the enclosing chunk is never used up: more
fuel gives the same result. -/
theorem skipUnknownChunks_fuel :
    ∀ (fuel : Nat) (cr : ChunkReader), cr.enclosingEnd - cr.pos ≤ fuel →
      skipUnknownChunks (fuel + 1) cr = skipUnknownChunks fuel cr := by
  intro fuel
  induction fuel with
  | zero =>
    intro cr h
    have hlt : ¬ cr.pos < cr.enclosingEnd := by omega
    rw [skipUnknownChunks_at_end _ _ hlt, skipUnknownChunks_at_end _ _ hlt]
  | succ fuel ih =>
    intro cr h
    by_cases hlt : cr.pos < cr.enclosingEnd
    · cases hs : cr.startChunk with
      | mk ok cr1 =>
        cases ok with
        | false =>
          rw [skipUnknownChunks, if_pos hlt, hs]
          rw [skipUnknownChunks, if_pos hlt, hs]
        | true =>
          obtain ⟨hdr, hr, hfit, _⟩ := skip_round cr cr1 hs
          rw [skipUnknownChunks_succ (fuel + 1) cr cr1 hdr hlt hs hr,
            skipUnknownChunks_succ fuel cr cr1 hdr hlt hs hr]
          apply ih
          show cr.enclosingEnd - (cr.pos + 16 + getUInt cr.bo (hdr.drop 8)) ≤ fuel
          omega
    · rw [skipUnknownChunks_at_end _ _ hlt, skipUnknownChunks_at_end _ _ hlt]

/-- For a reader whose enclosing chunk lies inside the file, a `fuel` of the length of the file
is enough: more fuel gives the same result. -/
theorem skipUnknownChunks_fuel_enough (cr : ChunkReader)
    (h : cr.enclosingEnd ≤ cr.m_file.length) :
    ∀ n : Nat, skipUnknownChunks (cr.m_file.length + n) cr
      = skipUnknownChunks cr.m_file.length cr := by
  intro n
  induction n with
  | zero => rfl
  | succ n ih =>
    rw [← ih]
    exact skipUnknownChunks_fuel (cr.m_file.length + n) cr (by omega)

theorem read_of_load_error (fmt : Format) (db : Database) (content : List Nat) (e : FormatError)
    (h : load fmt content = .error e) : db.read fmt content = (.error e, db) := by
  unfold Database.read
  rw [h]

/-- C9: while the update status is `Updating`, `startUpdate` (with or without force) is a
no-op: it returns false and leaves the whole database state as it is, so no second transfer
job is started and update status, current job, etag, lastUpdated, validity and all record
tables are unchanged. -/
theorem startUpdate_while_updating (db : Database) (force : Bool)
    (h : db.m_updateStatus = .Updating) :
    db.startUpdate force = (false, db)
    ∧ (db.startUpdate force).2.m_transfer.jobs = db.m_transfer.jobs
    ∧ (db.startUpdate force).2.m_updateStatus = .Updating
    ∧ (db.startUpdate force).2.m_job = db.m_job
    ∧ (db.startUpdate force).2.m_etag = db.m_etag
    ∧ (db.startUpdate force).2.m_lastUpdated = db.m_lastUpdated
    ∧ (db.startUpdate force).2.m_valid = db.m_valid
    ∧ ∀ kind, (db.startUpdate force).2.table kind = db.table kind := by
  have : db.startUpdate force = (false, db) := by
    unfold Database.startUpdate
    rw [if_pos h]
  rw [this]
  exact ⟨rfl, rfl, h, rfl, rfl, rfl, rfl, fun _ => rfl⟩

/-- C10: when the bytes downloaded by an update fail to decode, then after the update has
finished every record table, the memory pool, validity and lastUpdated are what they were
before `startUpdate`, and the update status is `UpdateFailed`. -/
theorem failed_decode_is_atomic (fmt : Format) (db : Database) (force : Bool) (job : TransferJob)
    (body : List Nat) (tag : String) (now : Nat) (e : FormatError)
    (hjob : (db.startUpdate force).2.m_job = some job)
    (hfail : load fmt body = .error e) :
    (∀ kind, (Database.onTransferFinished fmt (db.startUpdate force).2 job (.ok body tag) now).table kind
        = db.table kind)
    ∧ (Database.onTransferFinished fmt (db.startUpdate force).2 job (.ok body tag) now).m_ldrawExtraColors
        = db.m_ldrawExtraColors
    ∧ (Database.onTransferFinished fmt (db.startUpdate force).2 job (.ok body tag) now).m_pool = db.m_pool
    ∧ (Database.onTransferFinished fmt (db.startUpdate force).2 job (.ok body tag) now).m_valid = db.m_valid
    ∧ (Database.onTransferFinished fmt (db.startUpdate force).2 job (.ok body tag) now).m_lastUpdated
        = db.m_lastUpdated
    ∧ (Database.onTransferFinished fmt (db.startUpdate force).2 job (.ok body tag) now).m_updateStatus
        = .UpdateFailed := by
  have hstat : (db.startUpdate force).2.m_updateStatus = .Updating := by
    unfold Database.startUpdate
    split
    · assumption
    · rfl
  have hframe : (∀ kind, (db.startUpdate force).2.table kind = db.table kind)
      ∧ (db.startUpdate force).2.m_ldrawExtraColors = db.m_ldrawExtraColors
      ∧ (db.startUpdate force).2.m_pool = db.m_pool
      ∧ (db.startUpdate force).2.m_valid = db.m_valid
      ∧ (db.startUpdate force).2.m_lastUpdated = db.m_lastUpdated := by
    unfold Database.startUpdate
    split
    · exact ⟨fun _ => rfl, rfl, rfl, rfl, rfl⟩
    · exact ⟨fun kind => by cases kind <;> rfl, rfl, rfl, rfl, rfl⟩
  generalize db.startUpdate force = s at hjob hstat hframe
  obtain ⟨h1, h2, h3, h4, h5⟩ := hframe
  have hfin : Database.onTransferFinished fmt s.2 job (.ok body tag) now
      = { s.2 with m_job := none, m_updateStatus := .UpdateFailed } := by
    unfold Database.onTransferFinished
    rw [if_neg (by simp [hstat, hjob])]
    simp only [read_of_load_error fmt s.2 body e hfail]
  rw [hfin]
  refine ⟨fun kind => ?_, h2, h3, h4, h5, rfl⟩
  rw [← h1 kind]
  cases kind <;> rfl

/-! ## Writing a database and reading it back -/

set_option maxRecDepth 20000 in
/-- A complete unknown chunk behind the ninth table is skipped: `trailingChunkFile` loads, and
the catalog read has nine empty tables. -/
theorem unknown_trailing_chunk_skipped :
    ((Database.new "").read sampleFormat trailingChunkFile).1 = .ok ()
    ∧ ∀ kind, ((Database.new "").read sampleFormat trailingChunkFile).2.table kind = [] := by
  refine ⟨by rfl, fun kind => ?_⟩
  cases kind <;> rfl

/-- Witness of C9: `sampleDatabase` after `startUpdate()` is `Updating`, and a forced
`startUpdate` on it changes nothing. -/
theorem startUpdate_while_updating_witness :
    (sampleDatabase.startUpdate false).2.m_updateStatus = .Updating
    ∧ (sampleDatabase.startUpdate false).2.startUpdate true
        = (false, (sampleDatabase.startUpdate false).2)
    ∧ ((sampleDatabase.startUpdate false).2.startUpdate true).2.m_transfer.jobs.length = 1 :=
  ⟨by decide,
    (startUpdate_while_updating (sampleDatabase.startUpdate false).2 true (by decide)).1,
    by decide⟩

set_option maxRecDepth 20000 in
/-- Witness of C10: `sampleDatabase` starts an update and receives the three bytes 1, 2, 3,
which do not decode; its colors, pool, validity and lastUpdated are as before and the status
is `UpdateFailed`. -/
theorem failed_decode_is_atomic_witness :
    sampleDatabase.m_valid = true
    ∧ load sampleFormat [1, 2, 3] = .error .malformedChunk
    ∧ (Database.onTransferFinished sampleFormat (sampleDatabase.startUpdate false).2
        ⟨0, "https://example.org/database-v12", none⟩ (.ok [1, 2, 3] "tag") 1700000500).m_colors
        = [sampleColor]
    ∧ (Database.onTransferFinished sampleFormat (sampleDatabase.startUpdate false).2
        ⟨0, "https://example.org/database-v12", none⟩ (.ok [1, 2, 3] "tag") 1700000500).m_updateStatus
        = .UpdateFailed :=
  ⟨by decide, by rfl,
    (failed_decode_is_atomic sampleFormat sampleDatabase false
      ⟨0, "https://example.org/database-v12", none⟩ [1, 2, 3] "tag" 1700000500 .malformedChunk
      (by decide) (by rfl)).1 .Color,
    (failed_decode_is_atomic sampleFormat sampleDatabase false
      ⟨0, "https://example.org/database-v12", none⟩ [1, 2, 3] "tag" 1700000500 .malformedChunk
      (by decide) (by rfl)).2.2.2.2.2⟩

/-! ## The update life cycle: cancelling, refresh interval, construction -/

/-- C11: when `startUpdate` has started an update and `cancelUpdate()` is called before the
transfer completes, every record table is what it was before (so the number of records in
every table is unchanged), no update is in flight (no job, status not `Updating`), and a
result that arrives later for the aborted job is not published. -/
theorem cancel_leaves_catalog (db : Database) (force : Bool)
    (hidle : db.m_updateStatus ≠ .Updating) :
    (∀ kind, ((db.startUpdate force).2.cancelUpdate.table kind).length = (db.table kind).length)
    ∧ (∀ kind, (db.startUpdate force).2.cancelUpdate.table kind = db.table kind)
    ∧ (db.startUpdate force).2.cancelUpdate.m_pool = db.m_pool
    ∧ (db.startUpdate force).2.cancelUpdate.m_valid = db.m_valid
    ∧ (db.startUpdate force).2.cancelUpdate.m_updateStatus ≠ .Updating
    ∧ (db.startUpdate force).2.cancelUpdate.m_job = none
    ∧ ∀ (fmt : Format) (job : TransferJob) (res : TransferResult) (now : Nat),
        Database.onTransferFinished fmt (db.startUpdate force).2.cancelUpdate job res now
          = (db.startUpdate force).2.cancelUpdate := by
  have hs : (db.startUpdate force).2.cancelUpdate
      = { db with
          m_updateStatus := .UpdateFailed
          m_job := none
          m_transfer := (db.startUpdate force).2.m_transfer } := by
    simp [Database.startUpdate, hidle, Database.cancelUpdate]
  rw [hs]
  refine ⟨fun kind => by cases kind <;> rfl, fun kind => by cases kind <;> rfl, rfl, rfl,
    by simp, rfl, ?_⟩
  intro fmt job res now
  simp [Database.onTransferFinished]

/-- Witness of C11 on `sampleDatabase`, which holds a loaded catalog and is not updating. -/
theorem cancel_leaves_catalog_witness :
    sampleDatabase.m_updateStatus ≠ .Updating
    ∧ (sampleDatabase.startUpdate false).2.m_updateStatus = .Updating
    ∧ (∀ kind, ((sampleDatabase.startUpdate false).2.cancelUpdate.table kind).length
        = (sampleDatabase.table kind).length)
    ∧ (sampleDatabase.startUpdate false).2.cancelUpdate.m_updateStatus ≠ .Updating :=
  ⟨by decide, by decide, (cancel_leaves_catalog sampleDatabase false (by decide)).1,
    (cancel_leaves_catalog sampleDatabase false (by decide)).2.2.2.2.1⟩

/-- C12: `isUpdateNeeded()` returns true exactly when `isValid()` is false or the wall-clock
time elapsed since `lastUpdated()` exceeds the interval configured with `setUpdateInterval`:
for a database last updated at second `t`, asked at second `now`, exactly when it is not
valid or `interval < now - t`.  For a null `lastUpdated()` no time has elapsed (`secsTo` is 0),
so it returns true exactly when the database is not valid or the interval is negative.
`setUpdateInterval` changes nothing but the interval.  In particular `isUpdateNeeded()`
returns true for a freshly constructed `Database`, whatever the time and the interval. -/
theorem isUpdateNeeded_iff (db : Database) (interval : Int) (now : Nat) :
    (∀ t : Nat, db.lastUpdated = some t →
      ((db.setUpdateInterval interval).isUpdateNeeded now = true
        ↔ (db.isValid = false ∨ interval < (now : Int) - (t : Int))))
    ∧ (db.lastUpdated = none →
      ((db.setUpdateInterval interval).isUpdateNeeded now = true
        ↔ (db.isValid = false ∨ interval < 0)))
    ∧ ((db.setUpdateInterval interval).isValid = db.isValid
      ∧ (db.setUpdateInterval interval).lastUpdated = db.lastUpdated
      ∧ (db.setUpdateInterval interval).m_updateInterval = interval)
    ∧ (∀ t : Nat, db.lastUpdated = some t →
      (db.isUpdateNeeded now = true
        ↔ (db.isValid = false ∨ db.m_updateInterval < (now : Int) - (t : Int))))
    ∧ (∀ url : String, (Database.new url).isUpdateNeeded now = true)
    ∧ (∀ url : String, ((Database.new url).setUpdateInterval interval).isUpdateNeeded now = true) := by
  refine ⟨?_, ?_, ⟨rfl, rfl, rfl⟩, ?_, fun _ => rfl, fun _ => rfl⟩
  · intro t ht
    simp only [Database.lastUpdated] at ht
    simp [Database.isUpdateNeeded, Database.setUpdateInterval, Database.isValid, ht,
      Database.secsTo]
  · intro ht
    simp only [Database.lastUpdated] at ht
    simp [Database.isUpdateNeeded, Database.setUpdateInterval, Database.isValid, ht,
      Database.secsTo]
  · intro t ht
    simp only [Database.lastUpdated] at ht
    simp [Database.isUpdateNeeded, Database.isValid, ht, Database.secsTo]

/-- Witness of C12: `sampleDatabase`, valid and last updated at second 1000, with an interval
of 600 seconds, needs no update at second 1600 and needs one at second 1601; with a null
`lastUpdated()` it needs none at either time. -/
theorem isUpdateNeeded_iff_witness :
    ({ sampleDatabase with m_lastUpdated := some 1000 } : Database).lastUpdated = some 1000
    ∧ sampleDatabase.isValid = true
    ∧ (({ sampleDatabase with m_lastUpdated := some 1000 } : Database).setUpdateInterval
        600).isUpdateNeeded 1600 = false
    ∧ (({ sampleDatabase with m_lastUpdated := some 1000 } : Database).setUpdateInterval
        600).isUpdateNeeded 1601 = true
    ∧ (({ sampleDatabase with m_lastUpdated := none } : Database).setUpdateInterval
        600).isUpdateNeeded 1601 = false
    ∧ ((({ sampleDatabase with m_lastUpdated := some 1000 } : Database).setUpdateInterval
        600).isUpdateNeeded 1601 = true
      ↔ (({ sampleDatabase with m_lastUpdated := some 1000 } : Database).isValid = false
        ∨ (600 : Int) < ((1601 : Nat) : Int) - ((1000 : Nat) : Int))) :=
  ⟨rfl, by decide, by decide, by decide, by decide,
    (isUpdateNeeded_iff ({ sampleDatabase with m_lastUpdated := some 1000 } : Database) 600
      1601).1 1000 rfl⟩

/-- C13: a newly constructed `Database` is empty and idle: `isValid()` is false, every
record table is empty, the latest changelog id is 0, no transfer job is attached and the
update status is not `Updating`. -/
theorem new_database_empty (url : String) :
    (Database.new url).isValid = false
    ∧ (∀ kind, (Database.new url).table kind = [])
    ∧ (Database.new url).m_ldrawExtraColors = []
    ∧ (Database.new url).m_apiQuirks = []
    ∧ (Database.new url).m_latestChangelogId = 0
    ∧ (Database.new url).m_job = none
    ∧ (Database.new url).updateStatus ≠ .Updating
    ∧ (Database.new url).updateStatus = .UpdateFailed := by
  refine ⟨rfl, fun kind => by cases kind <;> rfl, rfl, rfl, rfl, rfl, ?_, rfl⟩
  simp [Database.new, Database.updateStatus]

/-! ## Arena stability -/

/-- One `allocate` call: the range has the requested length and lies in the arena; every
block there was is still at its index with its capacity and its bytes, possibly followed by
more; and the range overlaps no range that lay in the arena before. -/
theorem allocate_spec (pool : MemoryResource) (n : Nat) :
    (pool.allocate n).1.length = n
    ∧ ((pool.allocate n).2.read (pool.allocate n).1).isSome = true
    ∧ (∀ (i : Nat) (b : Block), pool.blocks[i]? = some b →
        ∃ extra, (pool.allocate n).2.blocks[i]? = some (Block.mk b.capacity (b.bytes ++ extra)))
    ∧ (∀ r, (pool.read r).isSome = true → r.disjoint (pool.allocate n).1) := by
  rcases allocate_cases pool n with ⟨cap, mk, h⟩ | ⟨i, b, hb, h⟩
  · rw [h]
    refine ⟨rfl, ?_, ?_, ?_⟩
    · simp only [MemoryResource.openBlock, MemoryResource.read, List.getElem?_concat_length]
      have := readRaw_tail [] (List.replicate n 0)
      simp only [List.nil_append, List.length_nil, List.length_replicate] at this
      rw [this]; rfl
    · intro j bj hj
      have hlt : j < pool.blocks.length := (List.getElem?_eq_some_iff.mp hj).1
      refine ⟨[], ?_⟩
      simp only [MemoryResource.openBlock, List.append_nil]
      rw [List.getElem?_append_left hlt, hj]
    · intro r hr
      left
      simp only [MemoryResource.openBlock]
      unfold MemoryResource.read at hr
      cases hbr : pool.blocks[r.block]? with
      | none => simp [hbr] at hr
      | some blk =>
        have hlt : r.block < pool.blocks.length := (List.getElem?_eq_some_iff.mp hbr).1
        omega
  · rw [h]
    have hi : i < pool.blocks.length := (List.getElem?_eq_some_iff.mp hb).1
    refine ⟨rfl, ?_, ?_, ?_⟩
    · simp only [MemoryResource.read, List.getElem?_set, hi, if_true]
      have := readRaw_tail b.bytes (List.replicate n 0)
      simp only [List.length_replicate] at this
      simp [this]
    · intro j bj hj
      by_cases hij : i = j
      · subst hij
        rw [hb] at hj
        have := Option.some.inj hj
        subst this
        exact ⟨List.replicate n 0, by simp [List.getElem?_set, hi]⟩
      · exact ⟨[], by simp only [List.append_nil]; rw [List.getElem?_set_ne hij, hj]⟩
    · intro r hr
      unfold MemoryResource.read at hr
      cases hbr : pool.blocks[r.block]? with
      | none => simp [hbr] at hr
      | some blk =>
        simp only [hbr] at hr
        by_cases hri : r.block = i
        · right; left
          rw [hri, hb] at hbr
          have := Option.some.inj hbr
          subst this
          unfold readRaw at hr
          split at hr
          · simpa using ‹r.offset + r.length ≤ b.bytes.length›
          · simp at hr
        · left; exact hri

/-- A range that reads some bytes keeps reading the same bytes when its block grows. -/
theorem read_of_blocks_grow (pool pool1 : MemoryResource)
    (hgrow : ∀ (i : Nat) (b : Block), pool.blocks[i]? = some b →
      ∃ extra, pool1.blocks[i]? = some (Block.mk b.capacity (b.bytes ++ extra)))
    (r : ByteRange) (hr : (pool.read r).isSome = true) : pool1.read r = pool.read r := by
  unfold MemoryResource.read at hr ⊢
  cases hb : pool.blocks[r.block]? with
  | none => simp [hb] at hr
  | some b =>
    simp only [hb] at hr ⊢
    obtain ⟨extra, he⟩ := hgrow r.block b hb
    rw [he]
    simp only
    cases hx : readRaw b.bytes r.offset r.length with
    | none => simp [hx] at hr
    | some x => exact readRaw_append_left _ _ _ _ _ hx

/-- A sequence of `allocate` calls: what holds after every one of them. -/
theorem allocateAll_spec (sizes : List Nat) :
    ∀ pool : MemoryResource,
      (pool.allocateAll sizes).1.map ByteRange.length = sizes
      ∧ (∀ (i : Nat) (b : Block), pool.blocks[i]? = some b →
          ∃ extra, (pool.allocateAll sizes).2.blocks[i]? = some (Block.mk b.capacity (b.bytes ++ extra)))
      ∧ (∀ r ∈ (pool.allocateAll sizes).1, ((pool.allocateAll sizes).2.read r).isSome = true)
      ∧ (∀ r0, (pool.read r0).isSome = true → ∀ r ∈ (pool.allocateAll sizes).1, r0.disjoint r)
      ∧ (pool.allocateAll sizes).1.Pairwise ByteRange.disjoint := by
  induction sizes with
  | nil =>
    intro pool
    refine ⟨rfl, fun i b h => ⟨[], by simpa [MemoryResource.allocateAll] using h⟩, ?_, ?_, ?_⟩
    · intro r hr; simp [MemoryResource.allocateAll] at hr
    · intro r0 _ r hr; simp [MemoryResource.allocateAll] at hr
    · simp [MemoryResource.allocateAll]
  | cons n ns ih =>
    intro pool
    obtain ⟨a1, a2, a3, a4⟩ := allocate_spec pool n
    obtain ⟨i1, i2, i3, i4, i5⟩ := ih (pool.allocate n).2
    have hgrow : ∀ (i : Nat) (b : Block), pool.blocks[i]? = some b →
        ∃ extra, (pool.allocateAll (n :: ns)).2.blocks[i]? = some (Block.mk b.capacity (b.bytes ++ extra)) := by
      intro i b hb
      obtain ⟨e1, h1⟩ := a3 i b hb
      obtain ⟨e2, h2⟩ := i2 i _ h1
      exact ⟨e1 ++ e2, by simpa [MemoryResource.allocateAll] using h2⟩
    refine ⟨?_, hgrow, ?_, ?_, ?_⟩
    · simp [MemoryResource.allocateAll, a1, i1]
    · intro r hr
      simp only [MemoryResource.allocateAll, List.mem_cons] at hr ⊢
      rcases hr with h | h
      · subst h
        rw [read_of_blocks_grow _ _ i2 _ a2]
        exact a2
      · exact i3 r h
    · intro r0 hr0 r hr
      simp only [MemoryResource.allocateAll, List.mem_cons] at hr
      rcases hr with h | h
      · subst h; exact a4 r0 hr0
      · refine i4 r0 ?_ r h
        rw [read_of_blocks_grow _ _ a3 _ hr0]
        exact hr0
    · simp only [MemoryResource.allocateAll, List.pairwise_cons]
      exact ⟨fun r hr => i4 _ a2 r hr, i5⟩

theorem allocateAll_append (earlier later : List Nat) :
    ∀ pool : MemoryResource,
      pool.allocateAll (earlier ++ later)
        = ((pool.allocateAll earlier).1 ++ ((pool.allocateAll earlier).2.allocateAll later).1,
           ((pool.allocateAll earlier).2.allocateAll later).2) := by
  induction earlier with
  | nil => intro pool; simp [MemoryResource.allocateAll]
  | cons n ns ih =>
    intro pool
    simp only [List.cons_append, MemoryResource.allocateAll]
    rw [show ns.append later = ns ++ later from rfl, ih]

/-- C14: for every sequence of `allocate` calls on one memory pool, a range returned by an
earlier call is the same range after every later call (same block, offset and length), it
still lies in the pool, in a block that kept its index, capacity and bytes, and reads the same
bytes; and the ranges returned by distinct calls do not overlap. -/
theorem arena_stability (pool : MemoryResource) (earlier later : List Nat) :
    (pool.allocateAll (earlier ++ later)).1
        = (pool.allocateAll earlier).1 ++ ((pool.allocateAll earlier).2.allocateAll later).1
    ∧ (pool.allocateAll (earlier ++ later)).1.map ByteRange.length = earlier ++ later
    ∧ (∀ r ∈ (pool.allocateAll earlier).1,
        ((pool.allocateAll earlier).2.read r).isSome = true
        ∧ (pool.allocateAll (earlier ++ later)).2.read r = (pool.allocateAll earlier).2.read r)
    ∧ (∀ (i : Nat) (b : Block), (pool.allocateAll earlier).2.blocks[i]? = some b →
        ∃ extra, (pool.allocateAll (earlier ++ later)).2.blocks[i]?
          = some (Block.mk b.capacity (b.bytes ++ extra)))
    ∧ (pool.allocateAll (earlier ++ later)).1.Pairwise ByteRange.disjoint := by
  obtain ⟨_, _, e3, _, _⟩ := allocateAll_spec earlier pool
  obtain ⟨_, l2, _, _, _⟩ := allocateAll_spec later (pool.allocateAll earlier).2
  obtain ⟨w1, _, _, _, w5⟩ := allocateAll_spec (earlier ++ later) pool
  refine ⟨by rw [allocateAll_append], w1, ?_, ?_, w5⟩
  · intro r hr
    refine ⟨e3 r hr, ?_⟩
    rw [allocateAll_append]
    exact read_of_blocks_grow _ _ l2 r (e3 r hr)
  · intro i b hb
    rw [allocateAll_append]
    exact l2 i b hb

/-! ## `HeaderView`: sort columns -/

theorem shift_not_without_shift (mods : Nat) (h : mods &&& ShiftModifier = 0) :
    mods ≠ ShiftModifier := by
  intro he
  rw [he] at h
  simp [ShiftModifier] at h

theorem toggleSection_none (s : Int) (l : List (Int × SortOrder)) :
    HeaderView.toggleSection s l = none ↔ s ∉ l.map Prod.fst := by
  induction l with
  | nil => simp [HeaderView.toggleSection]
  | cons a l ih =>
    obtain ⟨s0, o0⟩ := a
    simp only [HeaderView.toggleSection, List.map_cons, List.mem_cons, not_or]
    by_cases h : s0 = s
    · simp [h]
    · rw [if_neg h]
      cases ht : HeaderView.toggleSection s l with
      | none =>
        simp only [true_iff]
        exact ⟨fun e => h e.symm, ih.mp ht⟩
      | some l1 =>
        simp only [false_iff, not_and, not_not, reduceCtorEq]
        intro _
        by_contra hc
        have := ih.mpr hc
        rw [ht] at this
        exact Option.noConfusion this

theorem toggleSection_some (s : Int) (l l1 : List (Int × SortOrder))
    (h : HeaderView.toggleSection s l = some l1) : l1.map Prod.fst = l.map Prod.fst := by
  induction l generalizing l1 with
  | nil => simp [HeaderView.toggleSection] at h
  | cons a l ih =>
    obtain ⟨s0, o0⟩ := a
    simp only [HeaderView.toggleSection] at h
    by_cases hs : s0 = s
    · rw [if_pos hs] at h
      have := Option.some.inj h
      subst this
      rfl
    · rw [if_neg hs] at h
      cases ht : HeaderView.toggleSection s l with
      | none => simp [ht] at h
      | some l2 =>
        simp only [ht, Option.some.injEq] at h
        subst h
        simp [ih l2 ht]

/-- C19: on a configurable header, a click on a section `s ≥ 0` without the Shift modifier
leaves the header marked sorted with `s` as the section of the first sort column.  When the
header was unsorted and `s` already was its first sort column, the sort columns stay as they
are; in every other case they become the one-element list `[(s, o)]`, where `o` is the
opposite of the previous primary order if `s` was the primary column and Ascending
otherwise. -/
theorem click_sets_primary (h : HeaderView) (mods : Nat) (s : Int)
    (hconf : h.isConfigurable = true) (hs : 0 ≤ s) (hmods : mods &&& ShiftModifier = 0) :
    (h.sectionClicked mods s).1.isSorted = true
    ∧ (h.sectionClicked mods s).1.sortColumns.head?.map Prod.fst = some s
    ∧ (∀ o rest, h.sortColumns = (s, o) :: rest → h.isSorted = false →
        (h.sectionClicked mods s).1.sortColumns = h.sortColumns)
    ∧ (∀ rest, h.sortColumns = (s, .AscendingOrder) :: rest → h.isSorted = true →
        (h.sectionClicked mods s).1.sortColumns = [(s, .DescendingOrder)])
    ∧ (∀ rest, h.sortColumns = (s, .DescendingOrder) :: rest → h.isSorted = true →
        (h.sectionClicked mods s).1.sortColumns = [(s, .AscendingOrder)])
    ∧ (h.sortColumns.head?.map Prod.fst ≠ some s →
        (h.sectionClicked mods s).1.sortColumns = [(s, .AscendingOrder)]) := by
  have hne := shift_not_without_shift mods hmods
  obtain ⟨cols, sorted, conf, vo, hid⟩ := h
  simp only [HeaderView.isConfigurable] at hconf
  subst hconf
  cases cols with
  | nil =>
    have hs1 : ¬ ((-1 : Int) = s) := by omega
    simp [HeaderView.sectionClicked, HeaderView.isConfigurable, HeaderView.isSorted,
      HeaderView.sortColumns, hne, hs1]
  | cons sc rest =>
    obtain ⟨s0, o0⟩ := sc
    by_cases h0 : s0 = s
    · subst h0
      cases sorted <;> cases o0 <;>
        simp [HeaderView.sectionClicked, HeaderView.isConfigurable, HeaderView.isSorted,
          HeaderView.sortColumns, hne, SortOrder.ofInt, SortOrder.toInt]
    · have h1 : ¬ (s = s0) := fun e => h0 e.symm
      cases sorted <;>
        simp [HeaderView.sectionClicked, HeaderView.isConfigurable, HeaderView.isSorted,
          HeaderView.sortColumns, hne, h0, h1]

/-- C20: on a configurable header, after a click on a section `s` with exactly the Shift
modifier the sections of the previous sort columns are a prefix, in the same order, of the
sections of the new ones, `s` is among the new ones, and if `s` was no sort column before, it
is appended as the last entry with the order of the previous first sort column (Ascending
when there was none). -/
theorem shift_click_adds (h : HeaderView) (s : Int) (hconf : h.isConfigurable = true) :
    (∃ added, (h.sectionClicked ShiftModifier s).1.sortColumns.map Prod.fst
        = h.sortColumns.map Prod.fst ++ added)
    ∧ s ∈ (h.sectionClicked ShiftModifier s).1.sortColumns.map Prod.fst
    ∧ (s ∉ h.sortColumns.map Prod.fst →
        (∀ sc rest, h.sortColumns = sc :: rest →
          (h.sectionClicked ShiftModifier s).1.sortColumns = h.sortColumns ++ [(s, sc.2)])
        ∧ (h.sortColumns = [] →
          (h.sectionClicked ShiftModifier s).1.sortColumns = [(s, .AscendingOrder)])) := by
  obtain ⟨cols, sorted, conf, vo, hid⟩ := h
  simp only [HeaderView.isConfigurable] at hconf
  subst hconf
  simp only [HeaderView.sortColumns]
  by_cases hre : (!cols.isEmpty && !sorted && decide (s = (match cols with
      | [] => ((-1 : Int), SortOrder.AscendingOrder)
      | sc :: _ => sc).1)) = true
  · -- the click re-activates an unsorted header whose first sort column is `s`
    have hres : (HeaderView.sectionClicked ⟨cols, sorted, true, vo, hid⟩ ShiftModifier s).1
        = ⟨cols, true, true, vo, hid⟩ := by
      simp only [HeaderView.sectionClicked, HeaderView.isConfigurable]
      simp only [Bool.not_true, Bool.false_eq_true, if_false]
      rw [if_pos hre]
    rw [hres]
    simp only [Bool.and_eq_true, Bool.not_eq_true', decide_eq_true_eq] at hre
    cases cols with
    | nil => simp at hre
    | cons sc rest =>
      have hsc : s = sc.1 := hre.2
      refine ⟨⟨[], by simp⟩, by simp [hsc], ?_⟩
      intro hnot
      exact absurd (by simp [hsc]) hnot
  · have hres : (HeaderView.sectionClicked ⟨cols, sorted, true, vo, hid⟩ ShiftModifier s).1.m_sortColumns
        = (match HeaderView.toggleSection s cols with
            | some toggled => toggled
            | none => cols ++ [(s, (match cols with
                | [] => ((-1 : Int), SortOrder.AscendingOrder)
                | sc :: _ => sc).2)]) := by
      simp only [HeaderView.sectionClicked, HeaderView.isConfigurable]
      simp only [Bool.not_true, Bool.false_eq_true, if_false]
      rw [if_neg hre]
      simp
    rw [hres]
    cases ht : HeaderView.toggleSection s cols with
    | some toggled =>
      simp only
      have hmap := toggleSection_some s cols toggled ht
      have hmem : s ∈ cols.map Prod.fst := by
        by_contra hc
        have := (toggleSection_none s cols).mpr hc
        rw [ht] at this
        exact Option.noConfusion this
      refine ⟨⟨[], by simp [hmap]⟩, by rw [hmap]; exact hmem, fun hnot => absurd hmem hnot⟩
    | none =>
      simp only
      refine ⟨⟨[s], by simp⟩, by simp, fun _ => ⟨?_, ?_⟩⟩
      · intro sc rest hc
        subst hc
        rfl
      · intro hc
        subst hc
        rfl

/-! ## `SectionConfigDialog::accept` -/

/-- The move step of `accept` for the section `li` that stands behind `done` and `mid` in
the visual order: it comes to stand right behind `done`. -/
theorem accept_move_step (h : HeaderView) (done mid tail : List Int) (li : Int)
    (horder : h.visualOrder = done ++ mid ++ li :: tail)
    (hdone : li ∉ done) (hmid : li ∉ mid) :
    (if h.visualIndex li ≠ (done.length : Int) then
        h.moveSection (h.visualIndex li) (done.length : Int) else h)
      = { h with visualOrder := done ++ li :: (mid ++ tail) } := by
  have hidx : h.visualOrder.indexOf li = done.length + mid.length := by
    rw [horder, List.append_assoc, List.indexOf_append_of_not_mem hdone,
      List.indexOf_append_of_not_mem hmid, List.indexOf_cons_self]
    omega
  have hlen : h.visualOrder.length = done.length + mid.length + (tail.length + 1) := by
    rw [horder]; simp; omega
  have hvi : h.visualIndex li = ((done.length + mid.length : Nat) : Int) := by
    unfold HeaderView.visualIndex
    rw [hidx, if_pos (by omega)]
  rw [hvi]
  by_cases hm : mid = []
  · subst hm
    simp only [List.length_nil, Nat.add_zero, ne_eq, not_true_eq_false, if_false]
    obtain ⟨a, b, c, vo, e⟩ := h
    simp only at horder
    subst horder
    simp
  · have hpos : 0 < mid.length := List.length_pos.mpr hm
    rw [if_pos (by omega)]
    unfold HeaderView.moveSection HeaderView.count
    rw [if_neg (by omega)]
    have hget : h.visualOrder[((done.length + mid.length : Nat) : Int).toNat]? = some li := by
      rw [Int.toNat_ofNat, horder]
      rw [List.getElem?_append_right (by simp)]
      simp
    rw [hget]
    simp only [Int.toNat_ofNat]
    have herase : h.visualOrder.eraseIdx (done.length + mid.length) = done ++ (mid ++ tail) := by
      rw [horder, List.eraseIdx_append_of_length_le (by simp)]
      simp
    rw [herase]
    simp

/-- The show/hide step of `accept` for a section `li` of the header. -/
theorem accept_hide_step (h : HeaderView) (li : Int) (vis : Bool)
    (hli : 0 ≤ li ∧ li < h.count) :
    ((if vis ≠ !h.isSectionHidden li then
        (if vis then h.showSection li else h.hideSection li) else h).visualOrder
      = h.visualOrder)
    ∧ ((if vis ≠ !h.isSectionHidden li then
        (if vis then h.showSection li else h.hideSection li) else h).isSectionHidden li = !vis)
    ∧ (∀ other, other ≠ li →
        (if vis ≠ !h.isSectionHidden li then
          (if vis then h.showSection li else h.hideSection li) else h).isSectionHidden other
        = h.isSectionHidden other) := by
  simp only [HeaderView.count] at hli
  have hr : ¬ (li < 0 ∨ (h.visualOrder.length : Int) ≤ li) := by omega
  by_cases hh : li ∈ h.hiddenSections <;> cases vis <;>
    simp [HeaderView.isSectionHidden, HeaderView.showSection, HeaderView.hideSection, hh, hr,
      HeaderView.count, List.mem_filter]
  · intro other hne _
    exact hne
  · intro other hne h1
    exact absurd h1 hne

/-- The loop of `accept` from row `done.length` on, when the sections of the rows before
already stand first in the visual order, and the rows left hold the sections behind them
exactly once. -/
theorem acceptFrom_spec (rest : List SectionItem) :
    ∀ (done remaining : List Int) (h : HeaderView),
      h.visualOrder = done ++ remaining →
      (rest.map SectionItem.logicalIndex).Perm remaining →
      (done ++ remaining).Nodup →
      (∀ li ∈ done ++ remaining, 0 ≤ li ∧ li < ((done ++ remaining).length : Int)) →
      (SectionConfigDialog.acceptFrom rest done.length h).visualOrder
          = done ++ rest.map SectionItem.logicalIndex
      ∧ (∀ si ∈ rest,
          (SectionConfigDialog.acceptFrom rest done.length h).isSectionHidden si.logicalIndex
            = !si.checked)
      ∧ (∀ other, other ∉ rest.map SectionItem.logicalIndex →
          (SectionConfigDialog.acceptFrom rest done.length h).isSectionHidden other
            = h.isSectionHidden other) := by
  induction rest with
  | nil =>
    intro done remaining h horder hperm _ _
    have : remaining = [] := by simpa using hperm.symm
    subst this
    simp [SectionConfigDialog.acceptFrom, horder]
  | cons si rest ih =>
    intro done remaining h horder hperm hnodup hrange
    have hmem : si.logicalIndex ∈ remaining := hperm.subset (by simp)
    obtain ⟨mid, tail, hsplit⟩ := List.append_of_mem hmem
    subst hsplit
    have hnd := hnodup
    rw [List.nodup_append] at hnd
    obtain ⟨_, hndr, hdisj⟩ := hnd
    have hdone : si.logicalIndex ∉ done := fun hd => hdisj hd hmem
    rw [List.nodup_append] at hndr
    obtain ⟨_, hndt, hdisj2⟩ := hndr
    have hmid : si.logicalIndex ∉ mid := fun hm => hdisj2 hm (by simp)
    -- the move step
    have hmove := accept_move_step h done mid tail si.logicalIndex
      (by rw [horder]; simp) hdone hmid
    -- the show/hide step
    have hcount : ({ h with visualOrder := done ++ si.logicalIndex :: (mid ++ tail) } : HeaderView).count
        = ((done ++ (mid ++ si.logicalIndex :: tail)).length : Int) := by
      simp [HeaderView.count]; omega
    have hli := hrange si.logicalIndex (by simp)
    obtain ⟨hs1, hs2, hs3⟩ := accept_hide_step
      { h with visualOrder := done ++ si.logicalIndex :: (mid ++ tail) } si.logicalIndex si.checked
      (by rw [hcount]; exact hli)
    -- the remaining rows
    have hperm2 : (rest.map SectionItem.logicalIndex).Perm (mid ++ tail) := by
      have h1 : (si.logicalIndex :: rest.map SectionItem.logicalIndex).Perm
          (si.logicalIndex :: (mid ++ tail)) := hperm.trans List.perm_middle
      exact h1.cons_inv
    have hpermAll : (done ++ [si.logicalIndex] ++ (mid ++ tail)).Perm
        (done ++ (mid ++ si.logicalIndex :: tail)) := by
      rw [List.append_assoc]
      apply List.Perm.append_left done
      exact (@List.perm_middle _ si.logicalIndex mid tail).symm
    have hstep : SectionConfigDialog.acceptFrom (si :: rest) done.length h
        = SectionConfigDialog.acceptFrom rest (done ++ [si.logicalIndex]).length
            (if si.checked ≠ !({ h with visualOrder := done ++ si.logicalIndex :: (mid ++ tail) }
                : HeaderView).isSectionHidden si.logicalIndex then
              (if si.checked then
                ({ h with visualOrder := done ++ si.logicalIndex :: (mid ++ tail) }
                  : HeaderView).showSection si.logicalIndex
              else
                ({ h with visualOrder := done ++ si.logicalIndex :: (mid ++ tail) }
                  : HeaderView).hideSection si.logicalIndex)
            else { h with visualOrder := done ++ si.logicalIndex :: (mid ++ tail) }) := by
      simp only [SectionConfigDialog.acceptFrom, hmove, List.length_append, List.length_singleton]
    obtain ⟨i1, i2, i3⟩ := ih (done ++ [si.logicalIndex]) (mid ++ tail) _
      (by rw [hs1]; simp) hperm2 (hpermAll.nodup_iff.mpr hnodup)
      (by
        intro li hli2
        rw [hpermAll.length_eq]
        exact hrange li (hpermAll.subset hli2))
    rw [hstep]
    have hnotin : si.logicalIndex ∉ rest.map SectionItem.logicalIndex := by
      intro hc
      have := hperm2.subset hc
      rcases List.mem_append.mp this with h1 | h1
      · exact hmid h1
      · have hnd3 : (si.logicalIndex :: tail).Nodup := hndt
        exact (List.nodup_cons.mp hnd3).1 h1
    refine ⟨by rw [i1]; simp, ?_, ?_⟩
    · intro sj hsj
      rcases List.mem_cons.mp hsj with h1 | h1
      · subst h1
        rw [i3 _ hnotin]
        exact hs2
      · exact i2 sj h1
    · intro other hother
      simp only [List.map_cons, List.mem_cons, not_or] at hother
      rw [i3 other hother.2, hs3 other hother.1]
      rfl

/-- C18: if the dialog's list contains every logical section index of the header exactly
once, then after `SectionConfigDialog::accept()` the visual index of the section shown in
list row `vi` is `vi`, for every row, and each section is hidden iff its list entry is not
checked. -/
theorem accept_applies_order (m_list : List SectionItem) (m_header : HeaderView) (n : Nat)
    (hheader : m_header.visualOrder.Perm ((List.range n).map Int.ofNat))
    (hlist : (m_list.map SectionItem.logicalIndex).Perm ((List.range n).map Int.ofNat)) :
    (SectionConfigDialog.accept m_list m_header).visualOrder
        = m_list.map SectionItem.logicalIndex
    ∧ (∀ (vi : Nat) (si : SectionItem), m_list[vi]? = some si →
        (SectionConfigDialog.accept m_list m_header).visualIndex si.logicalIndex = (vi : Int))
    ∧ (∀ si ∈ m_list,
        (SectionConfigDialog.accept m_list m_header).isSectionHidden si.logicalIndex
          = !si.checked) := by
  have hnd : ((List.range n).map Int.ofNat).Nodup :=
    (List.nodup_range n).map (fun a b hab => Int.ofNat.inj hab)
  have hnodup : m_header.visualOrder.Nodup := hheader.nodup_iff.mpr hnd
  have hlnodup : (m_list.map SectionItem.logicalIndex).Nodup := hlist.nodup_iff.mpr hnd
  have hlen : m_header.visualOrder.length = n := by
    rw [hheader.length_eq]; simp
  have hrange : ∀ li ∈ m_header.visualOrder,
      0 ≤ li ∧ li < (m_header.visualOrder.length : Int) := by
    intro li hli
    have := hheader.subset hli
    simp only [List.mem_map, List.mem_range] at this
    obtain ⟨k, hk, rfl⟩ := this
    rw [hlen]
    simp only [Int.ofNat_eq_coe]
    omega
  obtain ⟨h1, h2, _⟩ := acceptFrom_spec m_list [] m_header.visualOrder m_header (by simp)
    (hlist.trans hheader.symm) (by simpa using hnodup) (by simpa using hrange)
  simp only [List.length_nil, List.nil_append] at h1 h2
  have hacc : SectionConfigDialog.accept m_list m_header
      = SectionConfigDialog.acceptFrom m_list 0 m_header := rfl
  rw [hacc]
  refine ⟨h1, ?_, h2⟩
  intro vi si hvi
  unfold HeaderView.visualIndex
  have hlt : vi < m_list.length := (List.getElem?_eq_some_iff.mp hvi).1
  have hidx : (m_list.map SectionItem.logicalIndex).indexOf si.logicalIndex = vi := by
    have hget : (m_list.map SectionItem.logicalIndex)[vi]? = some si.logicalIndex := by
      simp [hvi]
    have hlt2 : vi < (m_list.map SectionItem.logicalIndex).length := by simpa using hlt
    have heq : (m_list.map SectionItem.logicalIndex)[vi] = si.logicalIndex := by
      rw [List.getElem?_eq_getElem hlt2] at hget
      exact Option.some.inj hget
    rw [← heq]
    exact List.indexOf_getElem hlnodup vi hlt2
  rw [h1, hidx, if_pos (by simpa using hlt)]

/-- Witness of C18: the rows 1, 3, 0, 2 (0 unchecked) applied to `sampleHeader`. -/
theorem accept_applies_order_witness :
    sampleHeader.visualOrder.Perm ((List.range 4).map Int.ofNat)
    ∧ (sampleRows.map SectionItem.logicalIndex).Perm ((List.range 4).map Int.ofNat)
    ∧ (SectionConfigDialog.accept sampleRows sampleHeader).visualOrder = [1, 3, 0, 2]
    ∧ (SectionConfigDialog.accept sampleRows sampleHeader).hiddenSections = [0]
    ∧ (SectionConfigDialog.accept sampleRows sampleHeader).visualIndex 0 = 2 :=
  ⟨by decide, by decide,
    (accept_applies_order sampleRows sampleHeader 4 (by decide) (by decide)).1,
    by decide,
    (accept_applies_order sampleRows sampleHeader 4 (by decide) (by decide)).2.1 2 ⟨0, false⟩
      (by decide)⟩

/-- Witness of C19: a plain click on section 2, the primary column of `sampleHeader`,
reverses its order; a plain click on section 7 makes it the only sort column. -/
theorem click_sets_primary_witness :
    sampleHeader.isConfigurable = true
    ∧ (sampleHeader.sectionClicked 0 2).1.sortColumns = [(2, .DescendingOrder)]
    ∧ (sampleHeader.sectionClicked 0 7).1.sortColumns = [(7, .AscendingOrder)] :=
  ⟨by decide,
    (click_sets_primary sampleHeader 0 2 (by decide) (by decide) (by decide)).2.2.2.1
      [(5, .DescendingOrder)] (by decide) (by decide),
    (click_sets_primary sampleHeader 0 7 (by decide) (by decide) (by decide)).2.2.2.2.2
      (by decide)⟩

/-- Witness of C20: a Shift-click on section 7 appends it to the sort columns of
`sampleHeader` with the order of the first one. -/
theorem shift_click_adds_witness :
    sampleHeader.isConfigurable = true
    ∧ (7 : Int) ∉ sampleHeader.sortColumns.map Prod.fst
    ∧ (sampleHeader.sectionClicked ShiftModifier 7).1.sortColumns
        = sampleHeader.sortColumns ++ [(7, .AscendingOrder)] :=
  ⟨by decide, by decide,
    ((shift_click_adds sampleHeader 7 (by decide)).2.2 (by decide)).1 (2, .AscendingOrder)
      [(5, .DescendingOrder)] (by decide)⟩

/-! ## `PrintingScriptAction::executePrint` -/

/-- C15 at a failing input: `sampleDocument` has three lots, of which one is selected, and
`executePrint` is called with `selectionOnly = false`.  The selection is not empty, yet the
print function receives all three lots and not the selected one: the list is chosen by the
parameter `selectionOnly`, not by whether there is a selection. -/
theorem print_lots_selection_ignored :
    sampleDocument.selectedLots ≠ []
    ∧ (samplePrintAction.executePrint sampleDocument false []).passedLots
        = some (sampleDocument.model.sortLotList sampleDocument.model.lots)
    ∧ (samplePrintAction.executePrint sampleDocument false []).passedLots
        = some [sampleLot 1, sampleLot 2, sampleLot 3]
    ∧ sampleDocument.model.sortLotList sampleDocument.selectedLots = [sampleLot 2]
    ∧ (samplePrintAction.executePrint sampleDocument false []).passedLots
        ≠ some (sampleDocument.model.sortLotList sampleDocument.selectedLots) := by
  refine ⟨by decide, rfl, rfl, rfl, by decide⟩

/-- What `executePrint` does: whenever it calls the print function, the lot list it passes is
the document's selected lots when it is called with `selectionOnly = true`, and all lots of
the document when it is called with `selectionOnly = false`, sorted by the model. -/
theorem print_lots_by_flag (action : PrintingScriptAction) (doc : Document)
    (selectionOnly : Bool) (pages : List Nat)
    (hcallable : action.m_printFunction.isSome = true) :
    (selectionOnly = true →
      (action.executePrint doc selectionOnly pages).passedLots
        = some (doc.model.sortLotList doc.selectedLots))
    ∧ (selectionOnly = false →
      (action.executePrint doc selectionOnly pages).passedLots
        = some (doc.model.sortLotList doc.model.lots)) := by
  cases hf : action.m_printFunction with
  | none => simp [hf] at hcallable
  | some f =>
    have hpass : (action.executePrint doc selectionOnly pages).passedLots
        = some (doc.model.sortLotList
            (if selectionOnly then doc.selectedLots else doc.model.lots)) := by
      simp only [PrintingScriptAction.executePrint, hf]
      split_ifs <;> rfl
    constructor <;> intro hsel <;> subst hsel <;> rw [hpass] <;> rfl

/-- The lemma above on `sampleDocument`, printed with and without `selectionOnly`. -/
theorem print_lots_by_flag_witness :
    samplePrintAction.m_printFunction.isSome = true
    ∧ (samplePrintAction.executePrint sampleDocument true []).passedLots = some [sampleLot 2]
    ∧ (samplePrintAction.executePrint sampleDocument false []).passedLots
        = some [sampleLot 1, sampleLot 2, sampleLot 3] :=
  ⟨rfl, (print_lots_by_flag samplePrintAction sampleDocument true [] rfl).1 rfl,
    (print_lots_by_flag samplePrintAction sampleDocument false [] rfl).2 rfl⟩

/-! ## The bounding box of a surface -/

/-- C17 at a failing input: for the triangle with the vertices (-1,-1,-1), (-2,-1,-1) and
(-1,-2,-1) the loop yields `vmin = (-2,-2,-1)`, the component-wise minimum, but
`vmax = (fmin, fmin, fmin)` with `fmin = std::numeric_limits<float>::min()`, the smallest
positive normalised float: no component of `vmax` is attained by any vertex, and `vmax` is
not the component-wise maximum (-1,-1,-1). -/
theorem bounding_box_negative_triangle :
    calculateBounds sampleTriangle = (⟨-2, -2, -1⟩, ⟨fmin, fmin, fmin⟩)
    ∧ (0 : Rat) < fmin
    ∧ ∀ v ∈ sampleTriangle,
        v.x ≠ (calculateBounds sampleTriangle).2.x
        ∧ v.y ≠ (calculateBounds sampleTriangle).2.y
        ∧ v.z ≠ (calculateBounds sampleTriangle).2.z := by
  have hpos : (0 : Rat) < fmin := by unfold fmin; positivity
  have h1 : stdMin fmax (-1) = -1 := by
    unfold stdMin fmax; norm_num
  have h2 : ∀ q : Rat, q < 0 → stdMax fmin q = fmin := by
    intro q hq
    unfold stdMax
    rw [if_neg (by linarith)]
  have hb : calculateBounds sampleTriangle = (⟨-2, -2, -1⟩, ⟨fmin, fmin, fmin⟩) := by
    simp only [calculateBounds, sampleTriangle, List.foldl, h1, h2 (-1) (by norm_num),
      h2 (-2) (by norm_num)]
    norm_num [stdMin]
  refine ⟨hb, hpos, ?_⟩
  intro v hv
  rw [hb]
  simp only [sampleTriangle, List.mem_cons, List.mem_singleton, List.not_mem_nil, or_false] at hv
  rcases hv with hv | hv | hv <;> subst hv <;> simp only <;> refine ⟨?_, ?_, ?_⟩ <;> linarith

/-! ## Seller carts -/

/-- Whenever the handler emits `fetchLotsFinished` with `success = true`, the message is
empty: `message.clear()` follows the `if (invalidCount)` statement unconditionally. -/
theorem cartTransferFinished_success_message (env : CartEnv) (carts : Carts)
    (job : Carts.TransferJob) (cart : Cart) (message : String)
    (h : CartsSignal.fetchLotsFinished cart true message ∈
      (Carts.cartTransferFinished env carts job).2) :
    message = "" := by
  unfold Carts.cartTransferFinished at h
  simp only at h
  split at h
  · simp at h
  · split at h
    · simp at h
    · split at h
      · simp at h
      · simp only [Carts.clear, List.mem_singleton, CartsSignal.fetchLotsFinished.injEq] at h
        exact h.2.2

set_option maxRecDepth 20000 in
/-- C16 at a failing input: the job of seller 42 completes with response code 200 and its
body parses; one of the two entries has an unknown color, so `parseSellerCart` returns
`invalidCount = 1`, yet `fetchLotsFinished` is emitted with `success = true` and the empty
message, not with the text that 1 lot could not be imported. -/
theorem invalid_lots_message_cleared :
    sampleCartJob.isCompleted = true ∧ sampleCartJob.responseCode = 200 ∧
    Carts.parseSellerCart sampleCartEnv sampleCart sampleCartJob.data
      = .ok (sampleCart.setLots [sampleCartLot], 1) ∧
    (Carts.cartTransferFinished sampleCartEnv sampleCarts sampleCartJob).2
      = [.fetchLotsFinished (sampleCart.setLots [sampleCartLot]) true ""] ∧
    Carts.lotsNotImported 1 ≠ "" := by
  refine ⟨rfl, rfl, by rfl, by rfl, by decide⟩

/-! ## `DotCommaFilter` -/

/-- After the rounds for the indices below `k` the local `text` has its first `k` characters
replaced, and `fixed` says whether `text` differs from `ke->text()`. -/
theorem fixText_loop (dp : QChar) (t : List QChar) (k : Nat) (hk : k ≤ t.length) :
    (List.range k).foldl (DotCommaFilter.fixStep dp t) (t, false)
      = (DotCommaFilter.replaceSeparators dp (t.take k) ++ t.drop k,
         decide (DotCommaFilter.replaceSeparators dp (t.take k) ++ t.drop k ≠ t)) := by
  induction k with
  | zero => simp [DotCommaFilter.replaceSeparators]
  | succ k ih =>
    have hk1 : k < t.length := hk
    rw [List.range_succ, List.foldl_append, ih (Nat.le_of_lt hk1)]
    simp only [List.foldl_cons, List.foldl_nil]
    have hlen : (DotCommaFilter.replaceSeparators dp (t.take k)).length = k := by
      simp [DotCommaFilter.replaceSeparators, Nat.min_eq_left (Nat.le_of_lt hk1)]
    have hdrop : t.drop k = t[k] :: t.drop (k + 1) := List.drop_eq_getElem_cons hk1
    have htake : t.take (k + 1) = t.take k ++ [t[k]] := by
      rw [List.take_succ]; simp [List.getElem?_eq_getElem hk1]
    have hget : (DotCommaFilter.replaceSeparators dp (t.take k) ++ t.drop k)[k]? = some t[k] := by
      rw [List.getElem?_append_right (by omega), hlen, Nat.sub_self, hdrop]
      simp only [List.getElem?_cons_zero]
    unfold DotCommaFilter.fixStep
    simp only [hget]
    by_cases hc : t[k] = DotCommaFilter.dot ∨ t[k] = DotCommaFilter.comma
    · simp only [if_pos hc]
      have hset : (DotCommaFilter.replaceSeparators dp (t.take k) ++ t.drop k).set k dp
          = DotCommaFilter.replaceSeparators dp (t.take (k + 1)) ++ t.drop (k + 1) := by
        rw [List.set_append_right _ _ (by omega), hlen, Nat.sub_self, htake, hdrop]
        unfold DotCommaFilter.replaceSeparators
        simp only [List.set_cons_zero, List.map_append, List.map_cons, List.map_nil,
          List.append_assoc, List.singleton_append, if_pos hc]
      rw [hset]
    · simp only [if_neg hc]
      have hsame : DotCommaFilter.replaceSeparators dp (t.take (k + 1)) ++ t.drop (k + 1)
          = DotCommaFilter.replaceSeparators dp (t.take k) ++ t.drop k := by
        rw [htake, hdrop]
        unfold DotCommaFilter.replaceSeparators
        simp only [List.map_append, List.map_cons, List.map_nil, List.append_assoc,
          List.singleton_append, if_neg hc]
      rw [hsame]

/-- The loop of `eventFilter` computes the claim's `r(t)`, and `fixed` is `r(t) ≠ t`. -/
theorem fixText_eq (dp : QChar) (t : List QChar) :
    DotCommaFilter.fixText dp t
      = (DotCommaFilter.replaceSeparators dp t,
         decide (DotCommaFilter.replaceSeparators dp t ≠ t)) := by
  have h := fixText_loop dp t t.length (Nat.le_refl _)
  simpa [DotCommaFilter.fixText] using h

/-- Replacing the separators a second time changes nothing. -/
theorem replaceSeparators_idem (dp : QChar) (t : List QChar) :
    DotCommaFilter.replaceSeparators dp (DotCommaFilter.replaceSeparators dp t)
      = DotCommaFilter.replaceSeparators dp t := by
  unfold DotCommaFilter.replaceSeparators
  rw [List.map_map]
  apply List.map_congr_left
  intro c _
  simp only [Function.comp]
  by_cases hc : c = DotCommaFilter.dot ∨ c = DotCommaFilter.comma
  · simp only [if_pos hc, ite_self]
  · simp only [if_neg hc]

/-- C22: for a key press or key release event with text `t` delivered to a `QDoubleSpinBox`
or to a `QLineEdit` with a `QDoubleValidator`, `DotCommaFilter::eventFilter` returns true iff
`r(t) ≠ t`; when it returns true it posts exactly one event, the copy of the event with text
`r(t)`, and otherwise none; `r(r(t)) = r(t)`; and the event it posted is not consumed when it
reaches the filter (no event is posted for it, `eventFilter` returns false). -/
theorem dot_comma_fixed_point (decimalPoint : QChar) (o : Receiver) (e : QKeyEvent)
    (hkey : e.type = .KeyPress ∨ e.type = .KeyRelease)
    (hrecv : o = .doubleSpinBox ∨ o = .lineEdit true) :
    ((DotCommaFilter.eventFilter decimalPoint o e).1 = true
      ↔ DotCommaFilter.replaceSeparators decimalPoint e.text ≠ e.text)
    ∧ ((DotCommaFilter.eventFilter decimalPoint o e).1 = true →
        (DotCommaFilter.eventFilter decimalPoint o e).2
          = [{ e with
              text := DotCommaFilter.replaceSeparators decimalPoint e.text
              count := e.count % 2 ^ 16 }])
    ∧ ((DotCommaFilter.eventFilter decimalPoint o e).1 = false →
        (DotCommaFilter.eventFilter decimalPoint o e).2 = [])
    ∧ DotCommaFilter.replaceSeparators decimalPoint
        (DotCommaFilter.replaceSeparators decimalPoint e.text)
        = DotCommaFilter.replaceSeparators decimalPoint e.text
    ∧ ∀ nke ∈ (DotCommaFilter.eventFilter decimalPoint o e).2,
        DotCommaFilter.eventFilter decimalPoint o nke = (false, []) := by
  have hidem := replaceSeparators_idem decimalPoint e.text
  by_cases hne : DotCommaFilter.replaceSeparators decimalPoint e.text = e.text
  · have hval : DotCommaFilter.eventFilter decimalPoint o e = (false, []) := by
      simp [DotCommaFilter.eventFilter, hkey, hrecv, fixText_eq, hne]
    rw [hval]
    simp [hne, hidem]
  · have hval : DotCommaFilter.eventFilter decimalPoint o e
        = (true, [{ e with
            text := DotCommaFilter.replaceSeparators decimalPoint e.text
            count := e.count % 2 ^ 16 }]) := by
      simp [DotCommaFilter.eventFilter, hkey, hrecv, fixText_eq, hne]
    rw [hval]
    refine ⟨by simp [hne], fun _ => rfl, by simp, hidem, ?_⟩
    intro nke hnke
    simp only [List.mem_singleton] at hnke
    subst hnke
    simp [DotCommaFilter.eventFilter, hkey, hrecv, fixText_eq, hidem]
/-! ## `parseGlobalCart`: finding the JSON text -/

/-- An occurrence of a non-empty needle lies inside the data. -/
theorem occursAt_bound (needle data : List Nat) (i : Nat) (hn : needle ≠ [])
    (h : occursAt needle data i) : i + needle.length ≤ data.length := by
  have hlen := h.length_le
  rw [List.length_drop] at hlen
  have hpos : 0 < needle.length := List.length_pos.mpr hn
  omega

/-- A one-byte needle occurs at `i` iff the byte at `i` is that byte. -/
theorem occursAt_singleton (c : Nat) (data : List Nat) (i : Nat) :
    occursAt [c] data i ↔ data[i]? = some c := by
  unfold occursAt
  constructor
  · rintro ⟨rest, hrest⟩
    have h0 : (data.drop i)[0]? = some c := by rw [← hrest]; simp
    rw [List.getElem?_drop] at h0
    simpa using h0
  · intro h
    have hi : i < data.length := by
      rcases Nat.lt_or_ge i data.length with hlt | hge
      · exact hlt
      · rw [List.getElem?_eq_none hge] at h; cases h
    rw [List.drop_eq_getElem_cons hi]
    rw [List.getElem?_eq_getElem hi] at h
    injection h with h
    rw [h]
    exact ⟨_, rfl⟩

/-- The first byte of an occurrence. -/
theorem occursAt_head (c : Nat) (rest data : List Nat) (i : Nat)
    (h : occursAt (c :: rest) data i) : data[i]? = some c := by
  obtain ⟨tail, htail⟩ := h
  have h0 : (data.drop i)[0]? = some c := by rw [← htail]; simp
  rw [List.getElem?_drop] at h0
  simpa using h0

/-- The first occurrence at or after a start index is unique. -/
theorem firstOccurrence_unique (needle data : List Nat) (start i j : Nat)
    (hi : firstOccurrence needle data start i) (hj : firstOccurrence needle data start j) :
    i = j := by
  obtain ⟨hi1, hi2, hi3⟩ := hi
  obtain ⟨hj1, hj2, hj3⟩ := hj
  rcases Nat.lt_trichotomy i j with h | h | h
  · exact absurd hi2 (hj3 i h hi1)
  · exact h
  · exact absurd hj2 (hi3 j h hj1)

/-- The forward search returns -1 when the needle occurs nowhere in the remaining bytes, and
otherwise the start index plus the offset of the first occurrence. -/
theorem indexOfAux_spec (needle : List Nat) (hn : needle ≠ []) :
    ∀ (l : List Nat) (i : Int),
      (QByteArray.indexOfAux needle l i = -1 ∧ ∀ k : Nat, ¬ needle <+: l.drop k)
      ∨ ∃ k : Nat, QByteArray.indexOfAux needle l i = i + (k : Int) ∧ needle <+: l.drop k
          ∧ ∀ j : Nat, j < k → ¬ needle <+: l.drop j := by
  intro l
  induction l with
  | nil =>
    intro i
    left
    have hno : ¬ needle <+: ([] : List Nat) := by
      intro h; exact hn (List.prefix_nil.mp h)
    refine ⟨by simp [QByteArray.indexOfAux, hno], ?_⟩
    intro k
    simpa using hno
  | cons d ds ih =>
    intro i
    by_cases hp : needle <+: d :: ds
    · right
      refine ⟨0, by simp [QByteArray.indexOfAux, hp], by simpa using hp, ?_⟩
      intro j hj
      omega
    · rcases ih (i + 1) with ⟨h1, h2⟩ | ⟨k, h1, h2, h3⟩
      · left
        refine ⟨by simp [QByteArray.indexOfAux, hp, h1], ?_⟩
        intro k
        cases k with
        | zero => simpa using hp
        | succ k => simpa using h2 k
      · right
        refine ⟨k + 1, ?_, by simpa using h2, ?_⟩
        · simp only [QByteArray.indexOfAux, if_neg hp, h1]
          push_cast
          omega
        · intro j hj
          cases j with
          | zero => simpa using hp
          | succ j => simpa using h3 j (by omega)

/-- `indexOf` for a non-empty needle and a start index that is not negative: -1 when the
needle does not occur at or after the start, and otherwise the first such index. -/
theorem indexOf_spec (data needle : List Nat) (hn : needle ≠ []) (start : Nat) :
    (QByteArray.indexOf data needle start = -1
      ∧ ∀ i : Nat, start ≤ i → ¬ occursAt needle data i)
    ∨ ∃ i : Nat, QByteArray.indexOf data needle start = (i : Int)
        ∧ firstOccurrence needle data start i := by
  unfold QByteArray.indexOf
  have hneg : ¬ ((start : Int) < 0) := by omega
  simp only [if_neg hneg]
  by_cases hguard : (start : Int) + (needle.length : Int) > (data.length : Int)
  · left
    refine ⟨by simp only [if_pos hguard], ?_⟩
    intro i hi hocc
    have := occursAt_bound needle data i hn hocc
    omega
  · simp only [if_neg hguard, Int.toNat_ofNat]
    rcases indexOfAux_spec needle hn (data.drop start) start with ⟨h1, h2⟩ | ⟨k, h1, h2, h3⟩
    · left
      refine ⟨h1, ?_⟩
      intro i hi hocc
      apply h2 (i - start)
      unfold occursAt at hocc
      rw [List.drop_drop]
      have : start + (i - start) = i := by omega
      rw [this]
      exact hocc
    · right
      refine ⟨start + k, ?_, Nat.le_add_right _ _, ?_, ?_⟩
      · rw [h1]; push_cast; rfl
      · unfold occursAt
        rw [List.drop_drop] at h2
        exact h2
      · intro j hj hsj hocc
        apply h3 (j - start) (by omega)
        unfold occursAt at hocc
        rw [List.drop_drop]
        have : start + (j - start) = j := by omega
        rw [this]
        exact hocc

/-- The bytes of an occurrence are the bytes of the needle. -/
theorem occursAt_getElem (needle data : List Nat) (i k : Nat) (h : occursAt needle data i)
    (hk : k < needle.length) : data[i + k]? = needle[k]? := by
  obtain ⟨rest, hrest⟩ := h
  have h1 : (data.drop i)[k]? = (needle ++ rest)[k]? := by rw [hrest]
  rw [List.getElem?_drop, List.getElem?_append_left hk] at h1
  exact h1

/-- The bytes of the literal `"var GlobalCart"`. -/
theorem globalCartMarker_eq :
    Carts.globalCartMarker = [118, 97, 114, 32, 71, 108, 111, 98, 97, 108, 67, 97, 114, 116] := by
  decide

/-- The bytes of the literal searched for as the end of the JSON text. -/
theorem globalCartEnd_eq : Carts.globalCartEnd = [125, 59, 13, 10] := by
  decide

/-- Neither an opening brace nor the end sequence begins inside an occurrence of the
marker. -/
theorem marker_has_no_brace (data : List Nat) (pos j : Nat)
    (h : occursAt Carts.globalCartMarker data pos) (h1 : pos ≤ j)
    (h2 : j < pos + Carts.globalCartMarker.length) :
    data[j]? ≠ some Carts.openBrace ∧ ¬ occursAt Carts.globalCartEnd data j := by
  have hk : j - pos < Carts.globalCartMarker.length := by omega
  have hget := occursAt_getElem _ data pos (j - pos) h hk
  have hj : pos + (j - pos) = j := by omega
  rw [hj] at hget
  have hall : ∀ k, k < Carts.globalCartMarker.length →
      Carts.globalCartMarker[k]? ≠ some Carts.openBrace
        ∧ Carts.globalCartMarker[k]? ≠ some 125 := by
    rw [globalCartMarker_eq]
    decide
  refine ⟨by rw [hget]; exact (hall _ hk).1, ?_⟩
  intro hocc
  rw [globalCartEnd_eq] at hocc
  have := occursAt_head 125 _ data j hocc
  rw [hget] at this
  exact (hall _ hk).2 this

/-- The cases of `globalCartSlice`: which exception is thrown, or which bytes are handed to
the JSON parser, in terms of the first occurrences of the marker, of an opening brace and of
the end sequence. -/
theorem globalCartSlice_cases (data : List Nat) :
    (Carts.globalCartSlice data = .error "Invalid HTML - cannot parse"
      ∧ ∀ i : Nat, ¬ occursAt Carts.globalCartMarker data i)
    ∨ ∃ pos : Nat, firstOccurrence Carts.globalCartMarker data 0 pos
      ∧ ((Carts.globalCartSlice data
            = .error "Invalid HTML - found GlobalCart, but could not parse line"
          ∧ ∀ j : Nat, pos ≤ j → ¬ occursAt [Carts.openBrace] data j)
        ∨ ∃ s : Nat, firstOccurrence [Carts.openBrace] data pos s
          ∧ ((Carts.globalCartSlice data
                = .error "Invalid HTML - found GlobalCart, but could not parse line"
              ∧ ∀ e : Nat, pos ≤ e → ¬ occursAt Carts.globalCartEnd data e)
            ∨ ∃ e : Nat, firstOccurrence Carts.globalCartEnd data pos e
              ∧ ((e < s ∧ Carts.globalCartSlice data
                    = .error "Invalid HTML - found GlobalCart, but could not parse line")
                ∨ (s < e ∧ e + 4 ≤ data.length ∧ Carts.globalCartSlice data
                    = .ok ((data.drop s).take (e - s + 1)))))) := by
  have hmn : Carts.globalCartMarker ≠ [] := by rw [globalCartMarker_eq]; simp
  have hen : Carts.globalCartEnd ≠ [] := by rw [globalCartEnd_eq]; simp
  have h0 := indexOf_spec data Carts.globalCartMarker hmn 0
  rw [Nat.cast_zero] at h0
  rcases h0 with ⟨hidx, hnone⟩ | ⟨pos, hidx, hfirst⟩
  · left
    refine ⟨?_, fun i => hnone i (Nat.zero_le i)⟩
    simp only [Carts.globalCartSlice, hidx]
    rw [if_pos (by omega)]
  · right
    refine ⟨pos, hfirst, ?_⟩
    have hposb : data[pos]? = some 118 := by
      have := hfirst.2.1
      rw [globalCartMarker_eq] at this
      exact occursAt_head 118 _ data pos this
    rcases indexOf_spec data [Carts.openBrace] (by simp) pos with
      ⟨hs, hsnone⟩ | ⟨s, hs, hsfirst⟩
    · left
      refine ⟨?_, hsnone⟩
      simp only [Carts.globalCartSlice, hidx, hs]
      rw [if_neg (by omega), if_pos (Or.inl (by omega))]
    · right
      refine ⟨s, hsfirst, ?_⟩
      have hsb : data[s]? = some Carts.openBrace := (occursAt_singleton _ _ _).mp hsfirst.2.1
      have hsp : pos < s := by
        rcases Nat.lt_or_ge pos s with hlt | hge
        · exact hlt
        · have hps : pos = s := Nat.le_antisymm hsfirst.1 hge
          rw [hps, hsb] at hposb
          exact absurd hposb (by decide)
      rcases indexOf_spec data Carts.globalCartEnd hen pos with
        ⟨he, henone⟩ | ⟨e, he, hefirst⟩
      · left
        refine ⟨?_, henone⟩
        simp only [Carts.globalCartSlice, hidx, hs, he]
        rw [if_neg (by omega), if_pos (Or.inr (by omega))]
      · right
        refine ⟨e, hefirst, ?_⟩
        have heb : data[e]? = some 125 := by
          have := hefirst.2.1
          rw [globalCartEnd_eq] at this
          exact occursAt_head 125 _ data e this
        have hebound := occursAt_bound _ data e hen hefirst.2.1
        rw [globalCartEnd_eq] at hebound
        simp only [List.length_cons, List.length_nil] at hebound
        have hne : e ≠ s := by
          intro hes
          rw [hes, hsb] at heb
          exact absurd heb (by decide)
        rcases Nat.lt_or_gt_of_ne hne with hlt | hgt
        · left
          refine ⟨hlt, ?_⟩
          simp only [Carts.globalCartSlice, hidx, hs, he]
          rw [if_neg (by omega), if_pos (Or.inr (by omega))]
        · right
          refine ⟨hgt, by omega, ?_⟩
          simp only [Carts.globalCartSlice, hidx, hs, he]
          rw [if_neg (by omega), if_neg (by omega)]
          unfold QByteArray.mid
          rw [if_neg (by omega), if_neg (by omega), if_neg (by omega)]
          have h1 : ((s : Int)).toNat = s := Int.toNat_ofNat s
          have h2 : ((e : Int) - (s : Int) + 1).toNat = e - s + 1 := by omega
          rw [h1, h2]

/-- The exception for a JSON text that does not parse is none of the `Invalid HTML` ones. -/
theorem invalidJson_not_invalidHtml (errorString offset : String) :
    ¬ isInvalidHtml ("Invalid JSON: " ++ errorString ++ " at " ++ offset) := by
  have e1 : "Invalid JSON: ".data
      = ['I', 'n', 'v', 'a', 'l', 'i', 'd', ' ', 'J', 'S', 'O', 'N', ':', ' '] := rfl
  have e2 : "Invalid HTML - cannot parse".data
      = ['I', 'n', 'v', 'a', 'l', 'i', 'd', ' ', 'H'] ++ "TML - cannot parse".data := rfl
  have e3 : "Invalid HTML - found GlobalCart, but could not parse line".data
      = ['I', 'n', 'v', 'a', 'l', 'i', 'd', ' ', 'H']
        ++ "TML - found GlobalCart, but could not parse line".data := rfl
  intro h
  rcases h with h | h
  · have h1 := congrArg String.data h
    rw [String.data_append, String.data_append, String.data_append, e1, e2] at h1
    simp at h1
  · have h1 := congrArg String.data h
    rw [String.data_append, String.data_append, String.data_append, e1, e3] at h1
    simp at h1

/-- When the bytes for the JSON parser are found, `parseGlobalCart` throws no `Invalid HTML`
exception. -/
theorem parseGlobalCartJson_not_invalidHtml (env : GlobalCartEnv) (globalCart : List Nat)
    (message : String) (h : Carts.parseGlobalCartJson env globalCart = .error message) :
    ¬ isInvalidHtml message := by
  unfold Carts.parseGlobalCartJson at h
  split at h
  · injection h with h
    rw [← h]
    exact invalidJson_not_invalidHtml _ _
  · cases h

/-- C21: `parseGlobalCart` throws an `Invalid HTML` exception iff `data` does not contain
`"var GlobalCart"`, or contains no opening brace at or after the first occurrence `pos` of
that marker, or the first occurrence of the end sequence (closing brace, semicolon, CR, LF)
at or after `pos` is missing or lies before that first brace.  Neither a brace nor the end
sequence begins inside the marker, so "after the marker" and "at or after its start" are the
same.  In every other case the bytes handed to the JSON parser are `data[startPos..endPos]`
inclusive: `endPos - startPos + 1` bytes, at least 2, the first an opening and the last a
closing brace. -/
theorem parseGlobalCart_rejects (env : GlobalCartEnv) (data : List Nat) :
    ((∃ message, Carts.parseGlobalCart env data = .error message ∧ isInvalidHtml message)
      ↔ ((¬ ∃ i : Nat, occursAt Carts.globalCartMarker data i)
        ∨ ∃ pos : Nat, firstOccurrence Carts.globalCartMarker data 0 pos
          ∧ ((¬ ∃ j : Nat, pos ≤ j ∧ data[j]? = some Carts.openBrace)
            ∨ ∃ startPos : Nat, firstOccurrence [Carts.openBrace] data pos startPos
              ∧ ((¬ ∃ e : Nat, pos ≤ e ∧ occursAt Carts.globalCartEnd data e)
                ∨ ∃ endPos : Nat, firstOccurrence Carts.globalCartEnd data pos endPos
                    ∧ endPos < startPos))))
    ∧ (∀ pos j : Nat, firstOccurrence Carts.globalCartMarker data 0 pos → pos ≤ j →
        j < pos + Carts.globalCartMarker.length →
        data[j]? ≠ some Carts.openBrace ∧ ¬ occursAt Carts.globalCartEnd data j)
    ∧ ∀ pos startPos endPos : Nat,
        firstOccurrence Carts.globalCartMarker data 0 pos →
        firstOccurrence [Carts.openBrace] data pos startPos →
        firstOccurrence Carts.globalCartEnd data pos endPos →
        startPos ≤ endPos →
        Carts.globalCartSlice data = .ok ((data.drop startPos).take (endPos - startPos + 1))
        ∧ Carts.parseGlobalCart env data
            = Carts.parseGlobalCartJson env ((data.drop startPos).take (endPos - startPos + 1))
        ∧ (∀ k : Nat, k ≤ endPos - startPos →
            ((data.drop startPos).take (endPos - startPos + 1))[k]? = data[startPos + k]?)
        ∧ ((data.drop startPos).take (endPos - startPos + 1)).length = endPos - startPos + 1
        ∧ 2 ≤ ((data.drop startPos).take (endPos - startPos + 1)).length
        ∧ ((data.drop startPos).take (endPos - startPos + 1)).head? = some Carts.openBrace
        ∧ ((data.drop startPos).take (endPos - startPos + 1)).getLast? = some 125 := by
  have hcases := globalCartSlice_cases data
  refine ⟨⟨?_, ?_⟩, ?_, ?_⟩
  · -- an Invalid HTML exception only arises in the listed cases
    rintro ⟨message, hmsg, hinv⟩
    rcases hcases with ⟨_, hnone⟩ | ⟨pos, hpos, hrest⟩
    · left
      rintro ⟨i, hi⟩
      exact hnone i hi
    · right
      refine ⟨pos, hpos, ?_⟩
      rcases hrest with ⟨_, hnone⟩ | ⟨s, hs, hrest⟩
      · left
        rintro ⟨j, hj, hjb⟩
        exact hnone j hj ((occursAt_singleton _ _ _).mpr hjb)
      · right
        refine ⟨s, hs, ?_⟩
        rcases hrest with ⟨_, hnone⟩ | ⟨e, he, hrest⟩
        · left
          rintro ⟨e, he, hocc⟩
          exact hnone e he hocc
        · rcases hrest with ⟨hlt, _⟩ | ⟨_, _, hok⟩
          · right
            exact ⟨e, he, hlt⟩
          · exfalso
            unfold Carts.parseGlobalCart at hmsg
            rw [hok] at hmsg
            exact parseGlobalCartJson_not_invalidHtml env _ message hmsg hinv
  · -- in each listed case the exception is thrown
    intro h
    rcases hcases with ⟨herr, hnone⟩ | ⟨pos, hpos, hrest⟩
    · exact ⟨_, by unfold Carts.parseGlobalCart; rw [herr], Or.inl rfl⟩
    · rcases h with h | ⟨pos1, hpos1, h⟩
      · exact absurd ⟨pos, hpos.2.1⟩ h
      · have hpp : pos1 = pos := firstOccurrence_unique _ _ _ _ _ hpos1 hpos
        subst hpp
        rcases hrest with ⟨herr, hnone⟩ | ⟨s, hs, hrest⟩
        · exact ⟨_, by unfold Carts.parseGlobalCart; rw [herr], Or.inr rfl⟩
        · rcases h with h | ⟨s1, hs1, h⟩
          · exact absurd ⟨s, hs.1, (occursAt_singleton _ _ _).mp hs.2.1⟩ h
          · have hss : s1 = s := firstOccurrence_unique _ _ _ _ _ hs1 hs
            subst hss
            rcases hrest with ⟨herr, hnone⟩ | ⟨e, he, hrest⟩
            · exact ⟨_, by unfold Carts.parseGlobalCart; rw [herr], Or.inr rfl⟩
            · rcases h with h | ⟨e1, he1, h⟩
              · exact absurd ⟨e, he.1, he.2.1⟩ h
              · have hee : e1 = e := firstOccurrence_unique _ _ _ _ _ he1 he
                subst hee
                rcases hrest with ⟨_, herr⟩ | ⟨hlt, _, _⟩
                · exact ⟨_, by unfold Carts.parseGlobalCart; rw [herr], Or.inr rfl⟩
                · omega
  · intro pos j hpos h1 h2
    exact marker_has_no_brace data pos j hpos.2.1 h1 h2
  · intro pos startPos endPos hpos hs he hle
    rcases hcases with ⟨_, hnone⟩ | ⟨pos1, hpos1, hrest⟩
    · exact absurd hpos.2.1 (hnone pos)
    · have hpp : pos1 = pos := firstOccurrence_unique _ _ _ _ _ hpos1 hpos
      subst hpp
      rcases hrest with ⟨_, hnone⟩ | ⟨s1, hs1, hrest⟩
      · exact absurd hs.2.1 (hnone startPos hs.1)
      · have hss : s1 = startPos := firstOccurrence_unique _ _ _ _ _ hs1 hs
        subst hss
        rcases hrest with ⟨_, hnone⟩ | ⟨e1, he1, hrest⟩
        · exact absurd he.2.1 (hnone endPos he.1)
        · have hee : e1 = endPos := firstOccurrence_unique _ _ _ _ _ he1 he
          subst hee
          rcases hrest with ⟨hlt, _⟩ | ⟨hlt, hbound, hok⟩
          · omega
          · have hsb : data[s1]? = some Carts.openBrace :=
              (occursAt_singleton _ _ _).mp hs.2.1
            have heb : data[e1]? = some 125 := by
              have := he.2.1
              rw [globalCartEnd_eq] at this
              exact occursAt_head 125 _ data e1 this
            have hlen : ((data.drop s1).take (e1 - s1 + 1)).length = e1 - s1 + 1 := by
              rw [List.length_take, List.length_drop]
              omega
            have hget : ∀ k : Nat, k ≤ e1 - s1 →
                ((data.drop s1).take (e1 - s1 + 1))[k]? = data[s1 + k]? := by
              intro k hk
              rw [List.getElem?_take_of_lt (by omega), List.getElem?_drop]
            refine ⟨hok, by unfold Carts.parseGlobalCart; rw [hok], hget, hlen,
              by rw [hlen]; omega, ?_, ?_⟩
            · rw [List.head?_eq_getElem?, hget 0 (Nat.zero_le _)]
              exact hsb
            · rw [List.getLast?_eq_getElem?, hlen, Nat.add_sub_cancel, hget _ (Nat.le_refl _)]
              have : s1 + (e1 - s1) = e1 := by omega
              rw [this]
              exact heb

/-! ## The `globalCart` branch of the transfer handler -/

/-- For a job that finishes without success the `globalCart` branch sets the time of the
last update and the status on the unchanged carts, emits `updateFinished` with
`success = false` last, and resets the job pointer. -/
theorem globalCartTransferFinished_failed (env : GlobalCartEnv) (carts : Carts)
    (job : Carts.TransferJob) (now : Nat)
    (hfail : job.isCompleted = false ∨ job.responseCode ≠ 200
      ∨ ∃ e, Carts.parseGlobalCart env job.data = .error e) :
    ∃ message, Carts.globalCartTransferFinished env carts job now
      = ({ ((carts.setLastUpdated (some now)).1.setUpdateStatus .UpdateFailed).1 with
            m_job := none },
         (carts.setLastUpdated (some now)).2
           ++ ((carts.setLastUpdated (some now)).1.setUpdateStatus .UpdateFailed).2
           ++ [.updateFinished false message]) := by
  by_cases hc : (job.isCompleted && decide (job.responseCode = 200)) = true
  · have hparse : ∃ e, Carts.parseGlobalCart env job.data = .error e := by
      simp only [Bool.and_eq_true, decide_eq_true_eq] at hc
      rcases hfail with h | h | h
      · rw [hc.1] at h; cases h
      · exact absurd hc.2 h
      · exact h
    obtain ⟨e, he⟩ := hparse
    refine ⟨"Failed to import the carts" ++ ": " ++ e, ?_⟩
    simp [Carts.globalCartTransferFinished, hc, he]
  · refine ⟨"Failed to import the carts", ?_⟩
    simp only [Bool.not_eq_true] at hc
    simp [Carts.globalCartTransferFinished, hc]

/-- C23: when the `globalCart` job (the job `m_job`, tagged `globalCart`) finishes without
success, because it did not complete, or its response code is not 200, or `parseGlobalCart`
throws, then the list of carts is exactly the list held before, the update status is
`UpdateFailed`, `updateFinished` is emitted, with `success = false`, and the job pointer is
null. -/
theorem failed_refresh_is_atomic (env : GlobalCartEnv) (carts : Carts)
    (job : Carts.TransferJob) (now : Nat)
    (hjob : carts.m_job = some job) (htag : job.userTag = "globalCart")
    (hfail : job.isCompleted = false ∨ job.responseCode ≠ 200
      ∨ ∃ e, Carts.parseGlobalCart env job.data = .error e) :
    (Carts.authenticatedTransferFinished env carts job now).1.m_carts = carts.m_carts
    ∧ (Carts.authenticatedTransferFinished env carts job now).1.m_updateStatus = .UpdateFailed
    ∧ (∃ message, CartsSignal.updateFinished false message
        ∈ (Carts.authenticatedTransferFinished env carts job now).2)
    ∧ (∀ success message, CartsSignal.updateFinished success message
        ∈ (Carts.authenticatedTransferFinished env carts job now).2 → success = false)
    ∧ (Carts.authenticatedTransferFinished env carts job now).1.m_job = none
    ∧ (Carts.authenticatedTransferFinished env carts job now).1.m_cartJobs
        = carts.m_cartJobs := by
  have hbranch : Carts.authenticatedTransferFinished env carts job now
      = Carts.globalCartTransferFinished env carts job now := by
    unfold Carts.authenticatedTransferFinished
    simp only [htag, hjob]
    rw [if_neg (by simp), if_pos (by simp)]
  obtain ⟨message, hval⟩ := globalCartTransferFinished_failed env carts job now hfail
  rw [hbranch, hval]
  refine ⟨?_, ?_, ⟨message, by simp⟩, ?_, rfl, ?_⟩
  · simp only [Carts.setLastUpdated, Carts.setUpdateStatus]
    split_ifs <;> rfl
  · simp only [Carts.setLastUpdated, Carts.setUpdateStatus]
    split_ifs with h1 h2 h2
    · rfl
    · simp only [ne_eq, not_not] at h2; exact h2.symm
    · rfl
    · simp only [ne_eq, not_not] at h2; exact h2.symm
  · intro success msg hmem
    simp only [Carts.setLastUpdated, Carts.setUpdateStatus] at hmem
    split_ifs at hmem <;> simp at hmem <;> exact hmem.1
  · simp only [Carts.setLastUpdated, Carts.setUpdateStatus]
    split_ifs <;> rfl

/-! ## Witnesses -/

/-- Witness of C22: a comma typed into a `QDoubleSpinBox` under a locale with the decimal
point `.` is consumed and replaced by an event with the text `.`. -/
theorem dot_comma_fixed_point_witness :
    (sampleKeyEvent.type = .KeyPress ∨ sampleKeyEvent.type = .KeyRelease)
    ∧ (DotCommaFilter.eventFilter 46 .doubleSpinBox sampleKeyEvent).1 = true
    ∧ (DotCommaFilter.eventFilter 46 .doubleSpinBox sampleKeyEvent).2
        = [{ sampleKeyEvent with text := [46] }]
    ∧ ∀ nke ∈ (DotCommaFilter.eventFilter 46 .doubleSpinBox sampleKeyEvent).2,
        DotCommaFilter.eventFilter 46 .doubleSpinBox nke = (false, []) :=
  ⟨Or.inl rfl, by decide, by decide,
    (dot_comma_fixed_point 46 .doubleSpinBox sampleKeyEvent (Or.inl rfl) (Or.inl rfl)).2.2.2.2⟩

set_option maxRecDepth 20000 in
/-- Witness of C21 on `samplePage`: marker at 8, opening brace at 25, end sequence at 26; the
bytes handed to the JSON parser are the two braces. -/
theorem parseGlobalCart_rejects_witness :
    firstOccurrence Carts.globalCartMarker samplePage 0 8
    ∧ firstOccurrence [Carts.openBrace] samplePage 8 25
    ∧ firstOccurrence Carts.globalCartEnd samplePage 8 26
    ∧ Carts.globalCartSlice samplePage = .ok ((samplePage.drop 25).take (26 - 25 + 1))
    ∧ (samplePage.drop 25).take (26 - 25 + 1) = [123, 125]
    ∧ ∃ message, Carts.parseGlobalCart sampleGlobalCartEnv sampleLoginPage = .error message
        ∧ isInvalidHtml message :=
  ⟨by decide, by decide, by decide,
    ((parseGlobalCart_rejects sampleGlobalCartEnv samplePage).2.2 8 25 26
      (by decide) (by decide) (by decide) (by decide)).1,
    by decide,
    (parseGlobalCart_rejects sampleGlobalCartEnv sampleLoginPage).1.2
      (Or.inl (by
        rintro ⟨i, hi⟩
        have hb := occursAt_bound _ _ i (by decide) hi
        have hlt : i < 13 := by
          have hl : sampleLoginPage.length = 26 := by decide
          have hm : Carts.globalCartMarker.length = 14 := by decide
          omega
        have hkey : ∀ k : Nat, k < 13 → ¬ occursAt Carts.globalCartMarker sampleLoginPage k := by
          decide
        exact hkey i hlt hi))⟩

set_option maxRecDepth 20000 in
/-- Witness of C23: the refresh job got the login page, so `parseGlobalCart` throws; the
carts stay `[sampleCart]`, the status becomes `UpdateFailed`. -/
theorem failed_refresh_is_atomic_witness :
    sampleUpdatingCarts.m_job = some sampleGlobalCartJob
    ∧ sampleGlobalCartJob.userTag = "globalCart"
    ∧ Carts.parseGlobalCart sampleGlobalCartEnv sampleGlobalCartJob.data
        = .error "Invalid HTML - cannot parse"
    ∧ (Carts.authenticatedTransferFinished sampleGlobalCartEnv sampleUpdatingCarts
        sampleGlobalCartJob 1000).1.m_carts = [sampleCart]
    ∧ (Carts.authenticatedTransferFinished sampleGlobalCartEnv sampleUpdatingCarts
        sampleGlobalCartJob 1000).1.m_updateStatus = .UpdateFailed :=
  ⟨rfl, rfl, by rfl,
    (failed_refresh_is_atomic sampleGlobalCartEnv sampleUpdatingCarts sampleGlobalCartJob 1000
      rfl rfl (Or.inr (Or.inr ⟨_, by rfl⟩))).1,
    (failed_refresh_is_atomic sampleGlobalCartEnv sampleUpdatingCarts sampleGlobalCartJob 1000
      rfl rfl (Or.inr (Or.inr ⟨_, by rfl⟩))).2.1⟩

end BrickStore
